import Mathlib

/-! MathWebSearch: the Content MathML token tree and the request callback of the daemon.

A shallow embedding of `src/mws/types/CmmlToken.cpp` and, further down, of the class
`MemStream` and the function `accessHandlerCallback` of `src/mws/daemon/Daemon.cpp`.

* A `std::string` is a Lean `String` (a sequence of `Char`, one per C++ `char`).
* A `CmmlToken` together with the subtree it owns is a value of the inductive type
  `CmmlToken`.  The non-owning `_parentNode` back pointer is not stored: a node is
  addressed by its position below the root (`NodePtr`), which determines its parent.
* `uint32_t` arithmetic is arithmetic on `Nat` reduced modulo `2 ^ 32`.
* `std::map<string, string>` is an association list with unique keys; only `insert`
  and `find` are embedded, the iteration order is not.
-/

namespace mws

/-! ## Library functions used by the source -/

/-- The C function `isspace` in the "C" locale: space, `\t`, `\n`, `\v`, `\f`, `\r`. -/
def isspace (c : Char) : Bool :=
  c = ' ' || c = '\t' || c = '\n' || c = '\x0b' || c = '\x0c' || c = '\r'

/-- The call `s.substr(pos, n)` of `std::string`, for `pos ≤ s.size()`: at most `n`
characters starting at index `pos`. -/
def substr (s : String) (pos n : Nat) : String :=
  ⟨(s.data.drop pos).take n⟩

/-- The test `s.compare(pos, len, str) == 0` of `std::string`: the substring
`s.substr(pos, len)` is equal to `str`. -/
def compareEq0 (s : String) (pos len : Nat) (str : String) : Bool :=
  decide (substr s pos len = str)

/-- Modelled from the spec: `ToString` of `common/utils/ToString.hpp` is not among the
sources; the spec writes the path segment as `"/*[" + (1-based child index) + "]"`, so
`ToString` of an unsigned integer is its decimal representation. -/
def ToString (n : Nat) : String :=
  Nat.repr n

/-- The member `std::map::find`, as an optional value (`none` is `end()`). -/
def mapFind (m : List (String × String)) (k : String) : Option String :=
  match m with
  | [] => none
  | (k', v) :: rest => if k' = k then some v else mapFind rest k

/-- The member `std::map::insert(make_pair(k, v))`: the pair is added only when the map
holds no element with key `k`; otherwise the map is left as it is. -/
def mapInsert (m : List (String × String)) (k v : String) : List (String × String) :=
  match mapFind m k with
  | some _ => m
  | none => m ++ [(k, v)]

/-! ## The token tree -/

/-- The constant `MWS_QVAR_MEANING`. -/
def MWS_QVAR_MEANING : String := "mws:qvar"

/-- The constant `ROOT_XPATH_SELECTOR`. -/
def ROOT_XPATH_SELECTOR : String := "/*[1]"

/-- The enumeration `CmmlToken::Type`. -/
inductive TokenType where
  | VAR
  | CONSTANT
deriving DecidableEq, Repr

/-- A `CmmlToken` with the subtree it owns: `_tag`, `_attributes`, `_textContent`,
`_childNodes`, `_xpath`, `_mode`. -/
inductive CmmlToken where
  | mk (tag : String) (attributes : List (String × String)) (textContent : String)
      (childNodes : List CmmlToken) (xpath : String) (mode : Bool) : CmmlToken

namespace CmmlToken

/-- The field `_tag`. -/
def tag : CmmlToken → String
  | mk tg _ _ _ _ _ => tg

/-- The field `_attributes`. -/
def attributes : CmmlToken → List (String × String)
  | mk _ ats _ _ _ _ => ats

/-- The field `_mode`. -/
def mode : CmmlToken → Bool
  | mk _ _ _ _ _ m => m

/-- The constructor `CmmlToken::CmmlToken(bool aMode)`. -/
def new (aMode : Bool) : CmmlToken :=
  mk "" [] "" [] ROOT_XPATH_SELECTOR aMode

/-- The function `CmmlToken::newRoot`. -/
def newRoot (aMode : Bool) : CmmlToken :=
  new aMode

/-- The function `CmmlToken::setTag`. -/
def setTag : CmmlToken → String → CmmlToken
  | mk _ ats tx cs xp m, aTag =>
    if compareEq0 aTag 0 2 "m:" then
      mk (substr aTag 2 (aTag.length - 2)) ats tx cs xp m
    else
      mk aTag ats tx cs xp m

/-- The function `CmmlToken::addAttribute`. -/
def addAttribute : CmmlToken → String → String → CmmlToken
  | mk tg ats tx cs xp m, anAttribute, aValue =>
    mk tg (mapInsert ats anAttribute aValue) tx cs xp m

/-- The function `CmmlToken::getAttribute`. -/
def getAttribute (t : CmmlToken) (anAttribute : String) : String :=
  match mapFind t.attributes anAttribute with
  | some second => second
  | none => ""

/-- The loop of `CmmlToken::appendTextContent` over the bytes still to be read; the
second argument is `_textContent`. -/
def appendTextContentLoop : List Char → String → String
  | [], text => text
  | c :: rest, text =>
    appendTextContentLoop rest (if !isspace c then text.push c else text)

/-- The function `CmmlToken::appendTextContent`; the list holds the `nBytes` bytes
`aTextContent[0 .. nBytes)`. -/
def appendTextContent : CmmlToken → List Char → CmmlToken
  | mk tg ats tx cs xp m, aTextContent =>
    mk tg ats (appendTextContentLoop aTextContent tx) cs xp m

/-- The function `CmmlToken::getTextContent`. -/
def getTextContent : CmmlToken → String
  | mk _ _ tx _ _ _ => tx

/-- The function `CmmlToken::getChildNodes`. -/
def getChildNodes : CmmlToken → List CmmlToken
  | mk _ _ _ cs _ _ => cs

/-- The function `CmmlToken::getXpath`. -/
def getXpath : CmmlToken → String
  | mk _ _ _ _ xp _ => xp

/-- The function `CmmlToken::getXpathRelative`: the string constructed from `_xpath`
starting at position `strlen(ROOT_XPATH_SELECTOR)`, up to its end (`string::npos`). -/
def getXpathRelative (t : CmmlToken) : String :=
  substr t.getXpath ROOT_XPATH_SELECTOR.length (t.getXpath.length - ROOT_XPATH_SELECTOR.length)

/-- The function `CmmlToken::newChildNode` on the node itself: the node after the call
and the child that is returned. -/
def newChildNode : CmmlToken → CmmlToken × CmmlToken
  | mk tg ats tx cs xp m =>
    let result := new m
    let childNodes := cs ++ [result]
    let result := mk result.tag result.attributes result.getTextContent
      result.getChildNodes (xp ++ "/*[" ++ ToString childNodes.length ++ "]") result.mode
    (mk tg ats tx (cs ++ [result]) xp m, result)

mutual
/-- The function `CmmlToken::getExprDepth` (`uint32_t`). -/
def getExprDepth : CmmlToken → Nat
  | mk _ _ _ cs _ _ => getExprDepthLoop cs 0
/-- The `for` loop of `getExprDepth` over the remaining children; the second argument
is `max_depth`. -/
def getExprDepthLoop : List CmmlToken → Nat → Nat
  | [], max_depth => max_depth
  | child :: rest, max_depth =>
    let depth := (getExprDepth child + 1) % 2 ^ 32
    getExprDepthLoop rest (if depth > max_depth then depth else max_depth)
end

mutual
/-- The function `CmmlToken::getExprSize` (`uint32_t`). -/
def getExprSize : CmmlToken → Nat
  | mk _ _ _ cs _ _ => getExprSizeLoop cs 1
/-- The `for` loop of `getExprSize` over the remaining children; the second argument
is `size`. -/
def getExprSizeLoop : List CmmlToken → Nat → Nat
  | [], size => size
  | child :: rest, size => getExprSizeLoop rest ((size + getExprSize child) % 2 ^ 32)
end

/-- The function `CmmlToken::getType`. -/
def getType (t : CmmlToken) : TokenType :=
  if t.tag = MWS_QVAR_MEANING then TokenType.VAR else TokenType.CONSTANT

/-- The function `CmmlToken::getMeaning`. -/
def getMeaning (t : CmmlToken) : String :=
  if t.tag = MWS_QVAR_MEANING then MWS_QVAR_MEANING
  else if t.tag = "apply" ∨ t.getTextContent = "" then t.tag
  else "#" ++ t.getTextContent

mutual
/-- The function `CmmlToken::equals`. -/
def equals : CmmlToken → CmmlToken → Bool
  | mk tg ats tx cs xp m, t =>
    if getType (mk tg ats tx cs xp m) ≠ getType t then false
    else if getMeaning (mk tg ats tx cs xp m) ≠ getMeaning t then false
    else if cs.length ≠ t.getChildNodes.length then false
    else equalsLoop cs t.getChildNodes
/-- The `while` loop of `equals`: `it1` and `it2` advance together until `it1` reaches
the end.  It is entered only with lists of the same size; dereferencing `it2` at its end
(undefined behaviour, not reachable) is given the value `false`. -/
def equalsLoop : List CmmlToken → List CmmlToken → Bool
  | [], _ => true
  | _ :: _, [] => false
  | c1 :: it1, c2 :: it2 => if !(equals c1 c2) then false else equalsLoop it1 it2
end

end CmmlToken

/-! ## Nodes inside a tree -/

/-- A pointer to a node of a tree: the 0-based child indices on the way down from the
root (`[]` is the root itself). -/
abbrev NodePtr := List Nat

namespace CmmlToken

/-- The node a pointer designates, `none` for a pointer to no node of the tree. -/
def deref : CmmlToken → NodePtr → Option CmmlToken
  | t, [] => some t
  | t, i :: p =>
    match t.getChildNodes[i]? with
    | none => none
    | some c => deref c p

/-- The tree after a member function that changes the designated node to `f node`. -/
def updateAt (f : CmmlToken → CmmlToken) : CmmlToken → NodePtr → Option CmmlToken
  | t, [] => some (f t)
  | mk tg ats tx cs xp m, i :: p =>
    match cs[i]? with
    | none => none
    | some c =>
      match updateAt f c p with
      | none => none
      | some c' => some (mk tg ats tx (cs.set i c') xp m)

/-- The call `this->newChildNode()` for the node `this` of the tree `root`: the tree
after the call and the pointer that is returned. -/
def newChildNodeAt (root : CmmlToken) (this : NodePtr) : Option (CmmlToken × NodePtr) :=
  match deref root this with
  | none => none
  | some node =>
    match updateAt (fun n => (newChildNode n).1) root this with
    | none => none
    | some root' => some (root', this ++ [node.getChildNodes.length])

/-- A sequence of `newChildNode` calls, each on the node the pointer designates. -/
def newChildNodes : CmmlToken → List NodePtr → Option CmmlToken
  | root, [] => some root
  | root, this :: calls =>
    match newChildNodeAt root this with
    | none => none
    | some (root', _) => newChildNodes root' calls

/-- A tree that is one path of `n` edges: a node with one child, `n` times, down to a
leaf. -/
def chain : Nat → CmmlToken
  | 0 => new false
  | n + 1 => mk "" [] "" [chain n] ROOT_XPATH_SELECTOR false

/-- The tree that `newRoot(false)` followed by `newChildNode` on the root, on the root
again and on the first child builds. -/
def sampleTree : CmmlToken :=
  mk "" [] ""
    [mk "" [] "" [mk "" [] "" [] "/*[1]/*[1]/*[1]" false] "/*[1]/*[1]" false,
     mk "" [] "" [] "/*[1]/*[2]" false] "/*[1]" false

end CmmlToken

/-- The pointer `N` relative to the node `p`: `some q` when `N` is `p` followed by `q`
(the node `N` is `p` itself or lies below it), `none` otherwise. -/
def below : NodePtr → NodePtr → Option NodePtr
  | [], N => some N
  | _ :: _, [] => none
  | j :: p, i :: N => if i = j then below p N else none

/-- The xpath a node at the position `p` is expected to have: the root selector
followed by one segment "/*[k]" for each step down, `k` the 1-based child index. -/
def xpathOf (p : NodePtr) : String :=
  p.foldl (fun acc i => acc ++ "/*[" ++ ToString (i + 1) ++ "]") ROOT_XPATH_SELECTOR

/-- The characters of `xpathOf p` after the root selector. -/
def xpathTail : NodePtr → List Char
  | [] => []
  | i :: p => '/' :: '*' :: '[' :: ((ToString (i + 1)).data ++ ']' :: xpathTail p)

/-- The number a list of decimal digits stands for. -/
def digitsToNat (ds : List Char) : Nat :=
  ds.foldl (fun acc c => 10 * acc + (c.toNat - 48)) 0

/-! ## Notions of the specification -/

namespace CmmlToken

mutual
/-- Follows the spec's words: `t'` is a deep copy of `t`, that is, it has the same tag,
the same text content and, recursively, the same children in the same order. -/
def isDeepCopy : CmmlToken → CmmlToken → Bool
  | mk tg _ tx cs _ _, t' =>
    decide (tg = t'.tag) && decide (tx = t'.getTextContent) &&
      isDeepCopyList cs t'.getChildNodes
/-- Follows the spec's words: two child lists of the same length whose members are deep
copies of each other, position by position. -/
def isDeepCopyList : List CmmlToken → List CmmlToken → Bool
  | [], [] => true
  | [], _ :: _ => false
  | _ :: _, [] => false
  | c :: cs, c' :: cs' => isDeepCopy c c' && isDeepCopyList cs cs'
end

mutual
/-- Follows the spec's words: the total number of nodes of the subtree, as a natural
number (no machine width). -/
def nodeCount : CmmlToken → Nat
  | mk _ _ _ cs _ _ => 1 + nodeCountList cs
/-- The total number of nodes of a list of subtrees. -/
def nodeCountList : List CmmlToken → Nat
  | [] => 0
  | c :: cs => nodeCount c + nodeCountList cs
end

mutual
/-- Follows the spec's words: 0 for a leaf, otherwise 1 plus the maximum of the
children's depths, as a natural number (no machine width). -/
def specDepth : CmmlToken → Nat
  | mk _ _ _ cs _ _ => specDepthList cs
/-- For a list of children: 0 when there is none, otherwise 1 plus the maximum of their
depths. -/
def specDepthList : List CmmlToken → Nat
  | [] => 0
  | c :: cs => max (1 + specDepth c) (specDepthList cs)
end

end CmmlToken

/-! ## The daemon: `MemStream` and `accessHandlerCallback` (`Daemon.cpp`)

A `FILE*` is `none` for `nullptr` and otherwise the bytes of the stream: for the write
stream of `open_memstream` the bytes written so far, for the read stream of `fmemopen`
the bytes it reads from its start.  A failed `assert` ends the run with
`Fault.assertion`.  The functions of other components that the callback calls (the
parser, the query handler, the response formatter, the senders of the fixed responses)
are not embedded: the parser, handler and formatter arrive as arguments, and a sender
is recorded by the `Reply` it was called for. -/

namespace daemon

/-- The enumeration `MemStream::Mode`. -/
inductive Mode where
  | MODE_WRITING
  | MODE_READING_BUFFER
  | MODE_READING_FILE
deriving DecidableEq, Repr

/-- A call of the C library on the resources of a `MemStream`: the two streams and the
memory block.  `fmemopen true` is a call that returned a stream; `free true` is a call on
the memory block and `free false` the call `free(nullptr)`, which does nothing. -/
inductive LibcCall where
  | open_memstream
  | fclose_input
  | fmemopen (opened : Bool)
  | fclose_output
  | free (block : Bool)
deriving DecidableEq, Repr

/-- The reasons for which a run of the embedded code has no result. -/
inductive Fault where
  | assertion
  | undefined
  | fuel
deriving DecidableEq, Repr

/-- The class `MemStream`: its five members and, in `calls`, the calls of the C library it
has made on its resources, oldest first. -/
structure MemStream where
  _mode : Mode
  _buffer : Option (List Char)
  _buffer_size : Nat
  _input : Option (List Char)
  _output : Option (List Char)
  calls : List LibcCall
deriving DecidableEq, Repr

/-- The structure `MemStream::Buffer`. -/
structure Buffer where
  data : Option (List Char)
  size : Nat
deriving DecidableEq, Repr

/-- The C function `fmemopen(buffer, size, "r")`: a read stream over the first `size`
bytes of the block.  For `size = 0` the call fails on some C libraries and not on others
(the source: "fmemopen shouldn't fail if _buffer_size > 0"); `zeroSizeOk` tells which. -/
def fmemopen (zeroSizeOk : Bool) (buffer : Option (List Char)) (size : Nat) :
    Option (List Char) :=
  if size = 0 then (if zeroSizeOk then some [] else none)
  else some ((buffer.getD []).take size)

/-- The C function `fwrite(ptr, 1, n, stream)` on an open write stream, where the stream
is able to take `accept` more bytes: the number of bytes written and the stream after. -/
def fwrite (accept : Nat) (ptr : List Char) (stream : List Char) : Nat × List Char :=
  (min accept ptr.length, stream ++ ptr.take (min accept ptr.length))

namespace MemStream

/-- The constructor `MemStream::MemStream()`; `open_memstream` returns a stream (its
failure, an allocation failure, trips the assertion of the constructor). -/
def new : MemStream :=
  { _mode := Mode.MODE_WRITING, _buffer := none, _buffer_size := 0, _input := some [],
    _output := none, calls := [LibcCall.open_memstream] }

/-- The function `MemStream::getInput`. -/
def getInput (s : MemStream) : Option (List Char) :=
  s._input

/-- The function `MemStream::closeWritingMode`.  Closing the stream of `open_memstream`
stores the block that holds the bytes written, and their number, in `_buffer` and
`_buffer_size`. -/
def closeWritingMode (s : MemStream) : Except Fault MemStream :=
  if s._mode ≠ Mode.MODE_WRITING then Except.error Fault.assertion
  else
    match s._input with
    | some written =>
      Except.ok { s with _buffer := some written, _buffer_size := written.length,
                         _input := none, calls := s.calls ++ [LibcCall.fclose_input] }
    | none => Except.ok { s with _input := none }

/-- The function `MemStream::closeReadingFileMode`. -/
def closeReadingFileMode (s : MemStream) : Except Fault MemStream :=
  if s._mode ≠ Mode.MODE_READING_FILE then Except.error Fault.assertion
  else
    match s._output with
    | some _ => Except.ok { s with _output := none, calls := s.calls ++ [LibcCall.fclose_output] }
    | none => Except.ok { s with _output := none }

/-- The function `MemStream::getOutputFile`: the object after the call and the stream
returned. -/
def getOutputFile (zeroSizeOk : Bool) (s : MemStream) :
    Except Fault (MemStream × Option (List Char)) :=
  match closeWritingMode s with
  | Except.error e => Except.error e
  | Except.ok s1 =>
    let output := fmemopen zeroSizeOk s1._buffer s1._buffer_size
    let s2 := { s1 with _mode := Mode.MODE_READING_FILE, _output := output,
                        calls := s1.calls ++ [LibcCall.fmemopen output.isSome] }
    if s2._buffer_size ≠ 0 ∧ s2._output = none then Except.error Fault.assertion
    else Except.ok (s2, s2._output)

/-- The function `MemStream::getOutputBuffer`: the object after the call and the buffer
returned. -/
def getOutputBuffer (s : MemStream) : Except Fault (MemStream × Buffer) :=
  match closeWritingMode s with
  | Except.error e => Except.error e
  | Except.ok s1 =>
    let s2 := { s1 with _mode := Mode.MODE_READING_BUFFER }
    Except.ok (s2, { data := s2._buffer, size := s2._buffer_size })

/-- The function `MemStream::releaseOutputBuffer`. -/
def releaseOutputBuffer (s : MemStream) : Except Fault (MemStream × Buffer) :=
  match getOutputBuffer s with
  | Except.error e => Except.error e
  | Except.ok (s1, buffer) => Except.ok ({ s1 with _buffer := none }, buffer)

/-- The destructor `MemStream::~MemStream`: the members and the calls made when it has
run. -/
def destroy (s : MemStream) : Except Fault MemStream :=
  let closed :=
    match s._mode with
    | Mode.MODE_WRITING => closeWritingMode s
    | Mode.MODE_READING_FILE => closeReadingFileMode s
    | Mode.MODE_READING_BUFFER => Except.ok s
  match closed with
  | Except.error e => Except.error e
  | Except.ok s1 =>
    if s1._input ≠ none then Except.error Fault.assertion
    else if s1._output ≠ none then Except.error Fault.assertion
    else Except.ok { s1 with calls := s1.calls ++ [LibcCall.free s1._buffer.isSome] }

/-- The call `fwrite(ptr, 1, n, memstream->getInput())` that offers the `n` bytes of `ptr`
to a stream able to take `accept` more bytes: the number of bytes written and the object
after.  Writing through a null handle is undefined. -/
def write (accept : Nat) (ptr : List Char) (s : MemStream) : Except Fault (Nat × MemStream) :=
  match s.getInput with
  | none => Except.error Fault.undefined
  | some stream =>
    Except.ok ((fwrite accept ptr stream).1, { s with _input := some (fwrite accept ptr stream).2 })

end MemStream

/-- The public operations on a `MemStream` between its construction and its destruction,
`write` standing for an `fwrite` through the handle that `getInput` returns. -/
inductive Op where
  | getInput
  | write (accept : Nat) (ptr : List Char)
  | getOutputFile
  | getOutputBuffer
  | releaseOutputBuffer
deriving DecidableEq, Repr

/-- The three conversions out of the writing mode. -/
def Op.isConversion : Op → Bool
  | Op.getOutputFile => true
  | Op.getOutputBuffer => true
  | Op.releaseOutputBuffer => true
  | _ => false

/-- One public operation on a `MemStream`. -/
def MemStream.step (zeroSizeOk : Bool) (s : MemStream) : Op → Except Fault MemStream
  | Op.getInput => Except.ok s
  | Op.write accept ptr =>
    match MemStream.write accept ptr s with
    | Except.error e => Except.error e
    | Except.ok (_, s1) => Except.ok s1
  | Op.getOutputFile =>
    match MemStream.getOutputFile zeroSizeOk s with
    | Except.error e => Except.error e
    | Except.ok (s1, _) => Except.ok s1
  | Op.getOutputBuffer =>
    match MemStream.getOutputBuffer s with
    | Except.error e => Except.error e
    | Except.ok (s1, _) => Except.ok s1
  | Op.releaseOutputBuffer =>
    match MemStream.releaseOutputBuffer s with
    | Except.error e => Except.error e
    | Except.ok (s1, _) => Except.ok s1

/-- A sequence of public operations on a `MemStream`. -/
def MemStream.run (zeroSizeOk : Bool) : MemStream → List Op → Except Fault MemStream
  | s, [] => Except.ok s
  | s, op :: ops =>
    match MemStream.step zeroSizeOk s op with
    | Except.error e => Except.error e
    | Except.ok s1 => MemStream.run zeroSizeOk s1 ops

/-- The enumeration `QueryMode` of the parser. -/
inductive QueryMode where
  | QUERY_MWS
  | QUERY_SCHEMA
deriving DecidableEq, Repr

/-- What the callback uses of a response formatter: `writeData(answer, output)` gives the
bytes it writes to `output` and the integer it returns; `getContentType()`. -/
structure ResponseFormatter (Answer : Type) where
  writeData : Answer → List Char × Int
  getContentType : String

/-- What the callback uses of a `Query`: `tokens` and `responseFormatter`. -/
structure Query (Answer : Type) where
  tokens : List CmmlToken
  responseFormatter : ResponseFormatter Answer

/-- What the callback uses of the `QueryHandler` it gets in `cls`: `handleQuery`, with
`none` for a null answer set, and whether the object is a `SchemaQueryHandler`. -/
structure QueryHandler (Answer : Type) where
  handleQuery : Query Answer → Option Answer
  isSchemaQueryHandler : Bool

/-- What is fixed when the daemon is compiled and run: the constant `ROOT_URL`, the
parser `readMwsQuery` (`none` for a null query), `applyRestrictions` when
`APPLY_RESTRICTIONS` is defined, and the behaviour of `fmemopen` for an empty buffer. -/
structure Setting (Answer : Type) where
  ROOT_URL : String
  readMwsQuery : Option (List Char) → QueryMode → Option (Query Answer)
  applyRestrictions : Option (Query Answer → Query Answer)
  zeroSizeOk : Bool

/-- The constant `MHD_HTTP_METHOD_OPTIONS` of libmicrohttpd. -/
def MHD_HTTP_METHOD_OPTIONS : String := "OPTIONS"

/-- The constant `MHD_HTTP_METHOD_GET` of libmicrohttpd. -/
def MHD_HTTP_METHOD_GET : String := "GET"

/-- The constant `MHD_HTTP_METHOD_POST` of libmicrohttpd. -/
def MHD_HTTP_METHOD_POST : String := "POST"

/-- The constant `MHD_HTTP_OK` of libmicrohttpd. -/
def MHD_HTTP_OK : Nat := 200

/-- The constant `MHD_HTTP_BAD_REQUEST` of libmicrohttpd. -/
def MHD_HTTP_BAD_REQUEST : Nat := 400

/-- The constant `MHD_HTTP_INTERNAL_SERVER_ERROR` of libmicrohttpd. -/
def MHD_HTTP_INTERNAL_SERVER_ERROR : Nat := 500

/-- The fixed documents of `GenericHttpResponses.hpp` that the callback names. -/
inductive XmlDocument where
  | XML_MWS_ROOT_RESPONSE
  | XML_MWS_BAD_QUERY
  | XML_MWS_SERVER_ERROR
deriving DecidableEq, Repr

/-- The response the callback hands to the connection, by the call that does it: one of
the three senders of `GenericHttpResponses.hpp` with its arguments, or
`MHD_queue_response` with the status, the buffer (`size`, `data`) and the headers of the
response created from the buffer. -/
inductive Reply where
  | sendOptionsResponse (isRootURL : Bool)
  | sendXmlGenericResponse (xmlGenericResponse : XmlDocument) (statusCode : Nat)
  | sendMethodNotAllowedResponse (isRootURL : Bool)
  | queueResponse (statusCode : Nat) (size : Nat) (data : Option (List Char))
      (headers : List (String × String))
deriving DecidableEq, Repr

/-- Modelled from the spec: the senders of `GenericHttpResponses.hpp` are not among the
sources; by the table of fixed responses the negotiation response has status 200, the
method-not-allowed response status 405, and a generic XML response the status it is
called with. -/
def Reply.status : Reply → Nat
  | Reply.sendOptionsResponse _ => 200
  | Reply.sendXmlGenericResponse _ statusCode => statusCode
  | Reply.sendMethodNotAllowedResponse _ => 405
  | Reply.queueResponse statusCode _ _ _ => statusCode

/-- The integer the callback returns: `MHD_YES`, `MHD_NO`, or what the sender of the
response returned. -/
inductive Ret where
  | MHD_YES
  | MHD_NO
  | ofSender
deriving DecidableEq, Repr

/-- What a call of `accessHandlerCallback` leaves: the value returned, the response handed
to the connection if any, the live `MemStream` in the slot `*ptr` (`none` for a null slot
and after `delete`, which leaves the old address in the slot), `*upload_data_size`, the
`MemStream` objects destroyed during the call as their destructor left them, and the
number of calls of `handleQuery`. -/
structure CallbackResult where
  ret : Ret
  reply : Option Reply
  ptr : Option MemStream
  upload_data_size : Nat
  destroyed : List MemStream
  handleQueryCalls : Nat
deriving DecidableEq, Repr

/-- The two ways out of the `while` loop of the callback: the loop condition is false
(`done`, with the `MemStream` as written), or a write took no byte and the `MemStream` was
deleted (`failed`, with the object as destroyed and `*upload_data_size`). -/
inductive LoopExit where
  | done (memstream : MemStream)
  | failed (destroyed : MemStream) (upload_data_size : Nat)
deriving DecidableEq, Repr

/-- The `while (*upload_data_size)` loop of the callback.  `upload_data` holds the
`*upload_data_size` bytes not yet written, `accepts k` is the number of bytes the stream
is able to take at the `k`-th `fwrite` of the call, and `fuel` bounds the number of
iterations. -/
def accumulate (accepts : Nat → Nat) :
    Nat → Nat → List Char → MemStream → Except Fault LoopExit
  | _, _, [], memstream => Except.ok (LoopExit.done memstream)
  | 0, _, _ :: _, _ => Except.error Fault.fuel
  | fuel + 1, k, c :: cs, memstream =>
    match MemStream.write (accepts k) (c :: cs) memstream with
    | Except.error e => Except.error e
    | Except.ok (nbytes, memstream1) =>
      if nbytes ≤ 0 then
        match MemStream.destroy memstream with
        | Except.error e => Except.error e
        | Except.ok d => Except.ok (LoopExit.failed d (c :: cs).length)
      else accumulate accepts fuel (k + 1) ((c :: cs).drop nbytes) memstream1

/-- The part of `accessHandlerCallback` after the body has arrived: parse, handle, format
and respond. -/
def respond {Answer : Type} (setting : Setting Answer) (cls : QueryHandler Answer)
    (memstream : MemStream) : Except Fault CallbackResult :=
  let qMode := if cls.isSchemaQueryHandler then QueryMode.QUERY_SCHEMA else QueryMode.QUERY_MWS
  match MemStream.getOutputFile setting.zeroSizeOk memstream with
  | Except.error e => Except.error e
  | Except.ok (memstream1, file) =>
    let mwsQuery := setting.readMwsQuery file qMode
    match MemStream.destroy memstream1 with
    | Except.error e => Except.error e
    | Except.ok d =>
      match mwsQuery with
      | none =>
        Except.ok { ret := Ret.ofSender,
                    reply := some (Reply.sendXmlGenericResponse XmlDocument.XML_MWS_BAD_QUERY
                      MHD_HTTP_BAD_REQUEST),
                    ptr := none, upload_data_size := 0, destroyed := [d],
                    handleQueryCalls := 0 }
      | some query =>
        if query.tokens.length = 0 then
          Except.ok { ret := Ret.ofSender,
                      reply := some (Reply.sendXmlGenericResponse XmlDocument.XML_MWS_BAD_QUERY
                        MHD_HTTP_BAD_REQUEST),
                      ptr := none, upload_data_size := 0, destroyed := [d],
                      handleQueryCalls := 0 }
        else
          let query1 :=
            match setting.applyRestrictions with
            | some restrict => restrict query
            | none => query
          match cls.handleQuery query1 with
          | none =>
            Except.ok { ret := Ret.ofSender,
                        reply := some (Reply.sendXmlGenericResponse
                          XmlDocument.XML_MWS_SERVER_ERROR MHD_HTTP_INTERNAL_SERVER_ERROR),
                        ptr := none, upload_data_size := 0, destroyed := [d],
                        handleQueryCalls := 1 }
          | some answset =>
            let written := (query1.responseFormatter.writeData answset).1
            let ret := (query1.responseFormatter.writeData answset).2
            let responseData := { MemStream.new with _input := some written }
            if ret < 0 then
              match MemStream.destroy responseData with
              | Except.error e => Except.error e
              | Except.ok d1 =>
                Except.ok { ret := Ret.ofSender,
                            reply := some (Reply.sendXmlGenericResponse
                              XmlDocument.XML_MWS_SERVER_ERROR MHD_HTTP_INTERNAL_SERVER_ERROR),
                            ptr := none, upload_data_size := 0, destroyed := [d, d1],
                            handleQueryCalls := 1 }
            else
              match MemStream.releaseOutputBuffer responseData with
              | Except.error e => Except.error e
              | Except.ok (responseData1, responseDataBuffer) =>
                match MemStream.destroy responseData1 with
                | Except.error e => Except.error e
                | Except.ok d1 =>
                  Except.ok { ret := Ret.ofSender,
                              reply := some (Reply.queueResponse MHD_HTTP_OK
                                responseDataBuffer.size responseDataBuffer.data
                                [("Content-Type", query1.responseFormatter.getContentType),
                                 ("Access-Control-Allow-Origin", "*"),
                                 ("Cache-Control", "no-cache, must-revalidate")]),
                              ptr := none, upload_data_size := 0, destroyed := [d, d1],
                              handleQueryCalls := 1 }

/-- The function `accessHandlerCallback`.  `upload_data` holds the `*upload_data_size`
bytes of the chunk, `ptr` is the `MemStream` in the slot `*ptr` (`none` for a null slot),
`accepts` tells how many bytes each `fwrite` of the call is able to take. -/
def accessHandlerCallback {Answer : Type} (setting : Setting Answer)
    (cls : QueryHandler Answer) (url method : String) (upload_data : List Char)
    (accepts : Nat → Nat) (ptr : Option MemStream) : Except Fault CallbackResult :=
  let isRootURL := decide (url = setting.ROOT_URL)
  if method = MHD_HTTP_METHOD_OPTIONS then
    Except.ok { ret := Ret.ofSender, reply := some (Reply.sendOptionsResponse isRootURL),
                ptr := ptr, upload_data_size := upload_data.length, destroyed := [],
                handleQueryCalls := 0 }
  else if method = MHD_HTTP_METHOD_GET ∧ isRootURL = true then
    Except.ok { ret := Ret.ofSender,
                reply := some (Reply.sendXmlGenericResponse XmlDocument.XML_MWS_ROOT_RESPONSE
                  MHD_HTTP_OK),
                ptr := ptr, upload_data_size := upload_data.length, destroyed := [],
                handleQueryCalls := 0 }
  else if method ≠ MHD_HTTP_METHOD_POST then
    Except.ok { ret := Ret.ofSender, reply := some (Reply.sendMethodNotAllowedResponse isRootURL),
                ptr := ptr, upload_data_size := upload_data.length, destroyed := [],
                handleQueryCalls := 0 }
  else
    match ptr with
    | none =>
      Except.ok { ret := Ret.MHD_YES, reply := none, ptr := some MemStream.new,
                  upload_data_size := upload_data.length, destroyed := [],
                  handleQueryCalls := 0 }
    | some memstream =>
      if upload_data.length ≠ 0 then
        match accumulate accepts upload_data.length 0 upload_data memstream with
        | Except.error e => Except.error e
        | Except.ok (LoopExit.failed d n) =>
          Except.ok { ret := Ret.MHD_NO, reply := none, ptr := none, upload_data_size := n,
                      destroyed := [d], handleQueryCalls := 0 }
        | Except.ok (LoopExit.done memstream1) =>
          Except.ok { ret := Ret.MHD_YES, reply := none, ptr := some memstream1,
                      upload_data_size := 0, destroyed := [], handleQueryCalls := 0 }
      else respond setting cls memstream

/-- The chunks of a request body delivered one after the other to the callback of a
connection (method POST), each with the `accepts` of its writes, up to the first call that
does not return `MHD_YES`: the results of the calls and the slot after the last one. -/
def deliverChunks {Answer : Type} (setting : Setting Answer) (cls : QueryHandler Answer)
    (url : String) :
    Option MemStream → List (List Char × (Nat → Nat)) →
      Except Fault (List CallbackResult × Option MemStream)
  | ptr, [] => Except.ok ([], ptr)
  | ptr, (upload_data, accepts) :: rest =>
    match accessHandlerCallback setting cls url MHD_HTTP_METHOD_POST upload_data accepts ptr with
    | Except.error e => Except.error e
    | Except.ok r =>
      if r.ret = Ret.MHD_YES then
        match deliverChunks setting cls url r.ptr rest with
        | Except.error e => Except.error e
        | Except.ok (rs, ptr1) => Except.ok (r :: rs, ptr1)
      else Except.ok ([r], r.ptr)

/-- A setting and a handler for examples: root URL "/", a parser that finds a query with
one token `<ci>x</ci>` in a non-empty body and no query otherwise, a formatter that writes
"ok", a handler that answers every query. -/
def sampleSetting : Setting Unit :=
  { ROOT_URL := "/",
    readMwsQuery := fun file _ =>
      match file with
      | some (_ :: _) =>
        some { tokens := [CmmlToken.mk "ci" [] "x" [] "/*[1]" false],
               responseFormatter :=
                 { writeData := fun _ => ("ok".toList, 2), getContentType := "text/xml" } }
      | _ => none,
    applyRestrictions := none,
    zeroSizeOk := false }

/-- The handler of the examples. -/
def sampleHandler : QueryHandler Unit :=
  { handleQuery := fun _ => some (), isSchemaQueryHandler := false }

/-- The number of bytes the `k`-th `fwrite` of the loop is offered, that is
`*upload_data_size` when the loop comes to it, for a chunk of `upload_data_size` bytes: each
write before it took the smaller of what the stream was able to take and what it was
offered. -/
def offered (accepts : Nat → Nat) (upload_data_size : Nat) : Nat → Nat
  | 0 => upload_data_size
  | k + 1 =>
    offered accepts upload_data_size k -
      min (accepts k) (offered accepts upload_data_size k)

/-- A new `MemStream` after the bytes `written` have been written through its handle. -/
def MemStream.holding (written : List Char) : MemStream :=
  { MemStream.new with _input := some written }

/-- The query the parser returns at the end of a body `body`: `readMwsQuery` called with
the stream of `getOutputFile` and the mode of the handler. -/
def parsedQuery {Answer : Type} (setting : Setting Answer) (cls : QueryHandler Answer)
    (body : List Char) : Option (Query Answer) :=
  setting.readMwsQuery (fmemopen setting.zeroSizeOk (some body) body.length)
    (if cls.isSchemaQueryHandler then QueryMode.QUERY_SCHEMA else QueryMode.QUERY_MWS)

/-- The query as the handler gets it: after `applyRestrictions` when `APPLY_RESTRICTIONS`
is defined. -/
def restricted {Answer : Type} (setting : Setting Answer) (query : Query Answer) :
    Query Answer :=
  match setting.applyRestrictions with
  | some restrict => restrict query
  | none => query

/-- The response with the fixed bad-query document. -/
def badQueryReply : Reply :=
  Reply.sendXmlGenericResponse XmlDocument.XML_MWS_BAD_QUERY 400

/-- The response with the fixed server-error document. -/
def serverErrorReply : Reply :=
  Reply.sendXmlGenericResponse XmlDocument.XML_MWS_SERVER_ERROR 500

/-- The states of a `MemStream` between its construction and its destruction, by mode:
writing, with the bytes written so far; reading a file, after `getOutputFile`; reading a
buffer, after `getOutputBuffer` or, with `released`, after `releaseOutputBuffer`. -/
def MemStream.Reached (zeroSizeOk released : Bool) (s : MemStream) : Prop :=
  (∃ w, s = MemStream.holding w ∧ released = false) ∨
  (∃ b, s = { _mode := Mode.MODE_READING_FILE, _buffer := some b, _buffer_size := b.length,
              _input := none, _output := fmemopen zeroSizeOk (some b) b.length,
              calls := [LibcCall.open_memstream, LibcCall.fclose_input,
                LibcCall.fmemopen (fmemopen zeroSizeOk (some b) b.length).isSome] } ∧
    released = false) ∨
  (∃ b, s = { _mode := Mode.MODE_READING_BUFFER,
              _buffer := if released then none else some b, _buffer_size := b.length,
              _input := none, _output := none,
              calls := [LibcCall.open_memstream, LibcCall.fclose_input] })

end daemon

/-! # Properties -/

/-! ## Structural equality -/

namespace CmmlToken

theorem equals_unfold (a b : CmmlToken) :
    equals a b =
      (decide (getType a = getType b) && decide (getMeaning a = getMeaning b) &&
        decide (a.getChildNodes.length = b.getChildNodes.length) &&
        equalsLoop a.getChildNodes b.getChildNodes) := by
  cases a with
  | mk tg ats tx cs xp m =>
    rw [equals]
    by_cases h1 : getType (mk tg ats tx cs xp m) = getType b <;>
    by_cases h2 : getMeaning (mk tg ats tx cs xp m) = getMeaning b <;>
    by_cases h3 : cs.length = b.getChildNodes.length <;>
    simp [h1, h2, h3, getChildNodes]

theorem equalsLoop_iff (l1 l2 : List CmmlToken) (hlen : l1.length = l2.length) :
    equalsLoop l1 l2 = true ↔
      ∀ (i : Nat) (x y : CmmlToken), l1[i]? = some x → l2[i]? = some y → equals x y = true := by
  induction l1 generalizing l2 with
  | nil => simp [equalsLoop]
  | cons c1 it1 ih =>
    cases l2 with
    | nil => simp at hlen
    | cons c2 it2 =>
      have hlen' : it1.length = it2.length := by simpa using hlen
      rw [equalsLoop]
      constructor
      · intro h i x y hx hy
        cases hc : equals c1 c2 with
        | false => simp [hc] at h
        | true =>
          simp [hc] at h
          cases i with
          | zero =>
            simp at hx hy
            subst hx; subst hy; exact hc
          | succ j =>
            simp at hx hy
            exact (ih it2 hlen').1 h j x y hx hy
      · intro h
        have hc : equals c1 c2 = true := h 0 c1 c2 (by simp) (by simp)
        simp [hc]
        exact (ih it2 hlen').2 (fun i x y hx hy => h (i + 1) x y (by simpa using hx) (by simpa using hy))

theorem equals_iff (a b : CmmlToken) :
    equals a b = true ↔
      getType a = getType b ∧ getMeaning a = getMeaning b ∧
      a.getChildNodes.length = b.getChildNodes.length ∧
      ∀ (i : Nat) (x y : CmmlToken), a.getChildNodes[i]? = some x → b.getChildNodes[i]? = some y →
        equals x y = true := by
  rw [equals_unfold]
  constructor
  · intro h
    simp only [Bool.and_eq_true, decide_eq_true_eq] at h
    obtain ⟨⟨⟨h1, h2⟩, h3⟩, h4⟩ := h
    exact ⟨h1, h2, h3, (equalsLoop_iff _ _ h3).1 h4⟩
  · rintro ⟨h1, h2, h3, h4⟩
    simp only [Bool.and_eq_true, decide_eq_true_eq]
    exact ⟨⟨⟨h1, h2⟩, h3⟩, (equalsLoop_iff _ _ h3).2 h4⟩

theorem equals_false_of_arity_below (p : NodePtr) :
    ∀ (a b x y : CmmlToken), deref a p = some x → deref b p = some y →
      x.getChildNodes.length ≠ y.getChildNodes.length → equals a b = false := by
  induction p with
  | nil =>
    intro a b x y hx hy hne
    simp only [deref, Option.some.injEq] at hx hy
    rw [← hx, ← hy] at hne
    cases h : equals a b with
    | false => rfl
    | true => exact absurd ((equals_iff a b).1 h).2.2.1 hne
  | cons i p ih =>
    intro a b x y hx hy hne
    simp only [deref] at hx hy
    cases ha : a.getChildNodes[i]? with
    | none => simp [ha] at hx
    | some c1 =>
      cases hb : b.getChildNodes[i]? with
      | none => simp [hb] at hy
      | some c2 =>
        simp only [ha] at hx
        simp only [hb] at hy
        have hc := ih c1 c2 x y hx hy hne
        cases h : equals a b with
        | false => rfl
        | true =>
          have := ((equals_iff a b).1 h).2.2.2 i c1 c2 ha hb
          rw [hc] at this
          exact absurd this (by decide)

end CmmlToken

/-- C1: `equals(a, b)` is true iff the types are the same, the meanings are the same, the
two nodes have the same number of children and the children are equal pairwise, index by
index; it is false when the child counts differ, for the two nodes themselves and for any
two nodes compared below them (the nodes at the same position of the two trees). -/
theorem C1_equals_iff (a b : CmmlToken) :
    (CmmlToken.equals a b = true ↔
      CmmlToken.getType a = CmmlToken.getType b ∧
      CmmlToken.getMeaning a = CmmlToken.getMeaning b ∧
      a.getChildNodes.length = b.getChildNodes.length ∧
      ∀ (i : Nat) (x y : CmmlToken), a.getChildNodes[i]? = some x → b.getChildNodes[i]? = some y →
        CmmlToken.equals x y = true) ∧
    (a.getChildNodes.length ≠ b.getChildNodes.length → CmmlToken.equals a b = false) ∧
    (∀ (p : NodePtr) (x y : CmmlToken),
      CmmlToken.deref a p = some x → CmmlToken.deref b p = some y →
      x.getChildNodes.length ≠ y.getChildNodes.length → CmmlToken.equals a b = false) :=
  ⟨CmmlToken.equals_iff a b,
   fun h => CmmlToken.equals_false_of_arity_below [] a b a b rfl rfl h,
   fun p x y hx hy h => CmmlToken.equals_false_of_arity_below p a b x y hx hy h⟩

/-- C1 at `apply(plus(x, y))` against `apply(plus(x))`: the two roots have one child each,
the nodes compared below them have two children and one child, and `equals` is false. -/
theorem C1_equals_iff_witness :
    CmmlToken.equals
        (CmmlToken.mk "apply" [] ""
          [CmmlToken.mk "plus" [] ""
            [CmmlToken.mk "ci" [] "x" [] "/*[1]/*[1]/*[1]" false,
             CmmlToken.mk "ci" [] "y" [] "/*[1]/*[1]/*[2]" false] "/*[1]/*[1]" false]
          "/*[1]" false)
        (CmmlToken.mk "apply" [] ""
          [CmmlToken.mk "plus" [] ""
            [CmmlToken.mk "ci" [] "x" [] "/*[1]/*[1]/*[1]" false] "/*[1]/*[1]" false]
          "/*[1]" false) = false :=
  (C1_equals_iff _ _).2.2 [0]
    (CmmlToken.mk "plus" [] ""
      [CmmlToken.mk "ci" [] "x" [] "/*[1]/*[1]/*[1]" false,
       CmmlToken.mk "ci" [] "y" [] "/*[1]/*[1]/*[2]" false] "/*[1]/*[1]" false)
    (CmmlToken.mk "plus" [] ""
      [CmmlToken.mk "ci" [] "x" [] "/*[1]/*[1]/*[1]" false] "/*[1]/*[1]" false)
    rfl rfl (by decide)

namespace CmmlToken

mutual
theorem induct_aux (P : CmmlToken → Prop)
    (h : ∀ tg ats tx cs xp m, (∀ c ∈ cs, P c) → P (mk tg ats tx cs xp m)) :
    ∀ t, P t
  | mk tg ats tx cs xp m => h tg ats tx cs xp m (induct_list P h cs)
theorem induct_list (P : CmmlToken → Prop)
    (h : ∀ tg ats tx cs xp m, (∀ c ∈ cs, P c) → P (mk tg ats tx cs xp m)) :
    ∀ (cs : List CmmlToken), ∀ c ∈ cs, P c
  | [] => fun _ hc => absurd hc (List.not_mem_nil _)
  | c :: cs => fun x hx =>
    (List.mem_cons.1 hx).elim (fun e => e ▸ induct_aux P h c) (fun hm => induct_list P h cs x hm)
end

theorem isDeepCopyList_iff (l l' : List CmmlToken) :
    isDeepCopyList l l' = true ↔
      l.length = l'.length ∧
      ∀ (i : Nat) (x y : CmmlToken), l[i]? = some x → l'[i]? = some y →
        isDeepCopy x y = true := by
  induction l generalizing l' with
  | nil =>
    cases l' with
    | nil => simp [isDeepCopyList]
    | cons c' cs' => simp [isDeepCopyList]
  | cons c cs ih =>
    cases l' with
    | nil => simp [isDeepCopyList]
    | cons c' cs' =>
      rw [isDeepCopyList, Bool.and_eq_true, ih cs']
      constructor
      · rintro ⟨hc, hlen, hrest⟩
        refine ⟨by simp [hlen], ?_⟩
        intro i x y hx hy
        cases i with
        | zero =>
          simp only [List.getElem?_cons_zero, Option.some.injEq] at hx hy
          rw [← hx, ← hy]; exact hc
        | succ j =>
          simp only [List.getElem?_cons_succ] at hx hy
          exact hrest j x y hx hy
      · rintro ⟨hlen, h⟩
        refine ⟨h 0 c c' (by simp) (by simp), by simpa using hlen, ?_⟩
        intro i x y hx hy
        exact h (i + 1) x y (by simpa using hx) (by simpa using hy)

theorem equals_of_isDeepCopy (t : CmmlToken) :
    ∀ t', isDeepCopy t t' = true → equals t t' = true := by
  induction t using induct_aux with
  | h tg ats tx cs xp m ih =>
    intro t' hcopy
    rw [isDeepCopy] at hcopy
    simp only [Bool.and_eq_true, decide_eq_true_eq] at hcopy
    obtain ⟨⟨htag, htext⟩, hkids⟩ := hcopy
    obtain ⟨hlen, hpair⟩ := (isDeepCopyList_iff _ _).1 hkids
    rw [equals_iff]
    refine ⟨?_, ?_, ?_, ?_⟩
    · simp [getType, tag, htag]
    · simp [getMeaning, tag, getTextContent, htag, htext]
    · simpa [getChildNodes] using hlen
    · intro i x y hx hy
      simp only [getChildNodes] at hx
      exact ih x (List.getElem?_mem hx) y (hpair i x y hx hy)

end CmmlToken

/-- C2: a tree is equal to every deep copy of itself: when `t'` has the same tag, the same
text content and, recursively, the same children in the same order as `t`, then
`equals(t, t')` is true. -/
theorem C2_equals_deep_copy (t t' : CmmlToken) (h : CmmlToken.isDeepCopy t t' = true) :
    CmmlToken.equals t t' = true :=
  CmmlToken.equals_of_isDeepCopy t t' h

/-- C2 at a tree `apply(ci "x", mws:qvar)` and a copy of it made at another place (other
xpaths, no attributes). -/
theorem C2_equals_deep_copy_witness :
    CmmlToken.isDeepCopy
        (CmmlToken.mk "apply" [("id", "1")] ""
          [CmmlToken.mk "ci" [] "x" [] "/*[1]/*[1]" false,
           CmmlToken.mk "mws:qvar" [] "y" [] "/*[1]/*[2]" false] "/*[1]" false)
        (CmmlToken.mk "apply" [] ""
          [CmmlToken.mk "ci" [] "x" [] "/*[1]/*[3]/*[1]" true,
           CmmlToken.mk "mws:qvar" [] "y" [] "/*[1]/*[3]/*[2]" true] "/*[1]/*[3]" true)
        = true ∧
    CmmlToken.equals
        (CmmlToken.mk "apply" [("id", "1")] ""
          [CmmlToken.mk "ci" [] "x" [] "/*[1]/*[1]" false,
           CmmlToken.mk "mws:qvar" [] "y" [] "/*[1]/*[2]" false] "/*[1]" false)
        (CmmlToken.mk "apply" [] ""
          [CmmlToken.mk "ci" [] "x" [] "/*[1]/*[3]/*[1]" true,
           CmmlToken.mk "mws:qvar" [] "y" [] "/*[1]/*[3]/*[2]" true] "/*[1]/*[3]" true)
        = true :=
  ⟨by decide, C2_equals_deep_copy _ _ (by decide)⟩

/-! ## Meaning and tag -/

/-- C3: `getMeaning` returns "mws:qvar" when the tag is exactly "mws:qvar", whatever the
text, attributes or children; otherwise the tag when the tag is "apply" or the text is
empty; otherwise "#" followed by the text.  On the table: tag "mws:qvar" gives "mws:qvar",
tag "apply" with empty text gives "apply", tag "ci" with text "eq" gives "#eq", tag "eq"
with empty text gives "eq". -/
theorem C3_getMeaning_cases (t : CmmlToken) :
    (t.tag = "mws:qvar" → CmmlToken.getMeaning t = "mws:qvar") ∧
    (t.tag ≠ "mws:qvar" → (t.tag = "apply" ∨ t.getTextContent = "") →
      CmmlToken.getMeaning t = t.tag) ∧
    (t.tag ≠ "mws:qvar" → t.tag ≠ "apply" → t.getTextContent ≠ "" →
      CmmlToken.getMeaning t = "#" ++ t.getTextContent) ∧
    (∀ ats tx cs xp m,
      CmmlToken.getMeaning (CmmlToken.mk "mws:qvar" ats tx cs xp m) = "mws:qvar") ∧
    (∀ ats cs xp m, CmmlToken.getMeaning (CmmlToken.mk "apply" ats "" cs xp m) = "apply") ∧
    (∀ ats cs xp m, CmmlToken.getMeaning (CmmlToken.mk "ci" ats "eq" cs xp m) = "#eq") ∧
    (∀ ats cs xp m, CmmlToken.getMeaning (CmmlToken.mk "eq" ats "" cs xp m) = "eq") := by
  refine ⟨?_, ?_, ?_, ?_, ?_, ?_, ?_⟩
  · intro h
    simp [CmmlToken.getMeaning, MWS_QVAR_MEANING, h]
  · intro h1 h2
    simp [CmmlToken.getMeaning, MWS_QVAR_MEANING, h1, h2]
  · intro h1 h2 h3
    simp [CmmlToken.getMeaning, MWS_QVAR_MEANING, h1, h2, h3]
  · intro ats tx cs xp m
    simp [CmmlToken.getMeaning, MWS_QVAR_MEANING, CmmlToken.tag]
  · intro ats cs xp m
    simp [CmmlToken.getMeaning, MWS_QVAR_MEANING, CmmlToken.tag]
  · intro ats cs xp m
    simp [CmmlToken.getMeaning, MWS_QVAR_MEANING, CmmlToken.tag, CmmlToken.getTextContent]
  · intro ats cs xp m
    simp [CmmlToken.getMeaning, MWS_QVAR_MEANING, CmmlToken.tag, CmmlToken.getTextContent]

/-- C3 at the node `<ci>eq</ci>` (third case), the node `<eq/>` (second case) and a
query variable that has text (first case). -/
theorem C3_getMeaning_cases_witness :
    CmmlToken.getMeaning (CmmlToken.mk "ci" [] "eq" [] "/*[1]" false) = "#" ++ "eq" ∧
    CmmlToken.getMeaning (CmmlToken.mk "eq" [] "" [] "/*[1]" false) = "eq" ∧
    CmmlToken.getMeaning (CmmlToken.mk "mws:qvar" [] "x" [] "/*[1]" false) = "mws:qvar" :=
  ⟨(C3_getMeaning_cases (CmmlToken.mk "ci" [] "eq" [] "/*[1]" false)).2.2.1
      (by decide) (by decide) (by decide),
   (C3_getMeaning_cases (CmmlToken.mk "eq" [] "" [] "/*[1]" false)).2.1
      (by decide) (Or.inr (by decide)),
   (C3_getMeaning_cases (CmmlToken.mk "mws:qvar" [] "x" [] "/*[1]" false)).1 (by decide)⟩

namespace CmmlToken

theorem getMeaning_text_derived (a : CmmlToken) (h1 : a.tag ≠ "mws:qvar")
    (h2 : a.tag ≠ "apply") (h3 : a.getTextContent ≠ "") :
    getMeaning a = "#" ++ a.getTextContent := by
  simp [getMeaning, MWS_QVAR_MEANING, h1, h2, h3]

theorem getMeaning_tag_derived (b : CmmlToken)
    (h : b.tag = "mws:qvar" ∨ b.tag = "apply" ∨ b.getTextContent = "") :
    getMeaning b = b.tag := by
  by_cases hq : b.tag = "mws:qvar"
  · simp [getMeaning, MWS_QVAR_MEANING, hq]
  · rcases h with h | h | h
    · exact absurd h hq
    · simp [getMeaning, MWS_QVAR_MEANING, h]
    · simp [getMeaning, MWS_QVAR_MEANING, hq, h]

end CmmlToken

/-- C4: the "#" in front separates the meanings that come from the text from the meanings
that come from the tag: when the meaning of `a` comes from its text (tag neither
"mws:qvar" nor "apply", text not empty), the meaning of `b` comes from its tag (tag
"mws:qvar" or "apply", or empty text) and the tag of `b` does not begin with "#", the two
meanings differ; and the four meanings of the table are pairwise distinct. -/
theorem C4_hash_separates_meanings (a b : CmmlToken)
    (ha1 : a.tag ≠ "mws:qvar") (ha2 : a.tag ≠ "apply") (ha3 : a.getTextContent ≠ "")
    (hb : b.tag = "mws:qvar" ∨ b.tag = "apply" ∨ b.getTextContent = "")
    (hb' : ∀ r : String, b.tag ≠ "#" ++ r) :
    CmmlToken.getMeaning a ≠ CmmlToken.getMeaning b ∧
    ∀ ats cs xp m,
      List.Pairwise (fun x y => x ≠ y)
        [CmmlToken.getMeaning (CmmlToken.mk "mws:qvar" ats "" cs xp m),
         CmmlToken.getMeaning (CmmlToken.mk "apply" ats "" cs xp m),
         CmmlToken.getMeaning (CmmlToken.mk "ci" ats "eq" cs xp m),
         CmmlToken.getMeaning (CmmlToken.mk "eq" ats "" cs xp m)] := by
  constructor
  · rw [CmmlToken.getMeaning_text_derived a ha1 ha2 ha3, CmmlToken.getMeaning_tag_derived b hb]
    exact fun h => hb' _ h.symm
  · intro ats cs xp m
    simp [CmmlToken.getMeaning, MWS_QVAR_MEANING, CmmlToken.tag, CmmlToken.getTextContent]

/-- C4 at `<ci>eq</ci>` against `<eq/>`. -/
theorem C4_hash_separates_meanings_witness :
    CmmlToken.getMeaning (CmmlToken.mk "ci" [] "eq" [] "/*[1]" false) ≠
      CmmlToken.getMeaning (CmmlToken.mk "eq" [] "" [] "/*[1]" false) :=
  (C4_hash_separates_meanings (CmmlToken.mk "ci" [] "eq" [] "/*[1]" false)
    (CmmlToken.mk "eq" [] "" [] "/*[1]" false) (by decide) (by decide) (by decide)
    (Or.inr (Or.inr (by decide)))
    (fun r h => by
      have h2 := congrArg String.data h
      simp [CmmlToken.tag] at h2)).1

theorem substr_m_colon (s : String) : substr ("m:" ++ s) 0 2 = "m:" := by
  apply String.ext
  simp [substr]

theorem data_m_colon_append (s : String) : ("m:" ++ s).data = 'm' :: ':' :: s.data := by
  simp

theorem length_eq_data_length (s : String) : s.length = s.data.length := by
  cases s; rfl

theorem substr_after_m_colon (s : String) :
    substr ("m:" ++ s) 2 (("m:" ++ s).length - 2) = s := by
  apply String.ext
  show ((("m:" ++ s).data.drop 2).take (("m:" ++ s).length - 2)) = s.data
  rw [length_eq_data_length, data_m_colon_append]
  simp

theorem eq_m_colon_append_of_substr (aTag : String) (h : substr aTag 0 2 = "m:") :
    aTag = "m:" ++ substr aTag 2 (aTag.length - 2) := by
  apply String.ext
  have h2 : aTag.data.take 2 = ['m', ':'] := by
    have := congrArg String.data h
    simpa [substr] using this
  have h3 : (aTag.data.drop 2).take (aTag.length - 2) = aTag.data.drop 2 := by
    apply List.take_of_length_le
    rw [length_eq_data_length]
    simp
  rw [data_m_colon_append]
  show aTag.data = 'm' :: ':' :: (aTag.data.drop 2).take (aTag.length - 2)
  rw [h3]
  conv_lhs => rw [← List.take_append_drop 2 aTag.data, h2]
  rfl

/-- C5: `setTag` called with "m:" followed by `s` stores exactly `s` (the two characters
are taken off once only: "m:m:x" is stored as "m:x"), and `setTag` called with a string
that does not start with "m:" stores that string. -/
theorem C5_setTag_strips_m_colon_once (t : CmmlToken) :
    (∀ s : String, (CmmlToken.setTag t ("m:" ++ s)).tag = s) ∧
    (CmmlToken.setTag t "m:m:x").tag = "m:x" ∧
    (∀ aTag : String, (∀ r : String, aTag ≠ "m:" ++ r) →
      (CmmlToken.setTag t aTag).tag = aTag) := by
  cases t with
  | mk tg ats tx cs xp m =>
    have h1 : ∀ s : String, (CmmlToken.setTag (CmmlToken.mk tg ats tx cs xp m) ("m:" ++ s)).tag = s := by
      intro s
      have hc : compareEq0 ("m:" ++ s) 0 2 "m:" = true := by
        simp only [compareEq0, substr_m_colon, decide_True]
      rw [CmmlToken.setTag, if_pos hc, substr_after_m_colon]
      rfl
    refine ⟨h1, h1 "m:x", ?_⟩
    intro aTag hno
    have hc : compareEq0 aTag 0 2 "m:" = false := by
      simp only [compareEq0, decide_eq_false_iff_not]
      intro h
      exact hno _ (eq_m_colon_append_of_substr aTag h)
    simp [CmmlToken.setTag, hc, CmmlToken.tag]

/-- C5 at the tags "m:apply", "apply" and "m" on a new root. -/
theorem C5_setTag_strips_m_colon_once_witness :
    (CmmlToken.setTag (CmmlToken.newRoot false) ("m:" ++ "apply")).tag = "apply" ∧
    (CmmlToken.setTag (CmmlToken.newRoot false) "apply").tag = "apply" ∧
    (CmmlToken.setTag (CmmlToken.newRoot false) "m").tag = "m" :=
  ⟨(C5_setTag_strips_m_colon_once (CmmlToken.newRoot false)).1 "apply",
   (C5_setTag_strips_m_colon_once (CmmlToken.newRoot false)).2.2 "apply"
     (fun r h => by
       have h2 := congrArg String.data h
       simp at h2),
   (C5_setTag_strips_m_colon_once (CmmlToken.newRoot false)).2.2 "m"
     (fun r h => by
       have h2 := congrArg String.data h
       simp at h2)⟩

/-! ## Attributes and text -/

theorem mapFind_append_single (m : List (String × String)) (k v : String)
    (h : mapFind m k = none) : mapFind (m ++ [(k, v)]) k = some v := by
  induction m with
  | nil => simp [mapFind]
  | cons e rest ih =>
    obtain ⟨k', v'⟩ := e
    by_cases hk : k' = k
    · simp [mapFind, hk] at h
    · simp only [mapFind, hk, if_false] at h
      simp [mapFind, hk, ih h]

theorem mapFind_mapInsert_same (m : List (String × String)) (k v : String) :
    mapFind (mapInsert m k v) k =
      some (match mapFind m k with
        | some v0 => v0
        | none => v) := by
  cases h : mapFind m k with
  | none => simp [mapInsert, h, mapFind_append_single m k v h]
  | some v0 => simp [mapInsert, h]

/-- C6, as the code has it: the first value written for a key stays.  After
`addAttribute(k, v1)` followed by `addAttribute(k, v2)` on the same node,
`getAttribute(k)` returns what it returned after the first call, which is `v1` when the
node had no attribute `k` before and the value the node already had otherwise; the second
call with the same key leaves the map as it is. -/
theorem C6_addAttribute_first_write_wins (t : CmmlToken) (k v1 v2 : String) :
    CmmlToken.getAttribute (CmmlToken.addAttribute (CmmlToken.addAttribute t k v1) k v2) k =
      CmmlToken.getAttribute (CmmlToken.addAttribute t k v1) k ∧
    CmmlToken.getAttribute (CmmlToken.addAttribute t k v1) k =
      (match mapFind t.attributes k with
        | some v0 => v0
        | none => v1) ∧
    CmmlToken.addAttribute (CmmlToken.addAttribute t k v1) k v2 =
      CmmlToken.addAttribute t k v1 := by
  cases t with
  | mk tg ats tx cs xp m =>
    have h1 := mapFind_mapInsert_same ats k v1
    have h2 : mapInsert (mapInsert ats k v1) k v2 = mapInsert ats k v1 := by
      rw [mapInsert.eq_def (mapInsert ats k v1) k v2, h1]
    refine ⟨?_, ?_, ?_⟩
    · simp only [CmmlToken.addAttribute, h2]
    · simp only [CmmlToken.addAttribute, CmmlToken.getAttribute, CmmlToken.attributes, h1]
    · simp only [CmmlToken.addAttribute, h2]

/-- C6 fails as stated: on a new root, `addAttribute("id", "v1")` followed by
`addAttribute("id", "v2")` leaves `getAttribute("id")` at "v1", so the last value written
does not win. -/
theorem C6_last_write_wins_counterexample :
    CmmlToken.getAttribute
        (CmmlToken.addAttribute (CmmlToken.addAttribute (CmmlToken.newRoot false) "id" "v1")
          "id" "v2") "id" = "v1" ∧
    ¬ (∀ (t : CmmlToken) (k v1 v2 : String),
        CmmlToken.getAttribute
          (CmmlToken.addAttribute (CmmlToken.addAttribute t k v1) k v2) k = v2) := by
  have h : CmmlToken.getAttribute
        (CmmlToken.addAttribute (CmmlToken.addAttribute (CmmlToken.newRoot false) "id" "v1")
          "id" "v2") "id" = "v1" := by decide
  refine ⟨h, fun hall => ?_⟩
  have h2 := hall (CmmlToken.newRoot false) "id" "v1" "v2"
  rw [h] at h2
  exact absurd h2 (by decide)

namespace CmmlToken

theorem appendTextContentLoop_eq (b : List Char) :
    ∀ text : String,
      appendTextContentLoop b text = text ++ ⟨b.filter (fun c => !isspace c)⟩ := by
  induction b with
  | nil =>
    intro text
    apply String.ext
    simp [appendTextContentLoop]
  | cons c rest ih =>
    intro text
    rw [appendTextContentLoop, ih]
    apply String.ext
    cases hc : isspace c <;> simp [hc]

theorem getTextContent_appendTextContent (t : CmmlToken) (b : List Char) :
    (appendTextContent t b).getTextContent =
      t.getTextContent ++ ⟨b.filter (fun c => !isspace c)⟩ := by
  cases t with
  | mk tg ats tx cs xp m =>
    simp only [appendTextContent, getTextContent, appendTextContentLoop_eq]

theorem getTextContent_foldl_appendTextContent (inputs : List (List Char)) :
    ∀ t : CmmlToken,
      (inputs.foldl appendTextContent t).getTextContent =
        t.getTextContent ++ ⟨inputs.flatten.filter (fun c => !isspace c)⟩ := by
  induction inputs with
  | nil =>
    intro t
    apply String.ext
    simp
  | cons b rest ih =>
    intro t
    rw [List.foldl_cons, ih, getTextContent_appendTextContent]
    apply String.ext
    simp

end CmmlToken

/-- C7: `appendTextContent(b)` leaves the text content equal to the text before followed
by the non-whitespace bytes of `b` in their order; so after any sequence of appends the
text is the text before followed by the non-whitespace bytes of the concatenated inputs,
on a new node it is exactly those bytes and holds no whitespace character; appending
"a b\nc" and then "  d" to a new node yields "abcd". -/
theorem C7_appendTextContent_drops_whitespace :
    (∀ (t : CmmlToken) (b : List Char),
      (CmmlToken.appendTextContent t b).getTextContent =
        t.getTextContent ++ ⟨b.filter (fun c => !isspace c)⟩) ∧
    (∀ (t : CmmlToken) (inputs : List (List Char)),
      (inputs.foldl CmmlToken.appendTextContent t).getTextContent =
        t.getTextContent ++ ⟨inputs.flatten.filter (fun c => !isspace c)⟩) ∧
    (∀ (aMode : Bool) (inputs : List (List Char)),
      (inputs.foldl CmmlToken.appendTextContent (CmmlToken.new aMode)).getTextContent =
        ⟨inputs.flatten.filter (fun c => !isspace c)⟩ ∧
      ∀ c ∈ (inputs.foldl CmmlToken.appendTextContent
          (CmmlToken.new aMode)).getTextContent.data, isspace c = false) ∧
    (∀ aMode : Bool,
      (CmmlToken.appendTextContent
        (CmmlToken.appendTextContent (CmmlToken.new aMode) "a b\nc".toList)
        "  d".toList).getTextContent = "abcd") := by
  refine ⟨CmmlToken.getTextContent_appendTextContent,
    fun t inputs => CmmlToken.getTextContent_foldl_appendTextContent inputs t, ?_, ?_⟩
  · intro aMode inputs
    have h : (inputs.foldl CmmlToken.appendTextContent (CmmlToken.new aMode)).getTextContent =
        ⟨inputs.flatten.filter (fun c => !isspace c)⟩ := by
      rw [CmmlToken.getTextContent_foldl_appendTextContent]
      apply String.ext
      simp [CmmlToken.new, CmmlToken.getTextContent]
    refine ⟨h, ?_⟩
    rw [h]
    intro c hc
    simpa using (List.mem_filter.1 hc).2
  · intro aMode
    cases aMode <;> decide

/-! ## Size and depth -/

namespace CmmlToken

theorem getExprSizeLoop_eq (cs : List CmmlToken) :
    ∀ size : Nat, size < 2 ^ 32 →
      (∀ c ∈ cs, getExprSize c = nodeCount c % 2 ^ 32) →
      getExprSizeLoop cs size = (size + nodeCountList cs) % 2 ^ 32 := by
  induction cs with
  | nil =>
    intro size hs _
    simp only [getExprSizeLoop, nodeCountList]
    omega
  | cons c rest ih =>
    intro size hs hc
    have h1 := hc c (List.mem_cons_self c rest)
    rw [getExprSizeLoop, ih _ (Nat.mod_lt _ (by norm_num))
      (fun x hx => hc x (List.mem_cons_of_mem c hx)), h1, nodeCountList]
    omega

theorem getExprSize_eq_mod (t : CmmlToken) : getExprSize t = nodeCount t % 2 ^ 32 := by
  induction t using induct_aux with
  | h tg ats tx cs xp m ih =>
    rw [getExprSize, nodeCount, getExprSizeLoop_eq cs 1 (by norm_num) ih]

theorem nodeCount_le_nodeCountList (cs : List CmmlToken) :
    ∀ c ∈ cs, nodeCount c ≤ nodeCountList cs := by
  induction cs with
  | nil => intro c hc; simp at hc
  | cons d rest ih =>
    intro c hc
    rw [nodeCountList]
    rcases List.mem_cons.1 hc with rfl | hm
    · omega
    · have := ih c hm
      omega

theorem specDepthList_le (cs : List CmmlToken)
    (h : ∀ c ∈ cs, specDepth c + 1 ≤ nodeCount c) :
    specDepthList cs ≤ nodeCountList cs := by
  induction cs with
  | nil => simp [specDepthList]
  | cons d rest ih =>
    have h1 := h d (List.mem_cons_self d rest)
    have h2 := ih (fun x hx => h x (List.mem_cons_of_mem d hx))
    rw [specDepthList, nodeCountList]
    omega

theorem specDepth_lt_nodeCount (t : CmmlToken) : specDepth t + 1 ≤ nodeCount t := by
  induction t using induct_aux with
  | h tg ats tx cs xp m ih =>
    have := specDepthList_le cs ih
    rw [specDepth, nodeCount]
    omega

theorem getExprDepthLoop_eq (cs : List CmmlToken) :
    ∀ max_depth : Nat,
      (∀ c ∈ cs, getExprDepth c = specDepth c ∧ specDepth c + 1 < 2 ^ 32) →
      getExprDepthLoop cs max_depth = max max_depth (specDepthList cs) := by
  induction cs with
  | nil =>
    intro max_depth _
    simp [getExprDepthLoop, specDepthList]
  | cons c rest ih =>
    intro max_depth hc
    obtain ⟨h1, h2⟩ := hc c (List.mem_cons_self c rest)
    rw [getExprDepthLoop]
    rw [ih _ (fun x hx => hc x (List.mem_cons_of_mem c hx)), h1, specDepthList,
      Nat.mod_eq_of_lt h2]
    split <;> omega

theorem getExprDepth_eq_specDepth (t : CmmlToken) :
    nodeCount t < 2 ^ 32 → getExprDepth t = specDepth t := by
  induction t using induct_aux with
  | h tg ats tx cs xp m ih =>
    intro hlt
    rw [nodeCount] at hlt
    rw [getExprDepth, specDepth, getExprDepthLoop_eq cs 0]
    · simp
    · intro c hc
      have hle := nodeCount_le_nodeCountList cs c hc
      have hd := specDepth_lt_nodeCount c
      exact ⟨ih c hc (by omega), by omega⟩

theorem getExprSize_eq_nodeCount (t : CmmlToken) (h : nodeCount t < 2 ^ 32) :
    getExprSize t = nodeCount t := by
  rw [getExprSize_eq_mod, Nat.mod_eq_of_lt h]

end CmmlToken

/-- C9: for every tree with fewer than 2^32 nodes (so that the 32-bit counters do not
wrap), `getExprSize(t) >= getExprDepth(t) + 1`. -/
theorem C9_size_ge_depth_succ (t : CmmlToken) (h : CmmlToken.nodeCount t < 2 ^ 32) :
    CmmlToken.getExprSize t ≥ CmmlToken.getExprDepth t + 1 := by
  rw [CmmlToken.getExprSize_eq_nodeCount t h, CmmlToken.getExprDepth_eq_specDepth t h]
  exact CmmlToken.specDepth_lt_nodeCount t

/-- C9 at a root with a leaf child and a child that has a leaf child itself (4 nodes,
depth 2). -/
theorem C9_size_ge_depth_succ_witness :
    CmmlToken.nodeCount
        (CmmlToken.mk "apply" [] ""
          [CmmlToken.mk "plus" [] "" [] "/*[1]/*[1]" false,
           CmmlToken.mk "apply" [] ""
             [CmmlToken.mk "ci" [] "x" [] "/*[1]/*[2]/*[1]" false] "/*[1]/*[2]" false]
          "/*[1]" false) < 2 ^ 32 ∧
    CmmlToken.getExprSize
        (CmmlToken.mk "apply" [] ""
          [CmmlToken.mk "plus" [] "" [] "/*[1]/*[1]" false,
           CmmlToken.mk "apply" [] ""
             [CmmlToken.mk "ci" [] "x" [] "/*[1]/*[2]/*[1]" false] "/*[1]/*[2]" false]
          "/*[1]" false) ≥
      CmmlToken.getExprDepth
        (CmmlToken.mk "apply" [] ""
          [CmmlToken.mk "plus" [] "" [] "/*[1]/*[1]" false,
           CmmlToken.mk "apply" [] ""
             [CmmlToken.mk "ci" [] "x" [] "/*[1]/*[2]/*[1]" false] "/*[1]/*[2]" false]
          "/*[1]" false) + 1 :=
  ⟨by decide, C9_size_ge_depth_succ _ (by decide)⟩

namespace CmmlToken

theorem nodeCountList_eq_sum (cs : List CmmlToken) :
    nodeCountList cs = (cs.map nodeCount).sum := by
  induction cs with
  | nil => rfl
  | cons c rest ih => rw [nodeCountList, ih, List.map_cons, List.sum_cons]

theorem specDepthList_eq_foldr (cs : List CmmlToken) (h : cs ≠ []) :
    specDepthList cs = 1 + (cs.map specDepth).foldr max 0 := by
  induction cs with
  | nil => exact absurd rfl h
  | cons c rest ih =>
    rw [specDepthList, List.map_cons, List.foldr_cons]
    cases rest with
    | nil => simp [specDepthList]
    | cons d rest' =>
      rw [ih (List.cons_ne_nil d rest')]
      omega

theorem specDepth_succ_le_specDepthList (cs : List CmmlToken) :
    ∀ c ∈ cs, 1 + specDepth c ≤ specDepthList cs := by
  induction cs with
  | nil => intro c hc; simp at hc
  | cons d rest ih =>
    intro c hc
    rw [specDepthList]
    rcases List.mem_cons.1 hc with rfl | hm
    · omega
    · have := ih c hm
      omega

theorem exists_child_of_specDepthList (cs : List CmmlToken) (h : cs ≠ []) :
    ∃ (i : Nat) (c : CmmlToken), cs[i]? = some c ∧ specDepthList cs = 1 + specDepth c := by
  induction cs with
  | nil => exact absurd rfl h
  | cons d rest ih =>
    by_cases hd : specDepthList rest ≤ 1 + specDepth d
    · exact ⟨0, d, by simp, by rw [specDepthList]; omega⟩
    · have hne : rest ≠ [] := by
        intro he
        rw [he, specDepthList] at hd
        omega
      obtain ⟨i, c, hi, hc⟩ := ih hne
      exact ⟨i + 1, c, by simpa using hi, by rw [specDepthList]; omega⟩

theorem deref_length_le_specDepth (p : NodePtr) :
    ∀ (t x : CmmlToken), deref t p = some x → p.length ≤ specDepth t := by
  induction p with
  | nil => intro t x _; simp
  | cons i p ih =>
    intro t x hx
    cases t with
    | mk tg ats tx cs xp m =>
      simp only [deref, getChildNodes] at hx
      cases hc : cs[i]? with
      | none => simp [hc] at hx
      | some c =>
        simp only [hc] at hx
        have h1 := ih c x hx
        have h2 := specDepth_succ_le_specDepthList cs c (List.getElem?_mem hc)
        rw [specDepth, List.length_cons]
        omega

theorem exists_deref_leaf_at_specDepth (t : CmmlToken) :
    ∃ (p : NodePtr) (x : CmmlToken),
      deref t p = some x ∧ x.getChildNodes = [] ∧ p.length = specDepth t := by
  induction t using induct_aux with
  | h tg ats tx cs xp m ih =>
    by_cases hcs : cs = []
    · subst hcs
      exact ⟨[], mk tg ats tx [] xp m, rfl, rfl, rfl⟩
    · obtain ⟨i, c, hi, hc⟩ := exists_child_of_specDepthList cs hcs
      obtain ⟨p, x, hp, hleaf, hlen⟩ := ih c (List.getElem?_mem hi)
      refine ⟨i :: p, x, ?_, hleaf, ?_⟩
      · simp only [deref, getChildNodes, hi, hp]
      · rw [specDepth, hc, List.length_cons, hlen]
        omega

theorem nodeCountList_replicate_leaf (n : Nat) (aMode : Bool) :
    nodeCountList (List.replicate n (new aMode)) = n := by
  induction n with
  | zero => rfl
  | succ k ih =>
    rw [List.replicate_succ, nodeCountList, ih]
    simp only [new, nodeCount, nodeCountList]
    omega

end CmmlToken

namespace CmmlToken

theorem getExprDepth_eq_specDepth_of_lt (t : CmmlToken) :
    specDepth t < 2 ^ 32 → getExprDepth t = specDepth t := by
  induction t using induct_aux with
  | h tg ats tx cs xp m ih =>
    intro hlt
    rw [specDepth] at hlt
    rw [getExprDepth, specDepth, getExprDepthLoop_eq cs 0]
    · simp
    · intro c hc
      have hle := specDepth_succ_le_specDepthList cs c hc
      exact ⟨ih c hc (by omega), by omega⟩

theorem specDepth_chain (n : Nat) : specDepth (chain n) = n := by
  induction n with
  | zero => rfl
  | succ k ih =>
    rw [chain, specDepth, specDepthList, ih, specDepthList]
    omega

theorem getExprDepth_chain (n : Nat) : getExprDepth (chain n) = n % 2 ^ 32 := by
  induction n with
  | zero => rfl
  | succ k ih =>
    rw [chain, getExprDepth, getExprDepthLoop, getExprDepthLoop, ih]
    split <;> omega

end CmmlToken

/-- C10, with the bounds of the two 32-bit counters.  For a tree with fewer than 2^32
nodes `getExprSize` returns the total number of nodes of the subtree, which is 1 plus the
sum of the children's sizes.  For a tree whose longest path down has fewer than 2^32 edges
`getExprDepth` returns the number of edges on the longest path from the node down to a
leaf (no path down is longer and one that ends in a leaf has that length), which is 1 plus
the maximum of the children's depths when the node has children; for a leaf it is 0.  A
single leaf has size 1 and depth 0 and a root with two leaf children has size 3 and depth
1. -/
theorem C10_size_and_depth_below_2_pow_32 (t : CmmlToken) :
    (CmmlToken.nodeCount t < 2 ^ 32 →
      CmmlToken.getExprSize t = CmmlToken.nodeCount t ∧
      CmmlToken.getExprSize t = 1 + (t.getChildNodes.map CmmlToken.getExprSize).sum) ∧
    (CmmlToken.specDepth t < 2 ^ 32 →
      CmmlToken.getExprDepth t = CmmlToken.specDepth t ∧
      (∀ (p : NodePtr) (x : CmmlToken),
        CmmlToken.deref t p = some x → p.length ≤ CmmlToken.getExprDepth t) ∧
      (∃ (p : NodePtr) (x : CmmlToken),
        CmmlToken.deref t p = some x ∧ x.getChildNodes = [] ∧
        p.length = CmmlToken.getExprDepth t) ∧
      (t.getChildNodes ≠ [] →
        CmmlToken.getExprDepth t =
          1 + (t.getChildNodes.map CmmlToken.getExprDepth).foldr max 0)) ∧
    (t.getChildNodes = [] → CmmlToken.getExprDepth t = 0) ∧
    (∀ tg ats tx xp m,
      CmmlToken.getExprSize (CmmlToken.mk tg ats tx [] xp m) = 1 ∧
      CmmlToken.getExprDepth (CmmlToken.mk tg ats tx [] xp m) = 0) ∧
    (∀ tg ats tx xp m tg1 ats1 tx1 xp1 m1 tg2 ats2 tx2 xp2 m2,
      CmmlToken.getExprSize (CmmlToken.mk tg ats tx
        [CmmlToken.mk tg1 ats1 tx1 [] xp1 m1, CmmlToken.mk tg2 ats2 tx2 [] xp2 m2] xp m) = 3 ∧
      CmmlToken.getExprDepth (CmmlToken.mk tg ats tx
        [CmmlToken.mk tg1 ats1 tx1 [] xp1 m1, CmmlToken.mk tg2 ats2 tx2 [] xp2 m2] xp m) = 1) := by
  refine ⟨?_, ?_, ?_, ?_, ?_⟩
  · intro h
    have hsize := CmmlToken.getExprSize_eq_nodeCount t h
    refine ⟨hsize, ?_⟩
    cases t with
    | mk tg ats tx cs xp m =>
      rw [hsize, CmmlToken.nodeCount, CmmlToken.nodeCountList_eq_sum]
      rw [CmmlToken.nodeCount] at h
      have hmap : cs.map CmmlToken.getExprSize = cs.map CmmlToken.nodeCount := by
        apply List.map_congr_left
        intro c hc
        have := CmmlToken.nodeCount_le_nodeCountList cs c hc
        exact CmmlToken.getExprSize_eq_nodeCount c (by omega)
      simp only [CmmlToken.getChildNodes, hmap]
  · intro h
    have hdepth := CmmlToken.getExprDepth_eq_specDepth_of_lt t h
    refine ⟨hdepth, ?_, ?_, ?_⟩
    · intro p x hx
      rw [hdepth]
      exact CmmlToken.deref_length_le_specDepth p t x hx
    · rw [hdepth]
      exact CmmlToken.exists_deref_leaf_at_specDepth t
    · intro hne
      cases t with
      | mk tg ats tx cs xp m =>
        simp only [CmmlToken.getChildNodes] at hne ⊢
        rw [hdepth, CmmlToken.specDepth, CmmlToken.specDepthList_eq_foldr cs hne]
        rw [CmmlToken.specDepth] at h
        have hmap : cs.map CmmlToken.getExprDepth = cs.map CmmlToken.specDepth := by
          apply List.map_congr_left
          intro c hc
          have := CmmlToken.specDepth_succ_le_specDepthList cs c hc
          exact CmmlToken.getExprDepth_eq_specDepth_of_lt c (by omega)
        rw [hmap]
  · intro hleaf
    cases t with
    | mk tg ats tx cs xp m =>
      simp only [CmmlToken.getChildNodes] at hleaf
      subst hleaf
      rfl
  · intro tg ats tx xp m
    exact ⟨rfl, rfl⟩
  · intro tg ats tx xp m tg1 ats1 tx1 xp1 m1 tg2 ats2 tx2 xp2 m2
    exact ⟨by simp [CmmlToken.getExprSize, CmmlToken.getExprSizeLoop],
      by simp [CmmlToken.getExprDepth, CmmlToken.getExprDepthLoop]⟩

/-- C10 at the tree `apply(ci "x", ci "y")`: 3 nodes, depth 1. -/
theorem C10_size_and_depth_below_2_pow_32_witness :
    CmmlToken.getExprSize
        (CmmlToken.mk "apply" [] ""
          [CmmlToken.mk "ci" [] "x" [] "/*[1]/*[1]" false,
           CmmlToken.mk "ci" [] "y" [] "/*[1]/*[2]" false] "/*[1]" false) =
      CmmlToken.nodeCount
        (CmmlToken.mk "apply" [] ""
          [CmmlToken.mk "ci" [] "x" [] "/*[1]/*[1]" false,
           CmmlToken.mk "ci" [] "y" [] "/*[1]/*[2]" false] "/*[1]" false) ∧
    CmmlToken.getExprDepth
        (CmmlToken.mk "apply" [] ""
          [CmmlToken.mk "ci" [] "x" [] "/*[1]/*[1]" false,
           CmmlToken.mk "ci" [] "y" [] "/*[1]/*[2]" false] "/*[1]" false) =
      CmmlToken.specDepth
        (CmmlToken.mk "apply" [] ""
          [CmmlToken.mk "ci" [] "x" [] "/*[1]/*[1]" false,
           CmmlToken.mk "ci" [] "y" [] "/*[1]/*[2]" false] "/*[1]" false) :=
  ⟨((C10_size_and_depth_below_2_pow_32 _).1 (by decide)).1,
   ((C10_size_and_depth_below_2_pow_32 _).2.1 (by decide)).1⟩

/-- C10 fails as stated, for every tree, in both halves: a root with 2^32 - 1 leaf
children has 2^32 nodes and `getExprSize`, a `uint32_t`, returns 0 for it, while its
depth 1 is returned as it is; and a path of 2^32 edges has `getExprDepth`, a `uint32_t`,
equal to 0. -/
theorem C10_size_and_depth_wrap_counterexample :
    CmmlToken.nodeCount
        (CmmlToken.mk "apply" [] "" (List.replicate (2 ^ 32 - 1) (CmmlToken.new false))
          "/*[1]" false) = 2 ^ 32 ∧
    CmmlToken.getExprSize
        (CmmlToken.mk "apply" [] "" (List.replicate (2 ^ 32 - 1) (CmmlToken.new false))
          "/*[1]" false) = 0 ∧
    ¬ (∀ t : CmmlToken, CmmlToken.getExprSize t = CmmlToken.nodeCount t) ∧
    CmmlToken.specDepth (CmmlToken.chain (2 ^ 32)) = 2 ^ 32 ∧
    CmmlToken.getExprDepth (CmmlToken.chain (2 ^ 32)) = 0 ∧
    ¬ (∀ t : CmmlToken, CmmlToken.getExprDepth t = CmmlToken.specDepth t) := by
  have h1 : CmmlToken.nodeCount
        (CmmlToken.mk "apply" [] "" (List.replicate (2 ^ 32 - 1) (CmmlToken.new false))
          "/*[1]" false) = 2 ^ 32 := by
    rw [CmmlToken.nodeCount, CmmlToken.nodeCountList_replicate_leaf]
    norm_num
  have h2 : CmmlToken.getExprSize
        (CmmlToken.mk "apply" [] "" (List.replicate (2 ^ 32 - 1) (CmmlToken.new false))
          "/*[1]" false) = 0 := by
    rw [CmmlToken.getExprSize_eq_mod, h1]
    norm_num
  have h4 : CmmlToken.specDepth (CmmlToken.chain (2 ^ 32)) = 2 ^ 32 :=
    CmmlToken.specDepth_chain _
  have h5 : CmmlToken.getExprDepth (CmmlToken.chain (2 ^ 32)) = 0 := by
    rw [CmmlToken.getExprDepth_chain]
    norm_num
  refine ⟨h1, h2, fun hall => ?_, h4, h5, fun hall => ?_⟩
  · have h3 := hall (CmmlToken.mk "apply" [] "" (List.replicate (2 ^ 32 - 1) (CmmlToken.new false))
          "/*[1]" false)
    rw [h1, h2] at h3
    norm_num at h3
  · have h6 := hall (CmmlToken.chain (2 ^ 32))
    rw [h4, h5] at h6
    norm_num at h6

/-! ## Building a tree: xpaths -/

namespace CmmlToken

theorem below_eq_some (p : NodePtr) : ∀ (N q : NodePtr), below p N = some q → N = p ++ q := by
  induction p with
  | nil => intro N q h; simpa [below] using h
  | cons j p ih =>
    intro N q h
    cases N with
    | nil => simp [below] at h
    | cons i N =>
      by_cases hij : i = j
      · subst hij
        simp only [below, if_true] at h
        rw [ih N q h]; rfl
      · simp [below, hij] at h

theorem below_append (p q : NodePtr) : below p (p ++ q) = some q := by
  induction p with
  | nil => rfl
  | cons j p ih => simp [below, ih]

theorem deref_append (p : NodePtr) :
    ∀ (t n : CmmlToken) (q : NodePtr), deref t p = some n → deref t (p ++ q) = deref n q := by
  induction p with
  | nil =>
    intro t n q h
    simp only [deref, Option.some.injEq] at h
    rw [← h]; rfl
  | cons i p ih =>
    intro t n q h
    simp only [deref, List.cons_append] at h ⊢
    cases hc : t.getChildNodes[i]? with
    | none => simp [hc] at h
    | some c =>
      simp only [hc] at h ⊢
      exact ih c n q h

theorem updateAt_of_deref (f : CmmlToken → CmmlToken) (p : NodePtr) :
    ∀ (t n : CmmlToken), deref t p = some n → ∃ t', updateAt f t p = some t' := by
  induction p with
  | nil => intro t n _; exact ⟨f t, by simp only [updateAt]⟩
  | cons i p ih =>
    intro t n h
    cases t with
    | mk tg ats tx cs xp m =>
      simp only [deref, getChildNodes] at h
      cases hc : cs[i]? with
      | none => simp [hc] at h
      | some c =>
        simp only [hc] at h
        obtain ⟨c', hc'⟩ := ih c n h
        exact ⟨mk tg ats tx (cs.set i c') xp m, by simp only [updateAt, hc, hc']⟩

theorem map_deref_updateAt {α : Type} (g : CmmlToken → α)
    (hg : ∀ tg ats tx cs cs' xp m, List.length cs = List.length cs' →
      g (mk tg ats tx cs xp m) = g (mk tg ats tx cs' xp m))
    (f : CmmlToken → CmmlToken) (p : NodePtr) :
    ∀ (t t' n : CmmlToken) (N : NodePtr), updateAt f t p = some t' → deref t p = some n →
      (deref t' N).map g =
        (match below p N with
          | some q => (deref (f n) q).map g
          | none => (deref t N).map g) := by
  induction p with
  | nil =>
    intro t t' n N hu hd
    simp only [updateAt, Option.some.injEq] at hu
    simp only [deref, Option.some.injEq] at hd
    simp only [below, ← hu, ← hd]
  | cons j p ih =>
    intro t t' n N hu hd
    cases t with
    | mk tg ats tx cs xp m =>
      simp only [deref, getChildNodes] at hd
      simp only [updateAt] at hu
      cases hc : cs[j]? with
      | none => simp [hc] at hd
      | some c =>
        simp only [hc] at hd hu
        cases hc' : updateAt f c p with
        | none => simp [hc'] at hu
        | some c' =>
          simp only [hc', Option.some.injEq] at hu
          subst hu
          have hj : j < cs.length := by
            rcases List.getElem?_eq_some_iff.1 hc with ⟨hlt, _⟩
            exact hlt
          cases N with
          | nil =>
            simp only [below, deref, Option.map_some']
            exact congrArg some (hg tg ats tx _ _ xp m (by simp))
          | cons i N =>
            by_cases hij : i = j
            · subst hij
              simp only [below, if_true, deref, getChildNodes]
              rw [List.getElem?_set_self hj, hc]
              exact ih c c' n N hc' hd
            · simp only [below, hij, if_false, deref, getChildNodes]
              rw [List.getElem?_set_ne (Ne.symm hij)]

end CmmlToken

namespace CmmlToken

theorem getChildNodes_newChildNode (n : CmmlToken) :
    (newChildNode n).1.getChildNodes = n.getChildNodes ++ [(newChildNode n).2] := by
  cases n; rfl

theorem getXpath_newChildNode_fst (n : CmmlToken) :
    (newChildNode n).1.getXpath = n.getXpath := by
  cases n; rfl

theorem getXpath_newChildNode_snd (n : CmmlToken) :
    (newChildNode n).2.getXpath =
      n.getXpath ++ "/*[" ++ ToString (n.getChildNodes.length + 1) ++ "]" := by
  cases n with
  | mk tg ats tx cs xp m => simp [newChildNode, getXpath, getChildNodes]

theorem getChildNodes_newChildNode_snd (n : CmmlToken) :
    (newChildNode n).2.getChildNodes = [] := by
  cases n; rfl

theorem deref_past_end (n : CmmlToken) (i : Nat) (q : NodePtr)
    (h : n.getChildNodes.length ≤ i) : deref n (i :: q) = none := by
  simp only [deref, List.getElem?_eq_none h]

theorem map_deref_newChildNode {α : Type} (g : CmmlToken → α) (n : CmmlToken)
    (q : NodePtr) :
    (deref (newChildNode n).1 q).map g =
      if q = [] then some (g (newChildNode n).1)
      else if q = [n.getChildNodes.length] then some (g (newChildNode n).2)
      else (deref n q).map g := by
  cases q with
  | nil => simp [deref]
  | cons i q =>
    simp only [List.cons_ne_nil, if_false]
    rcases Nat.lt_trichotomy i n.getChildNodes.length with hlt | heq | hgt
    · have hne : i :: q ≠ [n.getChildNodes.length] := by
        intro h
        simp only [List.cons.injEq] at h
        omega
      simp only [hne, if_false, deref, getChildNodes_newChildNode,
        List.getElem?_append_left hlt]
    · subst heq
      have hget : (n.getChildNodes ++ [(newChildNode n).2])[n.getChildNodes.length]? =
          some (newChildNode n).2 := by
        simp
      cases q with
      | nil => simp [deref, getChildNodes_newChildNode]
      | cons k q =>
        have hne : n.getChildNodes.length :: k :: q ≠ [n.getChildNodes.length] := by simp
        rw [if_neg hne, deref_past_end n _ _ (Nat.le_refl _)]
        simp only [deref, getChildNodes_newChildNode, hget, getChildNodes_newChildNode_snd,
          List.getElem?_nil]
    · have hne : i :: q ≠ [n.getChildNodes.length] := by
        intro h
        simp only [List.cons.injEq] at h
        omega
      rw [if_neg hne, deref_past_end n _ _ (Nat.le_of_lt hgt),
        deref_past_end _ _ _ (by simp [getChildNodes_newChildNode]; omega)]

theorem newChildNodeAt_spec {α : Type} (g : CmmlToken → α)
    (hg : ∀ tg ats tx cs cs' xp m, List.length cs = List.length cs' →
      g (mk tg ats tx cs xp m) = g (mk tg ats tx cs' xp m))
    (t t1 : CmmlToken) (p c : NodePtr) (h : newChildNodeAt t p = some (t1, c)) :
    ∃ n, deref t p = some n ∧ c = p ++ [n.getChildNodes.length] ∧ deref t c = none ∧
      ∀ N : NodePtr, (deref t1 N).map g =
        if N = p then some (g (newChildNode n).1)
        else if N = c then some (g (newChildNode n).2)
        else (deref t N).map g := by
  unfold newChildNodeAt at h
  cases hd : deref t p with
  | none => simp [hd] at h
  | some n =>
    simp only [hd] at h
    cases hu : updateAt (fun n => (newChildNode n).1) t p with
    | none => simp [hu] at h
    | some t' =>
      simp only [hu, Option.some.injEq, Prod.mk.injEq] at h
      obtain ⟨ht, hc⟩ := h
      subst ht
      have hnone : deref t c = none := by
        rw [← hc, deref_append p t n _ hd]
        exact deref_past_end n _ _ (Nat.le_refl _)
      refine ⟨n, rfl, hc.symm, hnone, ?_⟩
      intro N
      rw [map_deref_updateAt g hg _ p t t' n N hu hd]
      cases hb : below p N with
      | none =>
        have h1 : N ≠ p := by
          intro e
          rw [e] at hb
          have := below_append p []
          rw [List.append_nil, hb] at this
          exact absurd this (by simp)
        have h2 : N ≠ c := by
          intro e
          rw [e, ← hc, below_append] at hb
          exact absurd hb (by simp)
        simp only [h1, h2, if_false]
      | some q =>
        have hN := below_eq_some p N q hb
        simp only []
        rw [map_deref_newChildNode g n q, hN, ← hc, deref_append p t n q hd]
        have e1 : (p ++ q = p) ↔ q = [] := by
          constructor
          · intro e
            have := congrArg List.length e
            simp only [List.length_append] at this
            exact List.length_eq_zero.1 (by omega)
          · intro e; rw [e, List.append_nil]
        have e2 : (p ++ q = p ++ [n.getChildNodes.length]) ↔ q = [n.getChildNodes.length] :=
          List.append_right_inj p
        simp only [e1, e2]

end CmmlToken

namespace CmmlToken

theorem arity_newChildNodes (calls : List NodePtr) :
    ∀ (t t' : CmmlToken), newChildNodes t calls = some t' → ∀ N : NodePtr,
      ((deref t' N).map (fun n => n.getChildNodes.length)).getD 0 =
        ((deref t N).map (fun n => n.getChildNodes.length)).getD 0 + calls.count N := by
  induction calls with
  | nil =>
    intro t t' h N
    simp only [newChildNodes, Option.some.injEq] at h
    simp [h]
  | cons p rest ih =>
    intro t t' h N
    simp only [newChildNodes] at h
    cases hs : newChildNodeAt t p with
    | none => simp [hs] at h
    | some r =>
      obtain ⟨t1, c⟩ := r
      simp only [hs] at h
      obtain ⟨n, hn, hc, hnone, hstep⟩ :=
        newChildNodeAt_spec (fun n => n.getChildNodes.length)
          (fun _ _ _ _ _ _ _ hlen => hlen) t t1 p c hs
      rw [ih t1 t' h N, hstep N, List.count_cons]
      by_cases hNp : N = p
      · subst hNp
        simp [hn, getChildNodes_newChildNode]
        omega
      · have hpN : (p == N) = false := by
          simpa using fun e => hNp e.symm
        by_cases hNc : N = c
        · subst hNc
          simp [hNp, hpN, hnone, getChildNodes_newChildNode_snd]
        · simp [hNp, hNc, hpN]

theorem getXpath_newChildNodes (later : List NodePtr) :
    ∀ (t t'' n : CmmlToken) (q : NodePtr), deref t q = some n →
      newChildNodes t later = some t'' → (deref t'' q).map getXpath = some n.getXpath := by
  induction later with
  | nil =>
    intro t t'' n q hq h
    simp only [newChildNodes, Option.some.injEq] at h
    rw [← h, hq]; rfl
  | cons p rest ih =>
    intro t t'' n q hq h
    simp only [newChildNodes] at h
    cases hs : newChildNodeAt t p with
    | none => simp [hs] at h
    | some r =>
      obtain ⟨t1, c⟩ := r
      simp only [hs] at h
      obtain ⟨n0, hn0, hc, hnone, hstep⟩ :=
        newChildNodeAt_spec getXpath (fun _ _ _ _ _ _ _ _ => rfl) t t1 p c hs
      have h1 : (deref t1 q).map getXpath = some n.getXpath := by
        rw [hstep q]
        by_cases hqp : q = p
        · subst hqp
          rw [hq] at hn0
          simp only [Option.some.injEq] at hn0
          rw [if_pos rfl, getXpath_newChildNode_fst, hn0]
        · have hqc : q ≠ c := by
            intro e
            rw [e, hnone] at hq
            exact absurd hq (by simp)
          rw [if_neg hqp, if_neg hqc, hq]; rfl
      cases hd1 : deref t1 q with
      | none => simp [hd1] at h1
      | some n1 =>
        simp only [hd1, Option.map_some', Option.some.injEq] at h1
        rw [← h1]
        exact ih t1 t'' n1 q hd1 h

theorem arity_newRoot (aMode : Bool) (N : NodePtr) :
    ((deref (newRoot aMode) N).map (fun n => n.getChildNodes.length)).getD 0 = 0 := by
  cases N with
  | nil => rfl
  | cons i q => rfl

end CmmlToken

/-- C8: a root created by `newRoot` has xpath "/*[1]"; in a tree built from a new root by
`newChildNode` calls, the next call on a node `N`, which is the `k`-th one on `N` when
`k - 1` of the calls made so far were on `N`, returns a child whose xpath is the xpath of
`N` followed by "/*[", the decimal digits of `k` and "]"; and no sequence of later
`newChildNode` calls, on whichever nodes, changes the xpath of a node that exists. -/
theorem C8_xpath_assigned_once :
    (∀ aMode : Bool, (CmmlToken.newRoot aMode).getXpath = "/*[1]") ∧
    (∀ (aMode : Bool) (calls : List NodePtr) (t n : CmmlToken) (N : NodePtr),
      CmmlToken.newChildNodes (CmmlToken.newRoot aMode) calls = some t →
      CmmlToken.deref t N = some n →
      ∃ (t' : CmmlToken) (c : NodePtr),
        CmmlToken.newChildNodeAt t N = some (t', c) ∧
        (CmmlToken.deref t' c).map CmmlToken.getXpath =
          some (n.getXpath ++ "/*[" ++ ToString (calls.count N + 1) ++ "]")) ∧
    (∀ (t t'' n : CmmlToken) (later : List NodePtr) (q : NodePtr),
      CmmlToken.deref t q = some n →
      CmmlToken.newChildNodes t later = some t'' →
      (CmmlToken.deref t'' q).map CmmlToken.getXpath = some n.getXpath) := by
  refine ⟨fun aMode => rfl, ?_, ?_⟩
  · intro aMode calls t n N hbuilt hN
    have hcount := CmmlToken.arity_newChildNodes calls _ t hbuilt N
    rw [CmmlToken.arity_newRoot, hN] at hcount
    simp only [Option.map_some', Option.getD_some, Nat.zero_add] at hcount
    obtain ⟨t', ht'⟩ := CmmlToken.updateAt_of_deref (fun n => (CmmlToken.newChildNode n).1) N t n hN
    have hcall : CmmlToken.newChildNodeAt t N = some (t', N ++ [n.getChildNodes.length]) := by
      simp only [CmmlToken.newChildNodeAt, hN, ht']
    refine ⟨t', _, hcall, ?_⟩
    obtain ⟨n0, hn0, _, _, hstep⟩ :=
      CmmlToken.newChildNodeAt_spec CmmlToken.getXpath (fun _ _ _ _ _ _ _ _ => rfl) t t' N _ hcall
    rw [hN] at hn0
    simp only [Option.some.injEq] at hn0
    subst hn0
    have hne : N ++ [n.getChildNodes.length] ≠ N := by
      intro e
      have := congrArg List.length e
      simp at this
    rw [hstep, if_neg hne, if_pos rfl, CmmlToken.getXpath_newChildNode_snd, hcount]
  · intro t t'' n later q hq hlater
    exact CmmlToken.getXpath_newChildNodes later t t'' n q hq hlater

/-- C8 on the tree built by `newChildNode` on a new root, on the root again and on the
first child: the next call on the root is the third one on it and returns a node with
xpath "/*[1]/*[3]", and the first child keeps its xpath "/*[1]/*[1]" through that call
and a later one on the first child. -/
theorem C8_xpath_assigned_once_witness :
    CmmlToken.newChildNodes (CmmlToken.newRoot false) [[], [], [0]] =
      some CmmlToken.sampleTree ∧
    (∃ (t' : CmmlToken) (c : NodePtr),
      CmmlToken.newChildNodeAt CmmlToken.sampleTree [] = some (t', c) ∧
      (CmmlToken.deref t' c).map CmmlToken.getXpath = some "/*[1]/*[3]") ∧
    (∃ t'' : CmmlToken,
      CmmlToken.newChildNodes CmmlToken.sampleTree [[], [0]] = some t'' ∧
      (CmmlToken.deref t'' [0]).map CmmlToken.getXpath = some "/*[1]/*[1]") := by
  refine ⟨rfl, ?_, ?_⟩
  · exact C8_xpath_assigned_once.2.1 false [[], [], [0]] CmmlToken.sampleTree
      CmmlToken.sampleTree [] rfl rfl
  · cases h : CmmlToken.newChildNodes CmmlToken.sampleTree [[], [0]] with
    | none =>
      have hs : (CmmlToken.newChildNodes CmmlToken.sampleTree [[], [0]]).isSome = true := rfl
      rw [h] at hs
      exact absurd hs (by decide)
    | some t'' =>
      exact ⟨t'', rfl, C8_xpath_assigned_once.2.2 CmmlToken.sampleTree t''
        (CmmlToken.mk "" [] "" [CmmlToken.mk "" [] "" [] "/*[1]/*[1]/*[1]" false]
          "/*[1]/*[1]" false) [[], [0]] [0] rfl h⟩

/-! ## Structural equality: order, symmetry, transitivity, meaning and type -/

namespace CmmlToken

theorem equals_false_of_below (p : NodePtr) :
    ∀ (a b x y : CmmlToken), deref a p = some x → deref b p = some y →
      equals x y = false → equals a b = false := by
  induction p with
  | nil =>
    intro a b x y hx hy hne
    simp only [deref, Option.some.injEq] at hx hy
    rw [hx, hy]; exact hne
  | cons i p ih =>
    intro a b x y hx hy hne
    simp only [deref] at hx hy
    cases ha : a.getChildNodes[i]? with
    | none => simp [ha] at hx
    | some c1 =>
      cases hb : b.getChildNodes[i]? with
      | none => simp [hb] at hy
      | some c2 =>
        simp only [ha] at hx
        simp only [hb] at hy
        have hc := ih c1 c2 x y hx hy hne
        cases h : equals a b with
        | false => rfl
        | true =>
          have := ((equals_iff a b).1 h).2.2.2 i c1 c2 ha hb
          rw [hc] at this
          exact absurd this (by decide)

theorem equals_symm (a : CmmlToken) : ∀ b, equals a b = true → equals b a = true := by
  induction a using induct_aux with
  | h tg ats tx cs xp m ih =>
    intro b hab
    obtain ⟨h1, h2, h3, h4⟩ := (equals_iff _ b).1 hab
    refine (equals_iff b _).2 ⟨h1.symm, h2.symm, h3.symm, ?_⟩
    intro i x y hx hy
    simp only [getChildNodes] at hy h4
    exact ih y (List.getElem?_mem hy) x (h4 i y x hy hx)

theorem equals_comm (a b : CmmlToken) : equals a b = equals b a := by
  cases h1 : equals a b with
  | true => exact (equals_symm a b h1).symm
  | false =>
    cases h2 : equals b a with
    | false => rfl
    | true =>
      rw [equals_symm b a h2] at h1
      exact absurd h1 (by decide)

theorem equals_trans (a : CmmlToken) :
    ∀ b c, equals a b = true → equals b c = true → equals a c = true := by
  induction a using induct_aux with
  | h tg ats tx cs xp m ih =>
    intro b c hab hbc
    obtain ⟨h1, h2, h3, h4⟩ := (equals_iff _ b).1 hab
    obtain ⟨k1, k2, k3, k4⟩ := (equals_iff b c).1 hbc
    refine (equals_iff _ c).2 ⟨h1.trans k1, h2.trans k2, h3.trans k3, ?_⟩
    intro i x z hx hz
    have hx' : cs[i]? = some x := hx
    have h3' : cs.length = b.getChildNodes.length := h3
    have hi : i < b.getChildNodes.length := by
      rcases List.getElem?_eq_some_iff.1 hx' with ⟨hlt, _⟩
      omega
    have hy : b.getChildNodes[i]? = some (b.getChildNodes[i]) := List.getElem?_eq_getElem hi
    exact ih x (List.getElem?_mem hx) _ z (h4 i x _ hx hy) (k4 i _ z hy hz)

theorem equals_refl (a : CmmlToken) : equals a a = true := by
  induction a using induct_aux with
  | h tg ats tx cs xp m ih =>
    refine (equals_iff _ _).2 ⟨rfl, rfl, rfl, ?_⟩
    intro i x y hx hy
    rw [hx] at hy
    simp only [Option.some.injEq] at hy
    rw [← hy]
    exact ih x (List.getElem?_mem hx)

theorem getElem?_append_cons (pre : List CmmlToken) (x : CmmlToken) (rest : List CmmlToken) :
    (pre ++ x :: rest)[pre.length]? = some x := by
  rw [List.getElem?_append_right (Nat.le_refl _), Nat.sub_self, List.getElem?_cons_zero]

theorem equals_false_of_child (a b x y : CmmlToken) (i : Nat)
    (hx : a.getChildNodes[i]? = some x) (hy : b.getChildNodes[i]? = some y)
    (h : equals x y = false) : equals a b = false :=
  equals_false_of_below [i] a b x y (by simp only [deref, hx]) (by simp only [deref, hy]) h

end CmmlToken

/-- C11: `equals` is sensitive to the order of the children.  When `equals(x, y)` is false,
two nodes with the same tag and text whose child lists are the same except that one has
`x` then `y` where the other has `y` then `x`, at the same two positions, are not equal (in
either direction of the call), and neither are two trees that have these two nodes at the
same position; so `apply(plus(x, y))` is not equal to `apply(plus(y, x))`. -/
theorem C11_equals_order_sensitive (x y : CmmlToken) (h : CmmlToken.equals x y = false) :
    (∀ (tg tx : String) (ats ats' : List (String × String)) (xp xp' : String) (m m' : Bool)
        (pre mid post : List CmmlToken),
      CmmlToken.equals
          (CmmlToken.mk tg ats tx (pre ++ x :: (mid ++ y :: post)) xp m)
          (CmmlToken.mk tg ats' tx (pre ++ y :: (mid ++ x :: post)) xp' m') = false ∧
      CmmlToken.equals
          (CmmlToken.mk tg ats' tx (pre ++ y :: (mid ++ x :: post)) xp' m')
          (CmmlToken.mk tg ats tx (pre ++ x :: (mid ++ y :: post)) xp m) = false ∧
      ∀ (a b : CmmlToken) (p : NodePtr),
        CmmlToken.deref a p =
          some (CmmlToken.mk tg ats tx (pre ++ x :: (mid ++ y :: post)) xp m) →
        CmmlToken.deref b p =
          some (CmmlToken.mk tg ats' tx (pre ++ y :: (mid ++ x :: post)) xp' m') →
        CmmlToken.equals a b = false ∧ CmmlToken.equals b a = false) ∧
    (∀ (ats1 ats2 ats3 ats4 : List (String × String)) (xp1 xp2 xp3 xp4 : String)
        (m1 m2 m3 m4 : Bool),
      CmmlToken.equals
        (CmmlToken.mk "apply" ats1 "" [CmmlToken.mk "plus" ats2 "" [x, y] xp2 m2] xp1 m1)
        (CmmlToken.mk "apply" ats3 "" [CmmlToken.mk "plus" ats4 "" [y, x] xp4 m4] xp3 m3)
        = false) := by
  have hswap : ∀ (tg tx : String) (ats ats' : List (String × String)) (xp xp' : String)
      (m m' : Bool) (pre mid post : List CmmlToken),
      CmmlToken.equals
          (CmmlToken.mk tg ats tx (pre ++ x :: (mid ++ y :: post)) xp m)
          (CmmlToken.mk tg ats' tx (pre ++ y :: (mid ++ x :: post)) xp' m') = false := by
    intro tg tx ats ats' xp xp' m m' pre mid post
    exact CmmlToken.equals_false_of_child _ _ x y pre.length
      (CmmlToken.getElem?_append_cons pre x _) (CmmlToken.getElem?_append_cons pre y _) h
  refine ⟨?_, ?_⟩
  · intro tg tx ats ats' xp xp' m m' pre mid post
    have h1 := hswap tg tx ats ats' xp xp' m m' pre mid post
    have h2 := h1
    rw [CmmlToken.equals_comm] at h2
    refine ⟨h1, h2, ?_⟩
    intro a b p ha hb
    have h3 := CmmlToken.equals_false_of_below p a b _ _ ha hb h1
    have h4 := h3
    rw [CmmlToken.equals_comm] at h4
    exact ⟨h3, h4⟩
  · intro ats1 ats2 ats3 ats4 xp1 xp2 xp3 xp4 m1 m2 m3 m4
    have h1 := hswap "plus" "" ats2 ats4 xp2 xp4 m2 m4 [] [] []
    exact CmmlToken.equals_false_of_child _ _ _ _ 0 rfl rfl h1

/-- C11 at `x = <ci>a</ci>` and `y = <ci>b</ci>`. -/
theorem C11_equals_order_sensitive_witness :
    CmmlToken.equals (CmmlToken.mk "ci" [] "a" [] "" false)
        (CmmlToken.mk "ci" [] "b" [] "" false) = false ∧
    CmmlToken.equals
        (CmmlToken.mk "apply" [] ""
          [CmmlToken.mk "plus" [] ""
            [CmmlToken.mk "ci" [] "a" [] "" false, CmmlToken.mk "ci" [] "b" [] "" false]
            "" false] "" false)
        (CmmlToken.mk "apply" [] ""
          [CmmlToken.mk "plus" [] ""
            [CmmlToken.mk "ci" [] "b" [] "" false, CmmlToken.mk "ci" [] "a" [] "" false]
            "" false] "" false) = false :=
  ⟨by decide,
   (C11_equals_order_sensitive (CmmlToken.mk "ci" [] "a" [] "" false)
     (CmmlToken.mk "ci" [] "b" [] "" false) (by decide)).2 [] [] [] [] "" "" "" ""
     false false false false⟩

/-- C18: `equals` is symmetric and transitive (and reflexive): `equals(a, b)` implies
`equals(b, a)`, and `equals(a, b)` together with `equals(b, c)` implies `equals(a, c)`. -/
theorem C18_equals_equivalence (a b c : CmmlToken) :
    (CmmlToken.equals a b = true → CmmlToken.equals b a = true) ∧
    (CmmlToken.equals a b = true → CmmlToken.equals b c = true →
      CmmlToken.equals a c = true) ∧
    CmmlToken.equals a a = true :=
  ⟨CmmlToken.equals_symm a b, CmmlToken.equals_trans a b c, CmmlToken.equals_refl a⟩

/-- C18 at three copies of `<ci>x</ci>` made at different places of their trees. -/
theorem C18_equals_equivalence_witness :
    CmmlToken.equals (CmmlToken.mk "ci" [] "x" [] "/*[1]/*[2]" false)
        (CmmlToken.mk "ci" [] "x" [] "/*[1]" false) = true ∧
    CmmlToken.equals (CmmlToken.mk "ci" [] "x" [] "/*[1]" false)
        (CmmlToken.mk "ci" [("id", "1")] "x" [] "/*[1]/*[1]" true) = true :=
  ⟨(C18_equals_equivalence (CmmlToken.mk "ci" [] "x" [] "/*[1]" false)
      (CmmlToken.mk "ci" [] "x" [] "/*[1]/*[2]" false)
      (CmmlToken.mk "ci" [] "x" [] "/*[1]" false)).1 (by decide),
   (C18_equals_equivalence (CmmlToken.mk "ci" [] "x" [] "/*[1]" false)
      (CmmlToken.mk "ci" [] "x" [] "/*[1]/*[2]" false)
      (CmmlToken.mk "ci" [("id", "1")] "x" [] "/*[1]/*[1]" true)).2.1
      (by decide) (by decide)⟩

namespace CmmlToken

theorem hash_append_ne_qvar (s : String) : "#" ++ s ≠ MWS_QVAR_MEANING := by
  intro h
  have h2 := congrArg String.data h
  simp [MWS_QVAR_MEANING] at h2

theorem getMeaning_eq_qvar_iff (a : CmmlToken) :
    getMeaning a = MWS_QVAR_MEANING ↔ a.tag = MWS_QVAR_MEANING := by
  constructor
  · intro h
    by_cases hq : a.tag = MWS_QVAR_MEANING
    · exact hq
    · rw [getMeaning, if_neg hq] at h
      split at h
      · exact h
      · exact absurd h (hash_append_ne_qvar _)
  · intro h
    rw [getMeaning, if_pos h]

theorem getType_eq_of_getMeaning_eq (a b : CmmlToken) (h : getMeaning a = getMeaning b) :
    getType a = getType b := by
  have ha := getMeaning_eq_qvar_iff a
  have hb := getMeaning_eq_qvar_iff b
  rw [h] at ha
  unfold getType
  by_cases hq : b.tag = MWS_QVAR_MEANING
  · rw [if_pos hq, if_pos (ha.1 (hb.2 hq))]
  · rw [if_neg hq, if_neg (fun e => hq (hb.1 (ha.2 e)))]

end CmmlToken

/-- C20: the comparison of the types in `equals` follows from the comparison of the
meanings: a node has the meaning "mws:qvar" iff its tag is "mws:qvar", so equal meanings
give equal types, and `equals(a, b)` is true iff the meanings are the same, the child
counts are the same and the children are equal pairwise, in order. -/
theorem C20_meaning_decides_type (a b : CmmlToken) :
    (CmmlToken.getMeaning a = "mws:qvar" ↔ a.tag = "mws:qvar") ∧
    (CmmlToken.getMeaning a = CmmlToken.getMeaning b →
      CmmlToken.getType a = CmmlToken.getType b) ∧
    (CmmlToken.equals a b = true ↔
      CmmlToken.getMeaning a = CmmlToken.getMeaning b ∧
      a.getChildNodes.length = b.getChildNodes.length ∧
      ∀ (i : Nat) (x y : CmmlToken), a.getChildNodes[i]? = some x →
        b.getChildNodes[i]? = some y → CmmlToken.equals x y = true) := by
  refine ⟨CmmlToken.getMeaning_eq_qvar_iff a, CmmlToken.getType_eq_of_getMeaning_eq a b, ?_⟩
  rw [CmmlToken.equals_iff]
  constructor
  · rintro ⟨_, h2, h3, h4⟩
    exact ⟨h2, h3, h4⟩
  · rintro ⟨h2, h3, h4⟩
    exact ⟨CmmlToken.getType_eq_of_getMeaning_eq a b h2, h2, h3, h4⟩

/-- C20 at `<ci>x</ci>` and `<cn>x</cn>`: the meanings are both "#x", the types both
`CONSTANT`. -/
theorem C20_meaning_decides_type_witness :
    CmmlToken.getType (CmmlToken.mk "ci" [] "x" [] "/*[1]" false) =
      CmmlToken.getType (CmmlToken.mk "cn" [] "x" [] "/*[1]/*[1]" true) :=
  (C20_meaning_decides_type (CmmlToken.mk "ci" [] "x" [] "/*[1]" false)
    (CmmlToken.mk "cn" [] "x" [] "/*[1]/*[1]" true)).2.1 (by decide)

/-! ## Xpaths identify nodes -/

theorem digitChar_toNat : ∀ d, d < 10 → (Nat.digitChar d).toNat - 48 = d := by
  decide

theorem digitChar_isDigit : ∀ d, d < 10 → (Nat.digitChar d).isDigit = true := by
  decide

theorem foldl_toDigitsCore (fuel : Nat) :
    ∀ (n : Nat) (ds : List Char), n < fuel →
      (Nat.toDigitsCore 10 fuel n ds).foldl (fun acc c => 10 * acc + (c.toNat - 48)) 0 =
        ds.foldl (fun acc c => 10 * acc + (c.toNat - 48)) n := by
  induction fuel with
  | zero => intro n ds h; omega
  | succ fuel ih =>
    intro n ds h
    have hd := digitChar_toNat (n % 10) (Nat.mod_lt _ (by norm_num))
    rw [Nat.toDigitsCore]
    by_cases h0 : n / 10 = 0
    · simp only [h0, if_true, List.foldl_cons, hd]
      have : 10 * 0 + n % 10 = n := by omega
      rw [this]
    · simp only [h0, if_false]
      rw [ih (n / 10) _ (by omega), List.foldl_cons, hd]
      have : 10 * (n / 10) + n % 10 = n := by omega
      rw [this]

theorem digitsToNat_ToString (n : Nat) : digitsToNat (ToString n).data = n := by
  show digitsToNat (Nat.toDigits 10 n) = n
  unfold digitsToNat Nat.toDigits
  rw [foldl_toDigitsCore (n + 1) n [] (by omega)]
  rfl

theorem ToString_injective (i j : Nat) (h : ToString i = ToString j) : i = j := by
  have := congrArg (fun s => digitsToNat s.data) h
  simpa [digitsToNat_ToString] using this

theorem isDigit_toDigitsCore (fuel : Nat) :
    ∀ (n : Nat) (ds : List Char), (∀ c ∈ ds, c.isDigit = true) →
      ∀ c ∈ Nat.toDigitsCore 10 fuel n ds, c.isDigit = true := by
  induction fuel with
  | zero => intro n ds h; simpa [Nat.toDigitsCore] using h
  | succ fuel ih =>
    intro n ds h
    have hd := digitChar_isDigit (n % 10) (Nat.mod_lt _ (by norm_num))
    have hds : ∀ c ∈ Nat.digitChar (n % 10) :: ds, c.isDigit = true := by
      intro c hc
      rcases List.mem_cons.1 hc with rfl | hm
      · exact hd
      · exact h c hm
    rw [Nat.toDigitsCore]
    by_cases h0 : n / 10 = 0
    · simpa only [h0, if_true] using hds
    · simp only [h0, if_false]
      exact ih (n / 10) _ hds

theorem isDigit_ToString (n : Nat) : ∀ c ∈ (ToString n).data, c.isDigit = true := by
  show ∀ c ∈ Nat.toDigits 10 n, c.isDigit = true
  exact isDigit_toDigitsCore (n + 1) n [] (fun c hc => absurd hc (List.not_mem_nil c))

theorem digits_bracket_split (xs : List Char) :
    ∀ (ys r r' : List Char), (∀ c ∈ xs, c.isDigit = true) → (∀ c ∈ ys, c.isDigit = true) →
      xs ++ ']' :: r = ys ++ ']' :: r' → xs = ys ∧ r = r' := by
  induction xs with
  | nil =>
    intro ys r r' _ hys h
    cases ys with
    | nil => simpa using h
    | cons y ys =>
      simp only [List.nil_append, List.cons_append, List.cons.injEq] at h
      have := hys y (List.mem_cons_self y ys)
      rw [← h.1] at this
      exact absurd this (by decide)
  | cons x xs ih =>
    intro ys r r' hxs hys h
    cases ys with
    | nil =>
      simp only [List.nil_append, List.cons_append, List.cons.injEq] at h
      have := hxs x (List.mem_cons_self x xs)
      rw [h.1] at this
      exact absurd this (by decide)
    | cons y ys =>
      simp only [List.cons_append, List.cons.injEq] at h
      obtain ⟨hxy, hrest⟩ := h
      obtain ⟨h1, h2⟩ := ih ys r r' (fun c hc => hxs c (List.mem_cons_of_mem x hc))
        (fun c hc => hys c (List.mem_cons_of_mem y hc)) hrest
      exact ⟨by rw [hxy, h1], h2⟩

namespace CmmlToken

theorem xpathTail_injective (p : NodePtr) : ∀ q : NodePtr, xpathTail p = xpathTail q → p = q := by
  induction p with
  | nil =>
    intro q h
    cases q with
    | nil => rfl
    | cons j q => simp [xpathTail] at h
  | cons i p ih =>
    intro q h
    cases q with
    | nil => simp [xpathTail] at h
    | cons j q =>
      simp only [xpathTail, List.cons.injEq, true_and] at h
      obtain ⟨h1, h2⟩ := digits_bracket_split _ _ _ _ (isDigit_ToString (i + 1))
        (isDigit_ToString (j + 1)) h
      have hij : i + 1 = j + 1 := ToString_injective _ _ (String.ext h1)
      rw [ih q h2, Nat.succ_injective hij]

theorem data_foldl_xpath (p : NodePtr) :
    ∀ acc : String,
      (p.foldl (fun acc i => acc ++ "/*[" ++ ToString (i + 1) ++ "]") acc).data =
        acc.data ++ xpathTail p := by
  induction p with
  | nil => intro acc; simp [xpathTail]
  | cons i p ih =>
    intro acc
    rw [List.foldl_cons, ih]
    simp [xpathTail]

theorem data_xpathOf (p : NodePtr) : (xpathOf p).data = ROOT_XPATH_SELECTOR.data ++ xpathTail p :=
  data_foldl_xpath p ROOT_XPATH_SELECTOR

theorem xpathOf_injective (p q : NodePtr) (h : xpathOf p = xpathOf q) : p = q := by
  have h2 := congrArg String.data h
  rw [data_xpathOf, data_xpathOf] at h2
  exact xpathTail_injective p q (List.append_cancel_left h2)

theorem xpathOf_append_single (p : NodePtr) (i : Nat) :
    xpathOf (p ++ [i]) = xpathOf p ++ "/*[" ++ ToString (i + 1) ++ "]" := by
  simp [xpathOf, List.foldl_append]

end CmmlToken

namespace CmmlToken

theorem getXpath_newRoot (aMode : Bool) :
    ∀ (N : NodePtr) (n : CmmlToken), deref (newRoot aMode) N = some n →
      n.getXpath = xpathOf N := by
  intro N n h
  cases N with
  | nil =>
    simp only [deref, Option.some.injEq] at h
    rw [← h]; rfl
  | cons i q =>
    have : deref (newRoot aMode) (i :: q) = none := rfl
    rw [this] at h
    exact absurd h (by simp)

theorem getXpath_newChildNodeAt (t t1 : CmmlToken) (p c : NodePtr)
    (h : newChildNodeAt t p = some (t1, c))
    (inv : ∀ (N : NodePtr) (n : CmmlToken), deref t N = some n → n.getXpath = xpathOf N) :
    ∀ (N : NodePtr) (n : CmmlToken), deref t1 N = some n → n.getXpath = xpathOf N := by
  obtain ⟨n0, hn0, hc, _, hstep⟩ :=
    newChildNodeAt_spec getXpath (fun _ _ _ _ _ _ _ _ => rfl) t t1 p c h
  intro N n hN
  have hs := hstep N
  rw [hN, Option.map_some'] at hs
  by_cases hNp : N = p
  · rw [if_pos hNp, getXpath_newChildNode_fst, Option.some.injEq] at hs
    rw [hs, hNp]
    exact inv p n0 hn0
  · rw [if_neg hNp] at hs
    by_cases hNc : N = c
    · rw [if_pos hNc, getXpath_newChildNode_snd, Option.some.injEq] at hs
      rw [hs, hNc, hc, xpathOf_append_single, inv p n0 hn0]
    · rw [if_neg hNc] at hs
      cases hd : deref t N with
      | none => simp [hd] at hs
      | some n' =>
        rw [hd, Option.map_some', Option.some.injEq] at hs
        rw [hs]
        exact inv N n' hd

theorem getXpath_built (calls : List NodePtr) :
    ∀ (t t' : CmmlToken), newChildNodes t calls = some t' →
      (∀ (N : NodePtr) (n : CmmlToken), deref t N = some n → n.getXpath = xpathOf N) →
      ∀ (N : NodePtr) (n : CmmlToken), deref t' N = some n → n.getXpath = xpathOf N := by
  induction calls with
  | nil =>
    intro t t' h inv
    simp only [newChildNodes, Option.some.injEq] at h
    rw [← h]; exact inv
  | cons p rest ih =>
    intro t t' h inv
    simp only [newChildNodes] at h
    cases hs : newChildNodeAt t p with
    | none => simp [hs] at h
    | some r =>
      obtain ⟨t1, c⟩ := r
      simp only [hs] at h
      exact ih t1 t' h (getXpath_newChildNodeAt t t1 p c hs inv)

theorem getXpathRelative_of_xpathOf (n : CmmlToken) (p : NodePtr) (h : n.getXpath = xpathOf p) :
    n.getXpathRelative = ⟨xpathTail p⟩ := by
  apply String.ext
  show ((n.getXpath.data.drop ROOT_XPATH_SELECTOR.length).take
    (n.getXpath.length - ROOT_XPATH_SELECTOR.length)) = xpathTail p
  have hl : ROOT_XPATH_SELECTOR.length = ROOT_XPATH_SELECTOR.data.length :=
    length_eq_data_length _
  rw [length_eq_data_length n.getXpath, h, data_xpathOf, hl, List.drop_left,
    List.length_append, Nat.add_sub_cancel_left, List.take_length]

end CmmlToken

/-- C19: in a tree built from a new root by `newChildNode` calls, the xpath identifies the
node: two distinct nodes of the tree have different `getXpath` values; the xpath of every
node is the root selector "/*[1]" followed by `getXpathRelative` of the node, which is the
sequence of "/*[k]" segments of its position, and empty for the root. -/
theorem C19_xpath_identifies_node (aMode : Bool) (calls : List NodePtr) (t : CmmlToken)
    (hbuilt : CmmlToken.newChildNodes (CmmlToken.newRoot aMode) calls = some t) :
    (∀ (p q : NodePtr) (x y : CmmlToken),
      CmmlToken.deref t p = some x → CmmlToken.deref t q = some y → p ≠ q →
      x.getXpath ≠ y.getXpath) ∧
    (∀ (p : NodePtr) (x : CmmlToken), CmmlToken.deref t p = some x →
      x.getXpath = "/*[1]" ++ x.getXpathRelative ∧
      x.getXpathRelative = ⟨xpathTail p⟩) ∧
    (∀ x : CmmlToken, CmmlToken.deref t [] = some x →
      x.getXpath = "/*[1]" ∧ x.getXpathRelative = "") := by
  have inv := CmmlToken.getXpath_built calls _ t hbuilt (CmmlToken.getXpath_newRoot aMode)
  have hrel : ∀ (p : NodePtr) (x : CmmlToken), CmmlToken.deref t p = some x →
      x.getXpath = "/*[1]" ++ x.getXpathRelative ∧ x.getXpathRelative = ⟨xpathTail p⟩ := by
    intro p x hx
    have h1 := CmmlToken.getXpathRelative_of_xpathOf x p (inv p x hx)
    refine ⟨?_, h1⟩
    apply String.ext
    rw [h1, inv p x hx, CmmlToken.data_xpathOf, String.data_append]
    rfl
  refine ⟨?_, hrel, ?_⟩
  · intro p q x y hx hy hpq hxy
    rw [inv p x hx, inv q y hy] at hxy
    exact hpq (CmmlToken.xpathOf_injective p q hxy)
  · intro x hx
    exact ⟨inv [] x hx, (hrel [] x hx).2⟩

/-- C19 on the tree built by `newChildNode` on a new root, on the root again and on the
first child, at its first and its second child. -/
theorem C19_xpath_identifies_node_witness :
    CmmlToken.newChildNodes (CmmlToken.newRoot false) [[], [], [0]] =
      some CmmlToken.sampleTree ∧
    (CmmlToken.mk "" [] "" [CmmlToken.mk "" [] "" [] "/*[1]/*[1]/*[1]" false]
        "/*[1]/*[1]" false).getXpath ≠
      (CmmlToken.mk "" [] "" [] "/*[1]/*[2]" false).getXpath :=
  ⟨rfl, (C19_xpath_identifies_node false [[], [], [0]] CmmlToken.sampleTree rfl).1 [0] [1]
    _ _ rfl rfl (by decide)⟩

/-! ## The daemon: the callback -/

namespace daemon

theorem accessHandlerCallback_options {Answer : Type} (setting : Setting Answer)
    (cls : QueryHandler Answer) (url : String) (upload_data : List Char)
    (accepts : Nat → Nat) (ptr : Option MemStream) :
    accessHandlerCallback setting cls url "OPTIONS" upload_data accepts ptr =
      Except.ok { ret := Ret.ofSender,
                  reply := some (Reply.sendOptionsResponse (decide (url = setting.ROOT_URL))),
                  ptr := ptr, upload_data_size := upload_data.length, destroyed := [],
                  handleQueryCalls := 0 } := by
  simp [accessHandlerCallback, MHD_HTTP_METHOD_OPTIONS]

theorem accessHandlerCallback_get_root {Answer : Type} (setting : Setting Answer)
    (cls : QueryHandler Answer) (upload_data : List Char)
    (accepts : Nat → Nat) (ptr : Option MemStream) :
    accessHandlerCallback setting cls setting.ROOT_URL "GET" upload_data accepts ptr =
      Except.ok { ret := Ret.ofSender,
                  reply := some (Reply.sendXmlGenericResponse XmlDocument.XML_MWS_ROOT_RESPONSE
                    200),
                  ptr := ptr, upload_data_size := upload_data.length, destroyed := [],
                  handleQueryCalls := 0 } := by
  simp [accessHandlerCallback, MHD_HTTP_METHOD_OPTIONS, MHD_HTTP_METHOD_GET, MHD_HTTP_OK]

theorem accessHandlerCallback_not_allowed {Answer : Type} (setting : Setting Answer)
    (cls : QueryHandler Answer) (url method : String) (upload_data : List Char)
    (accepts : Nat → Nat) (ptr : Option MemStream)
    (h1 : method ≠ "OPTIONS") (h2 : ¬ (method = "GET" ∧ url = setting.ROOT_URL))
    (h3 : method ≠ "POST") :
    accessHandlerCallback setting cls url method upload_data accepts ptr =
      Except.ok { ret := Ret.ofSender,
                  reply := some (Reply.sendMethodNotAllowedResponse
                    (decide (url = setting.ROOT_URL))),
                  ptr := ptr, upload_data_size := upload_data.length, destroyed := [],
                  handleQueryCalls := 0 } := by
  have h2' : ¬ (method = MHD_HTTP_METHOD_GET ∧ decide (url = setting.ROOT_URL) = true) := by
    simpa [MHD_HTTP_METHOD_GET] using h2
  simp only [accessHandlerCallback, MHD_HTTP_METHOD_OPTIONS, MHD_HTTP_METHOD_POST, h1, h3,
    if_false, h2', ne_eq, not_false_eq_true, if_true]

theorem accessHandlerCallback_post {Answer : Type} (setting : Setting Answer)
    (cls : QueryHandler Answer) (url : String) (upload_data : List Char)
    (accepts : Nat → Nat) (ptr : Option MemStream) :
    accessHandlerCallback setting cls url "POST" upload_data accepts ptr =
      match ptr with
      | none =>
        Except.ok { ret := Ret.MHD_YES, reply := none, ptr := some MemStream.new,
                    upload_data_size := upload_data.length, destroyed := [],
                    handleQueryCalls := 0 }
      | some memstream =>
        if upload_data.length ≠ 0 then
          match accumulate accepts upload_data.length 0 upload_data memstream with
          | Except.error e => Except.error e
          | Except.ok (LoopExit.failed d n) =>
            Except.ok { ret := Ret.MHD_NO, reply := none, ptr := none, upload_data_size := n,
                        destroyed := [d], handleQueryCalls := 0 }
          | Except.ok (LoopExit.done memstream1) =>
            Except.ok { ret := Ret.MHD_YES, reply := none, ptr := some memstream1,
                        upload_data_size := 0, destroyed := [], handleQueryCalls := 0 }
        else respond setting cls memstream := by
  have h1 : ("POST" : String) ≠ "OPTIONS" := by decide
  have h2 : ("POST" : String) ≠ "GET" := by decide
  simp only [accessHandlerCallback, MHD_HTTP_METHOD_OPTIONS, MHD_HTTP_METHOD_POST,
    MHD_HTTP_METHOD_GET, h1, h2, if_false, false_and, ne_eq, not_true_eq_false]

end daemon

/-- C12: what the callback does when it is first called for a connection (null slot)
depends on the method and the target only.  Method OPTIONS gives the negotiation response
whatever the target; otherwise GET on the root URL gives status 200 with the fixed root
document; otherwise every method other than POST, GET on another target included, gives
the method-not-allowed response (status 405); a POST puts a new `MemStream`, in writing
mode, into the slot and returns `MHD_YES` without a response.  In the three cases with a
response the slot stays null and `*upload_data_size` is left as it was. -/
theorem C12_first_callback_decision {Answer : Type} (setting : daemon.Setting Answer)
    (cls : daemon.QueryHandler Answer) (url method : String) (upload_data : List Char)
    (accepts : Nat → Nat) :
    (method = "OPTIONS" →
      daemon.accessHandlerCallback setting cls url method upload_data accepts none =
        Except.ok { ret := daemon.Ret.ofSender,
                    reply := some (daemon.Reply.sendOptionsResponse
                      (decide (url = setting.ROOT_URL))),
                    ptr := none, upload_data_size := upload_data.length, destroyed := [],
                    handleQueryCalls := 0 }) ∧
    (method ≠ "OPTIONS" → method = "GET" → url = setting.ROOT_URL →
      daemon.accessHandlerCallback setting cls url method upload_data accepts none =
        Except.ok { ret := daemon.Ret.ofSender,
                    reply := some (daemon.Reply.sendXmlGenericResponse
                      daemon.XmlDocument.XML_MWS_ROOT_RESPONSE 200),
                    ptr := none, upload_data_size := upload_data.length, destroyed := [],
                    handleQueryCalls := 0 }) ∧
    (method ≠ "OPTIONS" → ¬ (method = "GET" ∧ url = setting.ROOT_URL) → method ≠ "POST" →
      daemon.accessHandlerCallback setting cls url method upload_data accepts none =
        Except.ok { ret := daemon.Ret.ofSender,
                    reply := some (daemon.Reply.sendMethodNotAllowedResponse
                      (decide (url = setting.ROOT_URL))),
                    ptr := none, upload_data_size := upload_data.length, destroyed := [],
                    handleQueryCalls := 0 }) ∧
    (method = "POST" →
      daemon.accessHandlerCallback setting cls url method upload_data accepts none =
        Except.ok { ret := daemon.Ret.MHD_YES, reply := none,
                    ptr := some daemon.MemStream.new,
                    upload_data_size := upload_data.length, destroyed := [],
                    handleQueryCalls := 0 }) ∧
    daemon.MemStream.new._mode = daemon.Mode.MODE_WRITING ∧
    (∀ isRootURL : Bool,
      (daemon.Reply.sendOptionsResponse isRootURL).status = 200 ∧
      (daemon.Reply.sendMethodNotAllowedResponse isRootURL).status = 405) ∧
    (∀ (cls' : daemon.QueryHandler Answer) (upload_data' : List Char) (accepts' : Nat → Nat),
      (daemon.accessHandlerCallback setting cls url method upload_data accepts none).map
          (fun r => (r.ret, r.reply, r.ptr)) =
        (daemon.accessHandlerCallback setting cls' url method upload_data' accepts' none).map
          (fun r => (r.ret, r.reply, r.ptr))) := by
  refine ⟨?_, ?_, ?_, ?_, rfl, fun _ => ⟨rfl, rfl⟩, ?_⟩
  · intro h
    rw [h]; exact daemon.accessHandlerCallback_options setting cls url upload_data accepts none
  · intro _ h2 h3
    rw [h2, h3]; exact daemon.accessHandlerCallback_get_root setting cls upload_data accepts none
  · intro h1 h2 h3
    exact daemon.accessHandlerCallback_not_allowed setting cls url method upload_data accepts
      none h1 h2 h3
  · intro h
    rw [h, daemon.accessHandlerCallback_post]
  · intro cls' upload_data' accepts'
    by_cases h1 : method = "OPTIONS"
    · rw [h1, daemon.accessHandlerCallback_options, daemon.accessHandlerCallback_options]
      rfl
    · by_cases h2 : method = "GET" ∧ url = setting.ROOT_URL
      · rw [h2.1, h2.2, daemon.accessHandlerCallback_get_root,
          daemon.accessHandlerCallback_get_root]
        rfl
      · by_cases h3 : method = "POST"
        · rw [h3, daemon.accessHandlerCallback_post, daemon.accessHandlerCallback_post]
          rfl
        · rw [daemon.accessHandlerCallback_not_allowed setting cls url method upload_data
              accepts none h1 h2 h3,
            daemon.accessHandlerCallback_not_allowed setting cls' url method upload_data'
              accepts' none h1 h2 h3]
          rfl

/-- C12 at a GET on "/index" (not the root URL "/"), a GET on "/" and a POST. -/
theorem C12_first_callback_decision_witness :
    (daemon.accessHandlerCallback daemon.sampleSetting daemon.sampleHandler "/index" "GET"
        [] (fun _ => 0) none).map (fun r => r.reply) =
      Except.ok (some (daemon.Reply.sendMethodNotAllowedResponse false)) ∧
    (daemon.accessHandlerCallback daemon.sampleSetting daemon.sampleHandler "/" "GET"
        [] (fun _ => 0) none).map (fun r => r.reply) =
      Except.ok (some (daemon.Reply.sendXmlGenericResponse
        daemon.XmlDocument.XML_MWS_ROOT_RESPONSE 200)) ∧
    (daemon.accessHandlerCallback daemon.sampleSetting daemon.sampleHandler "/" "POST"
        [] (fun _ => 0) none).map (fun r => r.ptr) =
      Except.ok (some daemon.MemStream.new) := by
  refine ⟨?_, ?_, ?_⟩
  · rw [(C12_first_callback_decision daemon.sampleSetting daemon.sampleHandler "/index" "GET"
      [] (fun _ => 0)).2.2.1 (by decide) (by decide) (by decide)]
    rfl
  · rw [(C12_first_callback_decision daemon.sampleSetting daemon.sampleHandler "/" "GET"
      [] (fun _ => 0)).2.1 (by decide) rfl rfl]
    rfl
  · rw [(C12_first_callback_decision daemon.sampleSetting daemon.sampleHandler "/" "POST"
      [] (fun _ => 0)).2.2.2.1 rfl]
    rfl

namespace daemon

theorem getOutputFile_holding (zeroSizeOk : Bool) (body : List Char) :
    MemStream.getOutputFile zeroSizeOk (MemStream.holding body) =
      Except.ok
        ({ _mode := Mode.MODE_READING_FILE, _buffer := some body, _buffer_size := body.length,
           _input := none, _output := fmemopen zeroSizeOk (some body) body.length,
           calls := [LibcCall.open_memstream, LibcCall.fclose_input,
             LibcCall.fmemopen (fmemopen zeroSizeOk (some body) body.length).isSome] },
         fmemopen zeroSizeOk (some body) body.length) := by
  have hassert : ¬ (body.length ≠ 0 ∧ fmemopen zeroSizeOk (some body) body.length = none) := by
    intro h
    have := h.2
    simp [fmemopen, h.1] at this
  simp only [MemStream.getOutputFile, MemStream.closeWritingMode, MemStream.holding,
    MemStream.new, ne_eq, not_true_eq_false, if_false, hassert, List.cons_append,
    List.nil_append]

theorem destroy_after_getOutputFile (body : List Char) (output : Option (List Char))
    (calls : List LibcCall) :
    MemStream.destroy
        { _mode := Mode.MODE_READING_FILE, _buffer := some body, _buffer_size := body.length,
          _input := none, _output := output, calls := calls } =
      Except.ok
        { _mode := Mode.MODE_READING_FILE, _buffer := some body, _buffer_size := body.length,
          _input := none, _output := none,
          calls := calls ++ (if output.isSome then [LibcCall.fclose_output] else []) ++
            [LibcCall.free true] } := by
  cases output with
  | none => simp [MemStream.destroy, MemStream.closeReadingFileMode]
  | some stream => simp [MemStream.destroy, MemStream.closeReadingFileMode]

theorem destroy_holding (written : List Char) :
    MemStream.destroy (MemStream.holding written) =
      Except.ok
        { _mode := Mode.MODE_WRITING, _buffer := some written, _buffer_size := written.length,
          _input := none, _output := none,
          calls := [LibcCall.open_memstream, LibcCall.fclose_input, LibcCall.free true] } := by
  simp [MemStream.destroy, MemStream.closeWritingMode, MemStream.holding, MemStream.new]

theorem releaseOutputBuffer_holding (written : List Char) :
    MemStream.releaseOutputBuffer (MemStream.holding written) =
      Except.ok
        ({ _mode := Mode.MODE_READING_BUFFER, _buffer := none, _buffer_size := written.length,
           _input := none, _output := none,
           calls := [LibcCall.open_memstream, LibcCall.fclose_input] },
         { data := some written, size := written.length }) := by
  simp [MemStream.releaseOutputBuffer, MemStream.getOutputBuffer, MemStream.closeWritingMode,
    MemStream.holding, MemStream.new]

theorem destroy_released (size : Nat) (calls : List LibcCall) :
    MemStream.destroy
        { _mode := Mode.MODE_READING_BUFFER, _buffer := none, _buffer_size := size,
          _input := none, _output := none, calls := calls } =
      Except.ok
        { _mode := Mode.MODE_READING_BUFFER, _buffer := none, _buffer_size := size,
          _input := none, _output := none, calls := calls ++ [LibcCall.free false] } := by
  simp [MemStream.destroy]

theorem respond_holding {Answer : Type} (setting : Setting Answer) (cls : QueryHandler Answer)
    (body : List Char) :
    ∃ r, respond setting cls (MemStream.holding body) = Except.ok r ∧
      r.ret = Ret.ofSender ∧ r.ptr = none ∧
      (match parsedQuery setting cls body with
        | none => r.reply = some badQueryReply ∧ r.handleQueryCalls = 0
        | some query =>
          if query.tokens.length = 0 then r.reply = some badQueryReply ∧ r.handleQueryCalls = 0
          else
            r.handleQueryCalls = 1 ∧
            match cls.handleQuery (restricted setting query) with
            | none => r.reply = some serverErrorReply
            | some answset =>
              if ((restricted setting query).responseFormatter.writeData answset).2 < 0 then
                r.reply = some serverErrorReply
              else
                r.reply = some (Reply.queueResponse 200
                  ((restricted setting query).responseFormatter.writeData answset).1.length
                  (some ((restricted setting query).responseFormatter.writeData answset).1)
                  [("Content-Type", (restricted setting query).responseFormatter.getContentType),
                   ("Access-Control-Allow-Origin", "*"),
                   ("Cache-Control", "no-cache, must-revalidate")])) := by
  unfold respond
  simp only [getOutputFile_holding, destroy_after_getOutputFile]
  have hp : setting.readMwsQuery (fmemopen setting.zeroSizeOk (some body) body.length)
      (if cls.isSchemaQueryHandler = true then QueryMode.QUERY_SCHEMA else QueryMode.QUERY_MWS) =
      parsedQuery setting cls body := rfl
  rw [hp]
  cases parsedQuery setting cls body with
  | none => exact ⟨_, rfl, rfl, rfl, rfl, rfl⟩
  | some query =>
    by_cases ht : query.tokens.length = 0
    · simp only [ht, if_true]
      exact ⟨_, rfl, rfl, rfl, rfl, rfl⟩
    · simp only [ht, if_false]
      have hq : (match setting.applyRestrictions with
          | some restrict => restrict query
          | none => query) = restricted setting query := rfl
      rw [hq]
      cases cls.handleQuery (restricted setting query) with
      | none => exact ⟨_, rfl, rfl, rfl, rfl, rfl⟩
      | some answset =>
        have hh : ({ MemStream.new with
            _input := some ((restricted setting query).responseFormatter.writeData answset).1 } :
            MemStream) =
            MemStream.holding ((restricted setting query).responseFormatter.writeData answset).1 :=
          rfl
        simp only [hh, destroy_holding, releaseOutputBuffer_holding, destroy_released]
        by_cases hr : ((restricted setting query).responseFormatter.writeData answset).2 < 0
        · simp only [hr, if_true]
          exact ⟨_, rfl, rfl, rfl, rfl, rfl⟩
        · simp only [hr, if_false]
          exact ⟨_, rfl, rfl, rfl, rfl, rfl⟩

end daemon

/-- C13: at the end of the body (method POST, no upload data, the body `body` in the
`MemStream` of the slot) the callback hands exactly one response to the connection.  It is
the bad-query document with status 400 iff the parser returns no query or a query with no
token, and `handleQuery` is then not called; otherwise it is the server-error document with
status 500 iff the handler returns no answer set or the formatter returns a negative value;
otherwise it has status 200, the bytes the formatter wrote as its body, and the headers
Content-Type (from the formatter), Access-Control-Allow-Origin: * and Cache-Control:
no-cache, must-revalidate. -/
theorem C13_end_of_body_response {Answer : Type} (setting : daemon.Setting Answer)
    (cls : daemon.QueryHandler Answer) (url : String) (body : List Char)
    (accepts : Nat → Nat) :
    ∃ r, daemon.accessHandlerCallback setting cls url "POST" [] accepts
          (some (daemon.MemStream.holding body)) = Except.ok r ∧
      (r.reply = some daemon.badQueryReply ↔
        (daemon.parsedQuery setting cls body = none ∨
          ∃ query, daemon.parsedQuery setting cls body = some query ∧
            query.tokens.length = 0)) ∧
      (r.reply = some daemon.badQueryReply → r.handleQueryCalls = 0) ∧
      (∀ query, daemon.parsedQuery setting cls body = some query → query.tokens.length ≠ 0 →
        (r.reply = some daemon.serverErrorReply ↔
          (cls.handleQuery (daemon.restricted setting query) = none ∨
            ∃ answset, cls.handleQuery (daemon.restricted setting query) = some answset ∧
              ((daemon.restricted setting query).responseFormatter.writeData answset).2 < 0)) ∧
        (∀ answset, cls.handleQuery (daemon.restricted setting query) = some answset →
          ¬ ((daemon.restricted setting query).responseFormatter.writeData answset).2 < 0 →
          r.reply = some (daemon.Reply.queueResponse 200
            ((daemon.restricted setting query).responseFormatter.writeData answset).1.length
            (some ((daemon.restricted setting query).responseFormatter.writeData answset).1)
            [("Content-Type", (daemon.restricted setting query).responseFormatter.getContentType),
             ("Access-Control-Allow-Origin", "*"),
             ("Cache-Control", "no-cache, must-revalidate")]))) ∧
      (r.reply = some daemon.badQueryReply ∨ r.reply = some daemon.serverErrorReply ∨
        ∃ (written : List Char) (contentType : String),
          r.reply = some (daemon.Reply.queueResponse 200 written.length (some written)
            [("Content-Type", contentType), ("Access-Control-Allow-Origin", "*"),
             ("Cache-Control", "no-cache, must-revalidate")])) ∧
      daemon.badQueryReply.status = 400 ∧ daemon.serverErrorReply.status = 500 := by
  obtain ⟨r, hr, _, _, hmatch⟩ := daemon.respond_holding setting cls body
  refine ⟨r, ?_, ?_⟩
  · rw [daemon.accessHandlerCallback_post]
    simpa using hr
  have hbe : daemon.badQueryReply ≠ daemon.serverErrorReply := by decide
  have hbq : ∀ s d h, daemon.badQueryReply ≠ daemon.Reply.queueResponse 200 s d h := by
    intro s d h e
    simp [daemon.badQueryReply] at e
  have heq : ∀ s d h, daemon.serverErrorReply ≠ daemon.Reply.queueResponse 200 s d h := by
    intro s d h e
    simp [daemon.serverErrorReply] at e
  cases hp : daemon.parsedQuery setting cls body with
  | none =>
    rw [hp] at hmatch
    simp only at hmatch
    refine ⟨⟨fun _ => Or.inl rfl, fun _ => hmatch.1⟩, fun _ => hmatch.2, ?_, Or.inl hmatch.1,
      rfl, rfl⟩
    intro query hq
    exact absurd hq (by simp)
  | some query =>
    rw [hp] at hmatch
    simp only at hmatch
    by_cases ht : query.tokens.length = 0
    · rw [if_pos ht] at hmatch
      refine ⟨⟨fun _ => Or.inr ⟨query, rfl, ht⟩, fun _ => hmatch.1⟩, fun _ => hmatch.2, ?_,
        Or.inl hmatch.1, rfl, rfl⟩
      intro query' hq hne
      simp only [Option.some.injEq] at hq
      rw [← hq] at hne
      exact absurd ht hne
    · rw [if_neg ht] at hmatch
      obtain ⟨_, hmatch⟩ := hmatch
      cases hh : cls.handleQuery (daemon.restricted setting query) with
      | none =>
        rw [hh] at hmatch
        simp only at hmatch
        have hne : r.reply ≠ some daemon.badQueryReply := by
          rw [hmatch]; intro e
          exact hbe (Option.some.inj e).symm
        refine ⟨⟨fun e => absurd e hne, ?_⟩, fun e => absurd e hne, ?_, Or.inr (Or.inl hmatch),
          rfl, rfl⟩
        · rintro (h | ⟨q, hq, hz⟩)
          · exact absurd h (by simp)
          · simp only [Option.some.injEq] at hq
            rw [← hq] at hz
            exact absurd hz ht
        · intro query' hq _
          simp only [Option.some.injEq] at hq
          subst hq
          rw [hh]
          refine ⟨⟨fun _ => Or.inl rfl, fun _ => hmatch⟩, ?_⟩
          intro answset ha
          exact absurd ha (by simp)
      | some answset =>
        rw [hh] at hmatch
        simp only at hmatch
        by_cases hneg :
            ((daemon.restricted setting query).responseFormatter.writeData answset).2 < 0
        · rw [if_pos hneg] at hmatch
          have hne : r.reply ≠ some daemon.badQueryReply := by
            rw [hmatch]; intro e
            exact hbe (Option.some.inj e).symm
          refine ⟨⟨fun e => absurd e hne, ?_⟩, fun e => absurd e hne, ?_,
            Or.inr (Or.inl hmatch), rfl, rfl⟩
          · rintro (h | ⟨q, hq, hz⟩)
            · exact absurd h (by simp)
            · simp only [Option.some.injEq] at hq
              rw [← hq] at hz
              exact absurd hz ht
          · intro query' hq _
            simp only [Option.some.injEq] at hq
            subst hq
            rw [hh]
            refine ⟨⟨fun _ => Or.inr ⟨answset, rfl, hneg⟩, fun _ => hmatch⟩, ?_⟩
            intro answset' ha hge
            simp only [Option.some.injEq] at ha
            subst ha
            exact absurd hneg hge
        · rw [if_neg hneg] at hmatch
          have hne : r.reply ≠ some daemon.badQueryReply := by
            rw [hmatch]; intro e
            exact hbq _ _ _ (Option.some.inj e).symm
          have hne2 : r.reply ≠ some daemon.serverErrorReply := by
            rw [hmatch]; intro e
            exact heq _ _ _ (Option.some.inj e).symm
          refine ⟨⟨fun e => absurd e hne, ?_⟩, fun e => absurd e hne, ?_,
            Or.inr (Or.inr ⟨_, _, hmatch⟩), rfl, rfl⟩
          · rintro (h | ⟨q, hq, hz⟩)
            · exact absurd h (by simp)
            · simp only [Option.some.injEq] at hq
              rw [← hq] at hz
              exact absurd hz ht
          · intro query' hq _
            simp only [Option.some.injEq] at hq
            subst hq
            rw [hh]
            refine ⟨⟨fun e => absurd e hne2, ?_⟩, ?_⟩
            · rintro (h | ⟨a, ha, hlt⟩)
              · exact absurd h (by simp)
              · simp only [Option.some.injEq] at ha
                subst ha
                exact absurd hlt hneg
            · intro answset' ha _
              simp only [Option.some.injEq] at ha
              subst ha
              exact hmatch

/-- C13 with the sample parser, handler and formatter: the body "q" gets the response
with status 200 and the body "ok" that the formatter wrote, the empty body the bad-query
response. -/
theorem C13_end_of_body_response_witness :
    (daemon.accessHandlerCallback daemon.sampleSetting daemon.sampleHandler "/" "POST" []
        (fun _ => 0) (some (daemon.MemStream.holding ['q']))).map (fun r => r.reply) =
      Except.ok (some (daemon.Reply.queueResponse 200 2 (some ['o', 'k'])
        [("Content-Type", "text/xml"), ("Access-Control-Allow-Origin", "*"),
         ("Cache-Control", "no-cache, must-revalidate")])) ∧
    (daemon.accessHandlerCallback daemon.sampleSetting daemon.sampleHandler "/" "POST" []
        (fun _ => 0) (some (daemon.MemStream.holding []))).map (fun r => r.reply) =
      Except.ok (some daemon.badQueryReply) := by
  constructor
  · obtain ⟨r, hr, _, _, h3, _⟩ := C13_end_of_body_response daemon.sampleSetting
      daemon.sampleHandler "/" ['q'] (fun _ => 0)
    rw [hr]
    exact congrArg Except.ok (((h3 _ rfl (by decide)).2 () rfl (by decide)))
  · obtain ⟨r, hr, h1, _⟩ := C13_end_of_body_response daemon.sampleSetting
      daemon.sampleHandler "/" [] (fun _ => 0)
    rw [hr]
    exact congrArg Except.ok (h1.2 (Or.inl rfl))

namespace daemon

theorem write_holding (accept : Nat) (data w : List Char) :
    MemStream.write accept data (MemStream.holding w) =
      Except.ok (min accept data.length,
        MemStream.holding (w ++ data.take (min accept data.length))) := by
  simp [MemStream.write, MemStream.getInput, MemStream.holding, fwrite]

theorem accumulate_holding (accepts : Nat → Nat) (fuel : Nat) :
    ∀ (k : Nat) (data w : List Char), data.length ≤ fuel →
      ∃ exit, accumulate accepts fuel k data (MemStream.holding w) = Except.ok exit ∧
        (∀ m, exit = LoopExit.done m → m = MemStream.holding (w ++ data)) ∧
        (∀ d n, exit = LoopExit.failed d n →
          (∃ j, k ≤ j ∧ accepts j = 0) ∧ n ≠ 0 ∧
          ∃ w', MemStream.destroy (MemStream.holding w') = Except.ok d) ∧
        ((∀ j, k ≤ j → 1 ≤ accepts j) → exit = LoopExit.done (MemStream.holding (w ++ data))) ∧
        (accepts k = 0 → data ≠ [] →
          ∃ d, MemStream.destroy (MemStream.holding w) = Except.ok d ∧
            exit = LoopExit.failed d data.length) := by
  induction fuel with
  | zero =>
    intro k data w hlen
    have hd : data = [] := List.length_eq_zero.1 (Nat.le_zero.1 hlen)
    subst hd
    refine ⟨LoopExit.done (MemStream.holding w), by simp [accumulate], ?_, ?_, ?_, ?_⟩
    · intro m hm
      simp only [LoopExit.done.injEq] at hm
      rw [← hm, List.append_nil]
    · intro d n hf
      exact absurd hf (by simp)
    · intro _
      rw [List.append_nil]
    · intro _ hne
      exact absurd rfl hne
  | succ fuel ih =>
    intro k data w hlen
    cases data with
    | nil =>
      refine ⟨LoopExit.done (MemStream.holding w), by simp [accumulate], ?_, ?_, ?_, ?_⟩
      · intro m hm
        simp only [LoopExit.done.injEq] at hm
        rw [← hm, List.append_nil]
      · intro d n hf
        exact absurd hf (by simp)
      · intro _
        rw [List.append_nil]
      · intro _ hne
        exact absurd rfl hne
    | cons c cs =>
      rw [accumulate, write_holding]
      simp only []
      by_cases hz : min (accepts k) (c :: cs).length ≤ 0
      · have hk : accepts k = 0 := by
          simp only [List.length_cons] at hz
          omega
        rw [if_pos hz, destroy_holding]
        refine ⟨_, rfl, ?_, ?_, ?_, ?_⟩
        · intro m hm
          exact absurd hm (by simp)
        · intro d n hf
          simp only [LoopExit.failed.injEq] at hf
          refine ⟨⟨k, Nat.le_refl k, hk⟩, ?_, ⟨w, ?_⟩⟩
          · rw [← hf.2]; simp
          · rw [destroy_holding, hf.1]
        · intro hall
          have := hall k (Nat.le_refl k)
          omega
        · intro _ _
          exact ⟨_, rfl, rfl⟩
      · rw [if_neg hz]
        have hpos : 0 < min (accepts k) (c :: cs).length := by omega
        have hlen' : ((c :: cs).drop (min (accepts k) (c :: cs).length)).length ≤ fuel := by
          rw [List.length_drop]
          simp only [List.length_cons] at hlen hpos ⊢
          omega
        obtain ⟨exit, he, h1, h2, h3, _⟩ := ih (k + 1)
          ((c :: cs).drop (min (accepts k) (c :: cs).length))
          (w ++ (c :: cs).take (min (accepts k) (c :: cs).length)) hlen'
        have happ : w ++ (c :: cs).take (min (accepts k) (c :: cs).length) ++
            (c :: cs).drop (min (accepts k) (c :: cs).length) = w ++ c :: cs := by
          rw [List.append_assoc, List.take_append_drop]
        rw [happ] at h1 h3
        refine ⟨exit, he, h1, ?_, ?_, ?_⟩
        · intro d n hf
          obtain ⟨⟨j, hj, hj0⟩, hn, hw⟩ := h2 d n hf
          exact ⟨⟨j, by omega, hj0⟩, hn, hw⟩
        · intro hall
          exact h3 (fun j hj => hall j (by omega))
        · intro hk _
          rw [hk] at hpos
          simp at hpos

end daemon

namespace daemon

theorem offered_le (accepts : Nat → Nat) (size : Nat) (k : Nat) :
    offered accepts size k ≤ size := by
  induction k with
  | zero => exact Nat.le_refl _
  | succ k ih =>
    rw [offered]
    omega

theorem offered_shift (accepts : Nat → Nat) (size k : Nat) (i : Nat) :
    offered (fun j => accepts (k + 1 + j)) (size - min (accepts k) size) i =
      offered (fun j => accepts (k + j)) size (i + 1) := by
  induction i with
  | zero => simp [offered]
  | succ i ih =>
    have e : k + 1 + i = k + (i + 1) := by omega
    show offered (fun j => accepts (k + 1 + j)) (size - min (accepts k) size) i -
        min (accepts (k + 1 + i))
          (offered (fun j => accepts (k + 1 + j)) (size - min (accepts k) size) i) =
      offered (fun j => accepts (k + j)) size (i + 1) -
        min (accepts (k + (i + 1))) (offered (fun j => accepts (k + j)) size (i + 1))
    rw [ih, e]

theorem accumulate_exit (accepts : Nat → Nat) (fuel : Nat) :
    ∀ (k : Nat) (data w : List Char), data.length ≤ fuel →
      ∃ exit, accumulate accepts fuel k data (MemStream.holding w) = Except.ok exit ∧
        (∀ m, exit = LoopExit.done m →
          ∀ i, offered (fun j => accepts (k + j)) data.length i ≠ 0 → 1 ≤ accepts (k + i)) ∧
        (∀ d n, exit = LoopExit.failed d n →
          ∃ i, (∀ j, j < i → 1 ≤ accepts (k + j)) ∧
            offered (fun j => accepts (k + j)) data.length i = n ∧ n ≠ 0 ∧
            accepts (k + i) = 0 ∧
            MemStream.destroy (MemStream.holding (w ++ data.take (data.length - n))) =
              Except.ok d) := by
  induction fuel with
  | zero =>
    intro k data w hlen
    have hd : data = [] := List.length_eq_zero.1 (Nat.le_zero.1 hlen)
    subst hd
    refine ⟨LoopExit.done (MemStream.holding w), by simp [accumulate], ?_, ?_⟩
    · intro m _ i hi
      have := offered_le (fun j => accepts (k + j)) ([] : List Char).length i
      simp only [List.length_nil] at this hi
      omega
    · intro d n hf
      exact absurd hf (by simp)
  | succ fuel ih =>
    intro k data w hlen
    cases data with
    | nil =>
      refine ⟨LoopExit.done (MemStream.holding w), by simp [accumulate], ?_, ?_⟩
      · intro m _ i hi
        have := offered_le (fun j => accepts (k + j)) ([] : List Char).length i
        simp only [List.length_nil] at this hi
        omega
      · intro d n hf
        exact absurd hf (by simp)
    | cons c cs =>
      rw [accumulate, write_holding]
      simp only []
      by_cases hz : min (accepts k) (c :: cs).length ≤ 0
      · have hk : accepts k = 0 := by
          simp only [List.length_cons] at hz
          omega
        rw [if_pos hz, destroy_holding]
        refine ⟨_, rfl, ?_, ?_⟩
        · intro m hm
          exact absurd hm (by simp)
        · intro d n hf
          simp only [LoopExit.failed.injEq] at hf
          refine ⟨0, fun j hj => absurd hj (Nat.not_lt_zero j), ?_, ?_, hk, ?_⟩
          · rw [← hf.2]; rfl
          · rw [← hf.2]; simp
          · rw [← hf.2, Nat.sub_self, List.take_zero, List.append_nil, destroy_holding, hf.1]
      · rw [if_neg hz]
        have hpos : 0 < min (accepts k) (c :: cs).length := by omega
        have hk1 : 1 ≤ accepts k := by omega
        have hdroplen : ((c :: cs).drop (min (accepts k) (c :: cs).length)).length =
            (c :: cs).length - min (accepts k) (c :: cs).length := List.length_drop _ _
        have hlen' : ((c :: cs).drop (min (accepts k) (c :: cs).length)).length ≤ fuel := by
          rw [hdroplen]
          simp only [List.length_cons] at hlen hpos ⊢
          omega
        obtain ⟨exit, he, h1, h2⟩ := ih (k + 1)
          ((c :: cs).drop (min (accepts k) (c :: cs).length))
          (w ++ (c :: cs).take (min (accepts k) (c :: cs).length)) hlen'
        rw [hdroplen] at h1 h2
        refine ⟨exit, he, ?_, ?_⟩
        · intro m hm i hi
          cases i with
          | zero => exact hk1
          | succ i =>
            rw [← offered_shift] at hi
            have := h1 m hm i hi
            have e : k + 1 + i = k + (i + 1) := by omega
            rw [e] at this
            exact this
        · intro d n hf
          obtain ⟨i, hprev, hoff, hn, hzero, hd⟩ := h2 d n hf
          have e : k + 1 + i = k + (i + 1) := by omega
          refine ⟨i + 1, ?_, ?_, hn, by rw [← e]; exact hzero, ?_⟩
          · intro j hj
            cases j with
            | zero => exact hk1
            | succ j =>
              have := hprev j (by omega)
              have e' : k + 1 + j = k + (j + 1) := by omega
              rw [e'] at this
              exact this
          · rw [← offered_shift]; exact hoff
          · have hle : n ≤ (c :: cs).length - min (accepts k) (c :: cs).length := by
              rw [← hoff]
              exact offered_le _ _ _
            have hmin : min (accepts k) (c :: cs).length ≤ (c :: cs).length :=
              Nat.min_le_right _ _
            have htake : w ++ (c :: cs).take (min (accepts k) (c :: cs).length) ++
                ((c :: cs).drop (min (accepts k) (c :: cs).length)).take
                  ((c :: cs).length - min (accepts k) (c :: cs).length - n) =
                w ++ (c :: cs).take ((c :: cs).length - n) := by
              rw [List.append_assoc, ← List.take_add]
              congr 2
              omega
            rw [htake] at hd
            exact hd

end daemon

/-- C14, as the code has it: for every chunk delivered to a connection whose `MemStream`
holds the bytes written so far, a write that takes no byte is fatal, whichever write of the
loop it is: when the `k`-th write, reached after writes that each took at least one byte,
is offered bytes and takes none, the callback returns `MHD_NO` and destroys the
`MemStream` (stream closed, memory freed) with the bytes written before; and the callback
returns `MHD_NO` in no other case.  A write that takes at least one byte and fewer than it
was offered is not fatal: when every write that is offered bytes takes at least one, the
callback returns `MHD_YES`, and whenever it returns `MHD_YES` the whole chunk is appended
and `*upload_data_size` is zero. -/
theorem C14_zero_write_is_fatal {Answer : Type} (setting : daemon.Setting Answer)
    (cls : daemon.QueryHandler Answer) (url : String) (upload_data w : List Char)
    (accepts : Nat → Nat) (hchunk : upload_data ≠ []) :
    ∃ r, daemon.accessHandlerCallback setting cls url "POST" upload_data accepts
          (some (daemon.MemStream.holding w)) = Except.ok r ∧
      (∀ k, (∀ j, j < k → 1 ≤ accepts j) →
        daemon.offered accepts upload_data.length k ≠ 0 → accepts k = 0 →
        r.ret = daemon.Ret.MHD_NO ∧ r.ptr = none ∧
        r.upload_data_size = daemon.offered accepts upload_data.length k ∧
        ∃ d, daemon.MemStream.destroy (daemon.MemStream.holding
              (w ++ upload_data.take
                (upload_data.length - daemon.offered accepts upload_data.length k))) =
            Except.ok d ∧
          r.destroyed = [d]) ∧
      (accepts 0 = 0 →
        r.ret = daemon.Ret.MHD_NO ∧ r.ptr = none ∧
        ∃ d, daemon.MemStream.destroy (daemon.MemStream.holding w) = Except.ok d ∧
          r.destroyed = [d]) ∧
      (r.ret = daemon.Ret.MHD_NO →
        (∃ k, (∀ j, j < k → 1 ≤ accepts j) ∧
          daemon.offered accepts upload_data.length k ≠ 0 ∧ accepts k = 0) ∧
        r.ptr = none ∧
        ∃ d, r.destroyed = [d] ∧ d._input = none ∧
          d.calls = [daemon.LibcCall.open_memstream, daemon.LibcCall.fclose_input,
            daemon.LibcCall.free true]) ∧
      ((∀ k, daemon.offered accepts upload_data.length k ≠ 0 → 1 ≤ accepts k) →
        r.ret = daemon.Ret.MHD_YES) ∧
      (r.ret = daemon.Ret.MHD_YES →
        r.upload_data_size = 0 ∧ r.destroyed = [] ∧
        r.ptr = some (daemon.MemStream.holding (w ++ upload_data))) ∧
      ((∀ j, 1 ≤ accepts j) →
        r.ret = daemon.Ret.MHD_YES ∧ r.upload_data_size = 0 ∧ r.destroyed = [] ∧
        r.ptr = some (daemon.MemStream.holding (w ++ upload_data))) ∧
      (r.ret = daemon.Ret.MHD_YES ∨ r.ret = daemon.Ret.MHD_NO) ∧ r.reply = none ∧
      r.handleQueryCalls = 0 := by
  obtain ⟨exit, he, h1, _, _, _⟩ :=
    daemon.accumulate_holding accepts upload_data.length 0 upload_data w (Nat.le_refl _)
  obtain ⟨exit', he', g1, g2⟩ :=
    daemon.accumulate_exit accepts upload_data.length 0 upload_data w (Nat.le_refl _)
  have hee : exit' = exit := by
    rw [he] at he'
    exact (Except.ok.inj he').symm
  subst hee
  have hshift : (fun j => accepts (0 + j)) = accepts := by
    funext j
    rw [Nat.zero_add]
  simp only [hshift, Nat.zero_add] at g1 g2
  have hlen : upload_data.length ≠ 0 := fun e => hchunk (List.length_eq_zero.1 e)
  rw [daemon.accessHandlerCallback_post]
  simp only [hlen, ne_eq, not_false_eq_true, if_true, he]
  cases exit' with
  | done m =>
    have hgood := g1 m rfl
    refine ⟨_, rfl, ?_, ?_, ?_, ?_, ?_, ?_, Or.inl rfl, rfl, rfl⟩
    · intro k _ hoff hk
      have := hgood k hoff
      omega
    · intro h0
      have := hgood 0 hlen
      omega
    · intro hno
      exact absurd hno (by simp)
    · intro _
      rfl
    · intro _
      exact ⟨rfl, rfl, congrArg some (h1 m rfl)⟩
    · intro _
      exact ⟨rfl, rfl, rfl, congrArg some (h1 m rfl)⟩
  | failed d n =>
    obtain ⟨i, hprev, hoff, hn, hzero, hd⟩ := g2 d n rfl
    refine ⟨_, rfl, ?_, ?_, ?_, ?_, ?_, ?_, Or.inr rfl, rfl, rfl⟩
    · intro k hk hoffk hk0
      have hik : i = k := by
        rcases Nat.lt_trichotomy i k with hlt | heq | hgt
        · have := hk i hlt
          omega
        · exact heq
        · have := hprev k hgt
          omega
      subst hik
      refine ⟨rfl, rfl, hoff.symm, d, ?_, rfl⟩
      rw [hoff]
      exact hd
    · intro h0
      have hi0 : i = 0 := by
        rcases Nat.eq_zero_or_pos i with h | h
        · exact h
        · have := hprev 0 h
          omega
      subst hi0
      have hn' : n = upload_data.length := hoff.symm
      rw [hn', Nat.sub_self, List.take_zero, List.append_nil] at hd
      exact ⟨rfl, rfl, d, hd, rfl⟩
    · intro _
      refine ⟨⟨i, hprev, by rw [hoff]; exact hn, hzero⟩, rfl, d, rfl, ?_⟩
      rw [daemon.destroy_holding] at hd
      simp only [Except.ok.injEq] at hd
      rw [← hd]
      exact ⟨rfl, rfl⟩
    · intro hall
      have := hall i (by rw [hoff]; exact hn)
      omega
    · intro hyes
      exact absurd hyes (by simp)
    · intro hall
      have := hall i
      omega

/-- C14 at the chunk "ab" where the first write takes one byte and the second none: the
callback returns `MHD_NO` and destroys the `MemStream` that holds "a". -/
theorem C14_zero_write_is_fatal_witness :
    (daemon.accessHandlerCallback daemon.sampleSetting daemon.sampleHandler "/" "POST"
        ['a', 'b'] (fun k => if k = 0 then 1 else 0)
        (some (daemon.MemStream.holding []))).map (fun r => (r.ret, r.destroyed)) =
      Except.ok (daemon.Ret.MHD_NO,
        [{ _mode := daemon.Mode.MODE_WRITING, _buffer := some ['a'], _buffer_size := 1,
           _input := none, _output := none,
           calls := [daemon.LibcCall.open_memstream, daemon.LibcCall.fclose_input,
             daemon.LibcCall.free true] }]) := by
  obtain ⟨r, hr, h1, _⟩ := C14_zero_write_is_fatal daemon.sampleSetting daemon.sampleHandler "/"
    ['a', 'b'] [] (fun k => if k = 0 then 1 else 0) (by decide)
  obtain ⟨hret, _, _, d, hd, hdes⟩ := h1 1 (by decide) (by decide) (by decide)
  have hd' : d =
      { _mode := daemon.Mode.MODE_WRITING, _buffer := some ['a'], _buffer_size := 1,
        _input := none, _output := none,
        calls := [daemon.LibcCall.open_memstream, daemon.LibcCall.fclose_input,
          daemon.LibcCall.free true] } := by
    have hdes' : daemon.MemStream.destroy (daemon.MemStream.holding
        ([] ++ ['a', 'b'].take (['a', 'b'].length -
          daemon.offered (fun k => if k = 0 then 1 else 0) ['a', 'b'].length 1))) =
        Except.ok
          { _mode := daemon.Mode.MODE_WRITING, _buffer := some ['a'], _buffer_size := 1,
            _input := none, _output := none,
            calls := [daemon.LibcCall.open_memstream, daemon.LibcCall.fclose_input,
              daemon.LibcCall.free true] } := rfl
    rw [hdes'] at hd
    exact (Except.ok.inj hd).symm
  rw [hr]
  show Except.ok (r.ret, r.destroyed) = _
  rw [hret, hdes, hd']

/-- C14 fails as stated: for the chunk "ab" the first write takes one byte of the two it
is offered, a short write, and the callback writes the rest, returns `MHD_YES` and destroys
nothing. -/
theorem C14_short_write_counterexample :
    (daemon.fwrite 1 ['a', 'b'] []).1 < ['a', 'b'].length ∧
    daemon.accessHandlerCallback daemon.sampleSetting daemon.sampleHandler "/" "POST"
        ['a', 'b'] (fun _ => 1) (some daemon.MemStream.new) =
      Except.ok { ret := daemon.Ret.MHD_YES, reply := none,
                  ptr := some (daemon.MemStream.holding ['a', 'b']),
                  upload_data_size := 0, destroyed := [], handleQueryCalls := 0 } := by
  constructor
  · decide
  · rfl

namespace daemon

theorem accessHandlerCallback_chunk {Answer : Type} (setting : Setting Answer)
    (cls : QueryHandler Answer) (url : String) (upload_data w : List Char)
    (accepts : Nat → Nat) (hchunk : upload_data ≠ []) :
    ∃ r, accessHandlerCallback setting cls url "POST" upload_data accepts
          (some (MemStream.holding w)) = Except.ok r ∧
      (r.ret = Ret.MHD_YES →
        r.upload_data_size = 0 ∧ r.ptr = some (MemStream.holding (w ++ upload_data))) ∧
      ((∀ j, 1 ≤ accepts j) → r.ret = Ret.MHD_YES) := by
  obtain ⟨exit, he, h1, _, h3, _⟩ :=
    accumulate_holding accepts upload_data.length 0 upload_data w (Nat.le_refl _)
  have hlen : upload_data.length ≠ 0 := fun e => hchunk (List.length_eq_zero.1 e)
  rw [accessHandlerCallback_post]
  simp only [hlen, ne_eq, not_false_eq_true, if_true, he]
  cases exit with
  | done m => exact ⟨_, rfl, fun _ => ⟨rfl, congrArg some (h1 m rfl)⟩, fun _ => rfl⟩
  | failed d n =>
    refine ⟨_, rfl, fun hyes => absurd hyes (by simp), ?_⟩
    intro hall
    have := h3 (fun j _ => hall j)
    exact absurd this (by simp)

theorem deliverChunks_holding {Answer : Type} (setting : Setting Answer)
    (cls : QueryHandler Answer) (url : String) (chunks : List (List Char × (Nat → Nat))) :
    ∀ w : List Char, (∀ c ∈ chunks, c.1 ≠ []) →
      ∃ rs ptr, deliverChunks setting cls url (some (MemStream.holding w)) chunks =
          Except.ok (rs, ptr) ∧
        ((∀ c ∈ chunks, ∀ k, 1 ≤ c.2 k) → ∀ r ∈ rs, r.ret = Ret.MHD_YES) ∧
        ((∀ r ∈ rs, r.ret = Ret.MHD_YES) →
          rs.length = chunks.length ∧ (∀ r ∈ rs, r.upload_data_size = 0) ∧
          ptr = some (MemStream.holding (w ++ (chunks.map Prod.fst).flatten))) := by
  induction chunks with
  | nil =>
    intro w _
    refine ⟨[], _, rfl, fun _ r hr => absurd hr (List.not_mem_nil r), fun _ => ⟨rfl, ?_, ?_⟩⟩
    · intro r hr
      exact absurd hr (List.not_mem_nil r)
    · simp
  | cons c rest ih =>
    intro w hne
    obtain ⟨upload_data, accepts⟩ := c
    have hc : upload_data ≠ [] := hne (upload_data, accepts) (List.mem_cons_self _ _)
    obtain ⟨r, hr, hyes, hall⟩ :=
      accessHandlerCallback_chunk setting cls url upload_data w accepts hc
    have hr' : accessHandlerCallback setting cls url MHD_HTTP_METHOD_POST upload_data accepts
        (some (MemStream.holding w)) = Except.ok r := hr
    rw [deliverChunks, hr']
    simp only []
    by_cases hret : r.ret = Ret.MHD_YES
    · obtain ⟨hsize, hptr⟩ := hyes hret
      obtain ⟨rs, ptr, hd, hgood, hres⟩ :=
        ih (w ++ upload_data) (fun c hc => hne c (List.mem_cons_of_mem _ hc))
      rw [if_pos hret, hptr, hd]
      refine ⟨r :: rs, ptr, rfl, ?_, ?_⟩
      · intro hacc x hx
        rcases List.mem_cons.1 hx with rfl | hm
        · exact hret
        · exact hgood (fun c hc => hacc c (List.mem_cons_of_mem _ hc)) x hm
      · intro hallyes
        obtain ⟨h1, h2, h3⟩ := hres (fun x hx => hallyes x (List.mem_cons_of_mem _ hx))
        refine ⟨by simp [h1], ?_, ?_⟩
        · intro x hx
          rcases List.mem_cons.1 hx with rfl | hm
          · exact hsize
          · exact h2 x hm
        · rw [h3]
          simp
    · rw [if_neg hret]
      refine ⟨[r], r.ptr, rfl, ?_, ?_⟩
      · intro hacc
        exact absurd (hall (hacc (upload_data, accepts) (List.mem_cons_self _ _))) hret
      · intro hallyes
        exact absurd (hallyes r (List.mem_cons_self _ _)) hret

theorem fmemopen_stream (zeroSizeOk : Bool) (body : List Char) :
    (∀ stream, fmemopen zeroSizeOk (some body) body.length = some stream → stream = body) ∧
    (body ≠ [] → fmemopen zeroSizeOk (some body) body.length = some body) := by
  by_cases hb : body = []
  · subst hb
    refine ⟨?_, fun h => absurd rfl h⟩
    intro stream hs
    cases zeroSizeOk <;> simp [fmemopen] at hs
    exact hs
  · have hlen : body.length ≠ 0 := fun e => hb (List.length_eq_zero.1 e)
    have hf : fmemopen zeroSizeOk (some body) body.length = some body := by
      simp [fmemopen, hlen]
    refine ⟨?_, fun _ => hf⟩
    intro stream hs
    rw [hf] at hs
    exact (Option.some.inj hs).symm

end daemon

/-- C15: the accumulation of a body round-trips.  For every sequence of chunks delivered to
a connection that has a new `MemStream` in its slot, the deliveries have a result (the loop
of each call ends); they all return `MHD_YES` when every write takes at least one byte; and
when they all return `MHD_YES`, each one leaves `*upload_data_size` at zero, the
`MemStream` holds the concatenation of the chunks in the order of arrival, `getOutputFile`
puts exactly these bytes in the buffer, and the stream it returns reads exactly these
bytes from its start; the stream is not null when a chunk was delivered or `fmemopen`
takes an empty buffer. -/
theorem C15_body_round_trip {Answer : Type} (setting : daemon.Setting Answer)
    (cls : daemon.QueryHandler Answer) (url : String)
    (chunks : List (List Char × (Nat → Nat))) (hchunks : ∀ c ∈ chunks, c.1 ≠ []) :
    ∃ rs ptr, daemon.deliverChunks setting cls url (some daemon.MemStream.new) chunks =
        Except.ok (rs, ptr) ∧
      ((∀ c ∈ chunks, ∀ k, 1 ≤ c.2 k) → ∀ r ∈ rs, r.ret = daemon.Ret.MHD_YES) ∧
      ((∀ r ∈ rs, r.ret = daemon.Ret.MHD_YES) →
        rs.length = chunks.length ∧ (∀ r ∈ rs, r.upload_data_size = 0) ∧
        ptr = some (daemon.MemStream.holding (chunks.map Prod.fst).flatten) ∧
        ∃ s file,
          daemon.MemStream.getOutputFile setting.zeroSizeOk
              (daemon.MemStream.holding (chunks.map Prod.fst).flatten) = Except.ok (s, file) ∧
          s._buffer = some (chunks.map Prod.fst).flatten ∧
          s._buffer_size = (chunks.map Prod.fst).flatten.length ∧
          s._output = file ∧
          (∀ stream, file = some stream → stream = (chunks.map Prod.fst).flatten) ∧
          (chunks ≠ [] ∨ setting.zeroSizeOk = true →
            file = some (chunks.map Prod.fst).flatten)) := by
  obtain ⟨rs, ptr, hd, hgood, hres⟩ :=
    daemon.deliverChunks_holding setting cls url chunks [] hchunks
  refine ⟨rs, ptr, hd, hgood, ?_⟩
  intro hall
  obtain ⟨h1, h2, h3⟩ := hres hall
  rw [List.nil_append] at h3
  refine ⟨h1, h2, h3, _, _, daemon.getOutputFile_holding _ _, rfl, rfl, rfl,
    (daemon.fmemopen_stream _ _).1, ?_⟩
  intro hne
  cases chunks with
  | nil =>
    rcases hne with h | h
    · exact absurd rfl h
    · simp [daemon.fmemopen, h]
  | cons c rest =>
    apply (daemon.fmemopen_stream _ _).2
    have hc := hchunks c (List.mem_cons_self _ _)
    intro hflat
    simp only [List.map_cons, List.flatten_cons, List.append_eq_nil] at hflat
    exact hc hflat.1

/-- C15 at the chunks "ab" (written one byte at a time) and "c". -/
theorem C15_body_round_trip_witness :
    ∃ rs ptr, daemon.deliverChunks daemon.sampleSetting daemon.sampleHandler "/"
        (some daemon.MemStream.new) [(['a', 'b'], fun _ => 1), (['c'], fun _ => 8)] =
        Except.ok (rs, ptr) ∧
      (∀ r ∈ rs, r.ret = daemon.Ret.MHD_YES) ∧
      ptr = some (daemon.MemStream.holding ['a', 'b', 'c']) := by
  obtain ⟨rs, ptr, hd, hgood, hres⟩ := C15_body_round_trip daemon.sampleSetting
    daemon.sampleHandler "/" [(['a', 'b'], fun _ => 1), (['c'], fun _ => 8)]
    (by intro c hc; simp at hc; rcases hc with rfl | rfl <;> simp)
  have hall : ∀ r ∈ rs, r.ret = daemon.Ret.MHD_YES := by
    apply hgood
    intro c hc k
    simp at hc
    rcases hc with rfl | rfl <;> simp
  exact ⟨rs, ptr, hd, hall, (hres hall).2.2.1⟩

/-! ## The daemon: the phases of a `MemStream` -/

namespace daemon

theorem closeWritingMode_ok (s s1 : MemStream) (h : MemStream.closeWritingMode s = Except.ok s1) :
    s._mode = Mode.MODE_WRITING ∧ s1._mode = Mode.MODE_WRITING ∧ s1._input = none := by
  unfold MemStream.closeWritingMode at h
  by_cases hm : s._mode = Mode.MODE_WRITING
  · simp only [hm, ne_eq, not_true_eq_false, if_false] at h
    cases hi : s._input with
    | none =>
      simp only [hi, Except.ok.injEq] at h
      rw [← h]
      exact ⟨hm, rfl, rfl⟩
    | some w =>
      simp only [hi, Except.ok.injEq] at h
      rw [← h]
      exact ⟨hm, rfl, rfl⟩
  · simp [hm] at h

theorem closeWritingMode_error (s : MemStream) (h : s._mode ≠ Mode.MODE_WRITING) :
    MemStream.closeWritingMode s = Except.error Fault.assertion := by
  simp [MemStream.closeWritingMode, h]

theorem getOutputFile_ok (zeroSizeOk : Bool) (s s1 : MemStream) (file : Option (List Char))
    (h : MemStream.getOutputFile zeroSizeOk s = Except.ok (s1, file)) :
    s._mode = Mode.MODE_WRITING ∧ s1._mode = Mode.MODE_READING_FILE ∧ s1._input = none := by
  unfold MemStream.getOutputFile at h
  cases hc : MemStream.closeWritingMode s with
  | error e => simp [hc] at h
  | ok s0 =>
    obtain ⟨h1, _, h3⟩ := closeWritingMode_ok s s0 hc
    simp only [hc] at h
    by_cases ha : s0._buffer_size ≠ 0 ∧ fmemopen zeroSizeOk s0._buffer s0._buffer_size = none
    · rw [if_pos ha] at h
      exact absurd h (by simp)
    · rw [if_neg ha] at h
      simp only [Except.ok.injEq, Prod.mk.injEq] at h
      rw [← h.1]
      exact ⟨h1, rfl, h3⟩

theorem getOutputBuffer_ok (s s1 : MemStream) (buffer : Buffer)
    (h : MemStream.getOutputBuffer s = Except.ok (s1, buffer)) :
    s._mode = Mode.MODE_WRITING ∧ s1._mode = Mode.MODE_READING_BUFFER ∧ s1._input = none := by
  unfold MemStream.getOutputBuffer at h
  cases hc : MemStream.closeWritingMode s with
  | error e => simp [hc] at h
  | ok s0 =>
    obtain ⟨h1, _, h3⟩ := closeWritingMode_ok s s0 hc
    simp only [hc, Except.ok.injEq, Prod.mk.injEq] at h
    rw [← h.1]
    exact ⟨h1, rfl, h3⟩

theorem releaseOutputBuffer_ok (s s1 : MemStream) (buffer : Buffer)
    (h : MemStream.releaseOutputBuffer s = Except.ok (s1, buffer)) :
    s._mode = Mode.MODE_WRITING ∧ s1._mode = Mode.MODE_READING_BUFFER ∧ s1._input = none ∧
      s1._buffer = none := by
  unfold MemStream.releaseOutputBuffer at h
  cases hc : MemStream.getOutputBuffer s with
  | error e => simp [hc] at h
  | ok r =>
    obtain ⟨s0, b0⟩ := r
    obtain ⟨h1, h2, h3⟩ := getOutputBuffer_ok s s0 b0 hc
    simp only [hc, Except.ok.injEq, Prod.mk.injEq] at h
    rw [← h.1]
    exact ⟨h1, h2, h3, rfl⟩

theorem step_conversion_ok (zeroSizeOk : Bool) (s s1 : MemStream) (op : Op)
    (hop : op.isConversion = true) (h : MemStream.step zeroSizeOk s op = Except.ok s1) :
    s._mode = Mode.MODE_WRITING ∧ s1._mode ≠ Mode.MODE_WRITING ∧ s1.getInput = none := by
  cases op with
  | getInput => simp [Op.isConversion] at hop
  | write accept ptr => simp [Op.isConversion] at hop
  | getOutputFile =>
    simp only [MemStream.step] at h
    cases hc : MemStream.getOutputFile zeroSizeOk s with
    | error e => simp [hc] at h
    | ok r =>
      obtain ⟨s0, f0⟩ := r
      simp only [hc, Except.ok.injEq] at h
      obtain ⟨h1, h2, h3⟩ := getOutputFile_ok zeroSizeOk s s0 f0 hc
      rw [← h]
      exact ⟨h1, by rw [h2]; decide, h3⟩
  | getOutputBuffer =>
    simp only [MemStream.step] at h
    cases hc : MemStream.getOutputBuffer s with
    | error e => simp [hc] at h
    | ok r =>
      obtain ⟨s0, f0⟩ := r
      simp only [hc, Except.ok.injEq] at h
      obtain ⟨h1, h2, h3⟩ := getOutputBuffer_ok s s0 f0 hc
      rw [← h]
      exact ⟨h1, by rw [h2]; decide, h3⟩
  | releaseOutputBuffer =>
    simp only [MemStream.step] at h
    cases hc : MemStream.releaseOutputBuffer s with
    | error e => simp [hc] at h
    | ok r =>
      obtain ⟨s0, f0⟩ := r
      simp only [hc, Except.ok.injEq] at h
      obtain ⟨h1, h2, h3, _⟩ := releaseOutputBuffer_ok s s0 f0 hc
      rw [← h]
      exact ⟨h1, by rw [h2]; decide, h3⟩

theorem step_conversion_error (zeroSizeOk : Bool) (s : MemStream) (op : Op)
    (hop : op.isConversion = true) (h : s._mode ≠ Mode.MODE_WRITING) :
    MemStream.step zeroSizeOk s op = Except.error Fault.assertion := by
  cases op with
  | getInput => simp [Op.isConversion] at hop
  | write accept ptr => simp [Op.isConversion] at hop
  | getOutputFile =>
    simp [MemStream.step, MemStream.getOutputFile, closeWritingMode_error s h]
  | getOutputBuffer =>
    simp [MemStream.step, MemStream.getOutputBuffer, closeWritingMode_error s h]
  | releaseOutputBuffer =>
    simp [MemStream.step, MemStream.releaseOutputBuffer, MemStream.getOutputBuffer,
      closeWritingMode_error s h]

theorem step_keeps_closed (zeroSizeOk : Bool) (s s1 : MemStream) (op : Op)
    (h : MemStream.step zeroSizeOk s op = Except.ok s1)
    (hm : s._mode ≠ Mode.MODE_WRITING) :
    s1._mode ≠ Mode.MODE_WRITING ∧ (s.getInput = none → s1.getInput = none) := by
  cases op with
  | getInput =>
    simp only [MemStream.step, Except.ok.injEq] at h
    rw [← h]
    exact ⟨hm, fun hi => hi⟩
  | write accept ptr =>
    simp only [MemStream.step, MemStream.write] at h
    cases hi : s.getInput with
    | none => simp [hi] at h
    | some stream =>
      simp only [hi, Except.ok.injEq] at h
      rw [← h]
      exact ⟨hm, fun e => absurd e (by simp)⟩
  | getOutputFile =>
    rw [step_conversion_error zeroSizeOk s Op.getOutputFile rfl hm] at h
    exact absurd h (by simp)
  | getOutputBuffer =>
    rw [step_conversion_error zeroSizeOk s Op.getOutputBuffer rfl hm] at h
    exact absurd h (by simp)
  | releaseOutputBuffer =>
    rw [step_conversion_error zeroSizeOk s Op.releaseOutputBuffer rfl hm] at h
    exact absurd h (by simp)

theorem run_keeps_closed (zeroSizeOk : Bool) (ops : List Op) :
    ∀ (s s1 : MemStream), MemStream.run zeroSizeOk s ops = Except.ok s1 →
      s._mode ≠ Mode.MODE_WRITING →
      s1._mode ≠ Mode.MODE_WRITING ∧ (s.getInput = none → s1.getInput = none) := by
  induction ops with
  | nil =>
    intro s s1 h hm
    simp only [MemStream.run, Except.ok.injEq] at h
    rw [← h]
    exact ⟨hm, fun hi => hi⟩
  | cons op rest ih =>
    intro s s1 h hm
    simp only [MemStream.run] at h
    cases hs : MemStream.step zeroSizeOk s op with
    | error e => simp [hs] at h
    | ok s0 =>
      simp only [hs] at h
      obtain ⟨h1, h2⟩ := step_keeps_closed zeroSizeOk s s0 op hs hm
      obtain ⟨h3, h4⟩ := ih s0 s1 h h1
      exact ⟨h3, fun hi => h4 (h2 hi)⟩

end daemon

/-- C16: the phases of a `MemStream` go one way.  A new `MemStream` is in writing mode;
a conversion (`getOutputFile`, `getOutputBuffer`, `releaseOutputBuffer`) passes its
assertion only in writing mode, fails it in the other modes, and leaves the mode
non-writing and the write handle of `getInput` null; no operation brings a `MemStream`
back to writing mode or gives it a write handle again, so a second conversion on the same
`MemStream`, whatever operations lie between, fails the assertion, and a write finds no
handle to append a byte. -/
theorem C16_memstream_phases_one_way (zeroSizeOk : Bool) :
    daemon.MemStream.new._mode = daemon.Mode.MODE_WRITING ∧
    (∀ (s s1 : daemon.MemStream) (op : daemon.Op), op.isConversion = true →
      daemon.MemStream.step zeroSizeOk s op = Except.ok s1 →
      s._mode = daemon.Mode.MODE_WRITING ∧ s1._mode ≠ daemon.Mode.MODE_WRITING ∧
      s1.getInput = none) ∧
    (∀ (s : daemon.MemStream) (op : daemon.Op), op.isConversion = true →
      s._mode ≠ daemon.Mode.MODE_WRITING →
      daemon.MemStream.step zeroSizeOk s op = Except.error daemon.Fault.assertion) ∧
    (∀ (s s1 : daemon.MemStream) (ops : List daemon.Op),
      daemon.MemStream.run zeroSizeOk s ops = Except.ok s1 →
      s._mode ≠ daemon.Mode.MODE_WRITING → s1._mode ≠ daemon.Mode.MODE_WRITING) ∧
    (∀ (s s1 s2 : daemon.MemStream) (op1 op2 : daemon.Op) (ops : List daemon.Op),
      op1.isConversion = true → op2.isConversion = true →
      daemon.MemStream.step zeroSizeOk s op1 = Except.ok s1 →
      daemon.MemStream.run zeroSizeOk s1 ops = Except.ok s2 →
      daemon.MemStream.step zeroSizeOk s2 op2 = Except.error daemon.Fault.assertion ∧
      s2.getInput = none ∧
      ∀ (accept : Nat) (ptr : List Char),
        daemon.MemStream.write accept ptr s2 = Except.error daemon.Fault.undefined) := by
  refine ⟨rfl, ?_, ?_, ?_, ?_⟩
  · intro s s1 op hop h
    exact daemon.step_conversion_ok zeroSizeOk s s1 op hop h
  · intro s op hop h
    exact daemon.step_conversion_error zeroSizeOk s op hop h
  · intro s s1 ops h hm
    exact (daemon.run_keeps_closed zeroSizeOk ops s s1 h hm).1
  · intro s s1 s2 op1 op2 ops hop1 hop2 h1 h2
    obtain ⟨_, hm1, hi1⟩ := daemon.step_conversion_ok zeroSizeOk s s1 op1 hop1 h1
    obtain ⟨hm2, hi2⟩ := daemon.run_keeps_closed zeroSizeOk ops s1 s2 h2 hm1
    refine ⟨daemon.step_conversion_error zeroSizeOk s2 op2 hop2 hm2, hi2 hi1, ?_⟩
    intro accept ptr
    simp only [daemon.MemStream.write, hi2 hi1]

/-- C16 at a new `MemStream`: after `releaseOutputBuffer`, and a call of `getInput`,
`getOutputFile` fails the assertion. -/
theorem C16_memstream_phases_one_way_witness :
    daemon.MemStream.step false daemon.MemStream.new daemon.Op.releaseOutputBuffer =
      Except.ok { _mode := daemon.Mode.MODE_READING_BUFFER, _buffer := none, _buffer_size := 0,
                  _input := none, _output := none,
                  calls := [daemon.LibcCall.open_memstream, daemon.LibcCall.fclose_input] } ∧
    daemon.MemStream.step false
        { _mode := daemon.Mode.MODE_READING_BUFFER, _buffer := none, _buffer_size := 0,
          _input := none, _output := none,
          calls := [daemon.LibcCall.open_memstream, daemon.LibcCall.fclose_input] }
        daemon.Op.getOutputFile = Except.error daemon.Fault.assertion :=
  ⟨rfl, ((C16_memstream_phases_one_way false).2.2.2.2 daemon.MemStream.new _ _
    daemon.Op.releaseOutputBuffer daemon.Op.getOutputFile [daemon.Op.getInput] rfl rfl
    rfl rfl).1⟩

namespace daemon

theorem getOutputBuffer_holding (written : List Char) :
    MemStream.getOutputBuffer (MemStream.holding written) =
      Except.ok
        ({ _mode := Mode.MODE_READING_BUFFER, _buffer := some written,
           _buffer_size := written.length, _input := none, _output := none,
           calls := [LibcCall.open_memstream, LibcCall.fclose_input] },
         { data := some written, size := written.length }) := by
  simp [MemStream.getOutputBuffer, MemStream.closeWritingMode, MemStream.holding,
    MemStream.new]

theorem step_of_closed (zeroSizeOk : Bool) (s s1 : MemStream) (op : Op)
    (hm : s._mode ≠ Mode.MODE_WRITING) (hi : s._input = none)
    (h : MemStream.step zeroSizeOk s op = Except.ok s1) :
    s1 = s ∧ op ≠ Op.releaseOutputBuffer := by
  cases op with
  | getInput =>
    simp only [MemStream.step, Except.ok.injEq] at h
    exact ⟨h.symm, by simp⟩
  | write accept ptr =>
    simp [MemStream.step, MemStream.write, MemStream.getInput, hi] at h
  | getOutputFile =>
    rw [step_conversion_error zeroSizeOk s Op.getOutputFile rfl hm] at h
    exact absurd h (by simp)
  | getOutputBuffer =>
    rw [step_conversion_error zeroSizeOk s Op.getOutputBuffer rfl hm] at h
    exact absurd h (by simp)
  | releaseOutputBuffer =>
    rw [step_conversion_error zeroSizeOk s Op.releaseOutputBuffer rfl hm] at h
    exact absurd h (by simp)

theorem step_reached (zeroSizeOk released : Bool) (s s1 : MemStream) (op : Op)
    (hs : MemStream.Reached zeroSizeOk released s)
    (h : MemStream.step zeroSizeOk s op = Except.ok s1) :
    MemStream.Reached zeroSizeOk (released || decide (op = Op.releaseOutputBuffer)) s1 := by
  rcases hs with ⟨w, rfl, hrel⟩ | ⟨b, rfl, hrel⟩ | ⟨b, rfl⟩
  · subst hrel
    cases op with
    | getInput =>
      simp only [MemStream.step, Except.ok.injEq] at h
      rw [← h]
      exact Or.inl ⟨w, rfl, by simp⟩
    | write accept ptr =>
      simp only [MemStream.step, write_holding, Except.ok.injEq] at h
      rw [← h]
      exact Or.inl ⟨_, rfl, by simp⟩
    | getOutputFile =>
      simp only [MemStream.step, getOutputFile_holding, Except.ok.injEq] at h
      rw [← h]
      exact Or.inr (Or.inl ⟨w, rfl, by simp⟩)
    | getOutputBuffer =>
      simp only [MemStream.step, getOutputBuffer_holding, Except.ok.injEq] at h
      rw [← h]
      exact Or.inr (Or.inr ⟨w, by simp⟩)
    | releaseOutputBuffer =>
      simp only [MemStream.step, releaseOutputBuffer_holding, Except.ok.injEq] at h
      rw [← h]
      exact Or.inr (Or.inr ⟨w, by simp⟩)
  · subst hrel
    obtain ⟨h1, h2⟩ := step_of_closed zeroSizeOk _ s1 op (by simp) rfl h
    rw [h1]
    exact Or.inr (Or.inl ⟨b, rfl, by simp [h2]⟩)
  · obtain ⟨h1, h2⟩ := step_of_closed zeroSizeOk _ s1 op (by simp) rfl h
    rw [h1]
    refine Or.inr (Or.inr ⟨b, ?_⟩)
    simp [h2]

theorem run_reached (zeroSizeOk : Bool) (ops : List Op) :
    ∀ (released : Bool) (s s1 : MemStream), MemStream.Reached zeroSizeOk released s →
      MemStream.run zeroSizeOk s ops = Except.ok s1 →
      MemStream.Reached zeroSizeOk (released || decide (Op.releaseOutputBuffer ∈ ops)) s1 := by
  induction ops with
  | nil =>
    intro released s s1 hs h
    simp only [MemStream.run, Except.ok.injEq] at h
    rw [← h]
    simpa using hs
  | cons op rest ih =>
    intro released s s1 hs h
    simp only [MemStream.run] at h
    cases hstep : MemStream.step zeroSizeOk s op with
    | error e => simp [hstep] at h
    | ok s0 =>
      simp only [hstep] at h
      have := ih _ s0 s1 (step_reached zeroSizeOk released s s0 op hs hstep) h
      have hb : (released || decide (op = Op.releaseOutputBuffer) ||
          decide (Op.releaseOutputBuffer ∈ rest)) =
          (released || decide (Op.releaseOutputBuffer ∈ op :: rest)) := by
        by_cases h1 : op = Op.releaseOutputBuffer
        · simp [h1]
        · have h2 : ¬ (Op.releaseOutputBuffer = op) := fun e => h1 e.symm
          simp [h1, h2]
      rw [hb] at this
      exact this

theorem destroy_reached (zeroSizeOk released : Bool) (s : MemStream)
    (hs : MemStream.Reached zeroSizeOk released s) :
    ∃ d, MemStream.destroy s = Except.ok d ∧ d._input = none ∧ d._output = none ∧
      d.calls = s.calls ++ (if s._input.isSome then [LibcCall.fclose_input] else []) ++
        (if s._output.isSome then [LibcCall.fclose_output] else []) ++
        [LibcCall.free (!released)] ∧
      d.calls.count LibcCall.open_memstream = 1 ∧
      d.calls.count LibcCall.fclose_input = 1 ∧
      d.calls.count LibcCall.fclose_output = d.calls.count (LibcCall.fmemopen true) ∧
      d.calls.count (LibcCall.free true) = (if released then 0 else 1) ∧
      d.calls.count (LibcCall.free true) + d.calls.count (LibcCall.free false) = 1 := by
  rcases hs with ⟨w, rfl, hrel⟩ | ⟨b, rfl, hrel⟩ | ⟨b, rfl⟩
  · subst hrel
    refine ⟨_, destroy_holding w, rfl, rfl, ?_, ?_, ?_, ?_, ?_, ?_⟩ <;>
      simp [MemStream.holding, MemStream.new, List.count_cons]
  · subst hrel
    refine ⟨_, destroy_after_getOutputFile b _ _, rfl, rfl, ?_, ?_, ?_, ?_, ?_, ?_⟩ <;>
      cases fmemopen zeroSizeOk (some b) b.length <;> simp [List.count_cons]
  · cases released with
    | false =>
      refine ⟨{ _mode := Mode.MODE_READING_BUFFER, _buffer := some b, _buffer_size := b.length,
                _input := none, _output := none,
                calls := [LibcCall.open_memstream, LibcCall.fclose_input,
                  LibcCall.free true] }, ?_, rfl, rfl, ?_, ?_, ?_, ?_, ?_, ?_⟩ <;>
        simp [MemStream.destroy, List.count_cons]
    | true =>
      refine ⟨{ _mode := Mode.MODE_READING_BUFFER, _buffer := none, _buffer_size := b.length,
                _input := none, _output := none,
                calls := [LibcCall.open_memstream, LibcCall.fclose_input,
                  LibcCall.free false] }, ?_, rfl, rfl, ?_, ?_, ?_, ?_, ?_, ?_⟩ <;>
        simp [MemStream.destroy, List.count_cons]

end daemon

/-- C17: for every state a `MemStream` reaches from its construction by public operations
that pass their assertions, the destructor passes its two assertions (`_input` and
`_output` are null), closes each handle that is still open once and no other, so that over
the life of the object the write stream is closed exactly once and the read stream as often
as it was opened, and frees the memory block exactly once, except after
`releaseOutputBuffer`, when it calls `free` on a null pointer only; the block is never
freed twice. -/
theorem C17_destructor_releases_once (zeroSizeOk : Bool) (ops : List daemon.Op)
    (s : daemon.MemStream)
    (hreach : daemon.MemStream.run zeroSizeOk daemon.MemStream.new ops = Except.ok s) :
    ∃ d, daemon.MemStream.destroy s = Except.ok d ∧ d._input = none ∧ d._output = none ∧
      d.calls = s.calls ++
        (if s._input.isSome then [daemon.LibcCall.fclose_input] else []) ++
        (if s._output.isSome then [daemon.LibcCall.fclose_output] else []) ++
        [daemon.LibcCall.free (!decide (daemon.Op.releaseOutputBuffer ∈ ops))] ∧
      d.calls.count daemon.LibcCall.open_memstream = 1 ∧
      d.calls.count daemon.LibcCall.fclose_input = 1 ∧
      d.calls.count daemon.LibcCall.fclose_output =
        d.calls.count (daemon.LibcCall.fmemopen true) ∧
      d.calls.count (daemon.LibcCall.free true) =
        (if daemon.Op.releaseOutputBuffer ∈ ops then 0 else 1) ∧
      d.calls.count (daemon.LibcCall.free true) +
        d.calls.count (daemon.LibcCall.free false) = 1 := by
  have hnew : daemon.MemStream.Reached zeroSizeOk false daemon.MemStream.new :=
    Or.inl ⟨[], rfl, rfl⟩
  have hs := daemon.run_reached zeroSizeOk ops false _ s hnew hreach
  rw [Bool.false_or] at hs
  obtain ⟨d, h1, h2, h3, h4, h5, h6, h7, h8, h9⟩ := daemon.destroy_reached zeroSizeOk _ s hs
  refine ⟨d, h1, h2, h3, h4, h5, h6, h7, ?_, h9⟩
  rw [h8]
  by_cases hr : daemon.Op.releaseOutputBuffer ∈ ops <;> simp [hr]

/-- C17 at a `MemStream` that was written to and then released. -/
theorem C17_destructor_releases_once_witness :
    ∃ d, daemon.MemStream.destroy
        { _mode := daemon.Mode.MODE_READING_BUFFER, _buffer := none, _buffer_size := 2,
          _input := none, _output := none,
          calls := [daemon.LibcCall.open_memstream, daemon.LibcCall.fclose_input] } =
        Except.ok d ∧
      d.calls.count (daemon.LibcCall.free true) = 0 := by
  obtain ⟨d, h1, _, _, _, _, _, _, h8, _⟩ := C17_destructor_releases_once false
    [daemon.Op.write 8 ['a', 'b'], daemon.Op.releaseOutputBuffer, daemon.Op.getInput]
    { _mode := daemon.Mode.MODE_READING_BUFFER, _buffer := none, _buffer_size := 2,
      _input := none, _output := none,
      calls := [daemon.LibcCall.open_memstream, daemon.LibcCall.fclose_input] } rfl
  exact ⟨d, h1, by rw [h8]; decide⟩

end mws
